import Mathlib

/-!
Verification development for the Void Dynamics Memory Manager
(`src/void_dynamics/`: `manager.py`, `memory_state.py`, `territories.py`,
`persistence.py`, `utils.py`).

Shallow embedding conventions:
* Python `float` values are modelled as `ℚ` (every IEEE double is a rational,
  and Python's JSON round-trip of floats is exact).  Opaque float primitives
  of the standard library (`math.exp`, `math.sqrt`, `0.5 ** x`, `math.log 2`)
  are deterministic functions on floats; they are abstracted as fields of a
  `Prims` bundle, so every theorem is quantified over them.
* Python `int` is `ℤ`, `str` is `String`.
* Python dicts (insertion ordered) are association lists with the exact
  `d[k] = v` / `d.get(k)` / `d.pop(k)` semantics (`alSet`, `alGet`, `alPop`).
* `collections.deque(maxlen = n)` is a list with bounded push (`pushBounded`).
* The seeded `random.Random` generator is a deterministic state machine;
  its state is a `ℕ` and its two used operations (`random()`, `shuffle`)
  are `Prims` fields, with the (true of CPython) law that `shuffle`
  permutes its input.
* JSON documents are the inductive `JValue`; `json.dump`/`json.load`
  round-trip exactly on the values produced here, so persistence is
  modelled at the `JValue` level and an I/O or parse failure is the `none`
  case of the file content.
* Python exceptions are modelled with `Except String` / `Manager × Option
  String`: a raised exception aborts the remaining statements while keeping
  the mutations already applied to the manager object.
-/

namespace VoidDyn

/-! ### Small utilities -/

/-- Clamp a rational into `[0, 1]`; translation of `memory_state.clamp01`. -/
def clamp01 (value : ℚ) : ℚ :=
  if value < 0 then 0
  else if value > 1 then 1
  else value

/-- Clamp a rational into `[lower, upper]`; translation of `utils.clamp_float`. -/
def clampFloat (value lower upper : ℚ) : ℚ :=
  if value < lower then lower
  else if value > upper then upper
  else value

/-- Python `int(x)` truncation of a float toward zero. -/
def pyTrunc (q : ℚ) : ℤ :=
  if q < 0 then -(Int.floor (-q)) else Int.floor q

/-- Bounded push-back of `collections.deque(maxlen = cap)`: appending to a
full deque drops the oldest element. -/
def pushBounded (cap : ℕ) (l : List α) (x : α) : List α :=
  let l' := l ++ [x]
  if l'.length > cap then l'.drop (l'.length - cap) else l'

/-- Python dict lookup `d.get(k)` on an insertion-ordered association list. -/
def alGet [DecidableEq κ] (l : List (κ × α)) (k : κ) : Option α :=
  match l.find? (fun p => p.1 = k) with
  | some p => some p.2
  | none => none

/-- Python dict membership `k in d`. -/
def alContains [DecidableEq κ] (l : List (κ × α)) (k : κ) : Bool :=
  (alGet l k).isSome

/-- Python dict assignment `d[k] = v`: overwrite in place when the key is
present (keeping its position), append otherwise (dict keys are unique, so
replacing the first occurrence is the dict semantics). -/
def alSet [DecidableEq κ] : List (κ × α) → κ → α → List (κ × α)
  | [], k, v => [(k, v)]
  | p :: rest, k, v => if p.1 = k then (k, v) :: rest else p :: alSet rest k v

/-- Python dict `d.pop(k, None)`: remove the binding for `k` if present. -/
def alPop [DecidableEq κ] (l : List (κ × α)) (k : κ) : List (κ × α) :=
  l.filter (fun p => p.1 ≠ k)

/-- Update the value at `k` in place when present; no-op when absent.
Models an in-place mutation of the object stored under `k`. -/
def alUpdate [DecidableEq κ] : List (κ × α) → κ → (α → α) → List (κ × α)
  | [], _, _ => []
  | p :: rest, k, f => if p.1 = k then (p.1, f p.2) :: rest else p :: alUpdate rest k f

/-- Keys of a dict in insertion order (`list(d.keys())`). -/
def alKeys (l : List (κ × α)) : List κ :=
  l.map Prod.fst

/-- Python `itertools.combinations(xs, 2)` in order. -/
def combos2 : List α → List (α × α)
  | [] => []
  | x :: xs => xs.map (fun y => (x, y)) ++ combos2 xs

/-- Python `statistics.median`: sorted data; the middle element for odd
length, the mean of the two middle elements for even length. -/
def medianQ (l : List ℚ) : ℚ :=
  let s := l.mergeSort (fun a b => decide (a ≤ b))
  let n := l.length
  if n % 2 = 1 then s.getD (n / 2) 0
  else (s.getD (n / 2 - 1) 0 + s.getD (n / 2) 0) / 2

/-! ### JSON values

JSON documents as produced and consumed by `json.dump` / `json.load`,
keeping Python's `int` / `float` distinction; objects are
insertion-ordered key lists as in Python 3.7+. -/

inductive JValue where
  | jnull : JValue
  | jbool : Bool → JValue
  | jint : ℤ → JValue
  | jnum : ℚ → JValue
  | jstr : String → JValue
  | jarr : List JValue → JValue
  | jobj : List (String × JValue) → JValue

namespace JValue

/-- Python `int(x)` on a JSON value: identity on ints, truncation on floats,
0/1 on bools, decimal parse on strings (only plain optionally-signed decimal
strings are modelled); everything else raises (`none`). -/
def toIntP : JValue → Option ℤ
  | jint n => some n
  | jnum q => some (pyTrunc q)
  | jbool b => some (if b then 1 else 0)
  | jstr _ => none
  | _ => none

/-- Python `float(x)` on a JSON value: ints and floats convert, bools map to
0.0/1.0; numeric strings are not modelled (treated as raising). -/
def toFloatP : JValue → Option ℚ
  | jint n => some (n : ℚ)
  | jnum q => some q
  | jbool b => some (if b then 1 else 0)
  | _ => none

/-- Python `bool(x)` truthiness of a JSON value. -/
def truthy : JValue → Bool
  | jnull => false
  | jbool b => b
  | jint n => n ≠ 0
  | jnum q => q ≠ 0
  | jstr s => s ≠ ""
  | jarr l => !l.isEmpty
  | jobj l => !l.isEmpty

/-- Python `str(x)` restricted to the values it is applied to here
(engram member ids and mem keys, which are strings in every snapshot
produced by the manager; other cases use a simple canonical rendering). -/
def toStrP : JValue → String
  | jstr s => s
  | jint n => toString n
  | jbool b => if b then "True" else "False"
  | jnull => "None"
  | _ => ""

end JValue

/-- Encode an optional integer (`None` / `int`) as JSON. -/
def jOptInt : Option ℤ → JValue
  | none => JValue.jnull
  | some n => JValue.jint n

/-! ### Opaque primitives

Deterministic stdlib primitives used by the source, abstracted as a bundle.
`math.exp`, `math.sqrt` and `**` operate on IEEE doubles, hence are
deterministic functions from rationals to rationals; `blake2b(...).hexdigest`
is a deterministic text digest; `random.Random(seed)` is a deterministic
generator whose `shuffle` produces a permutation of its input. -/

structure Prims where
  expQ : ℚ → ℚ
  sqrtQ : ℚ → ℚ
  rpow : ℚ → ℚ → ℚ
  ln2 : ℚ
  blake2bHex : String → String
  rngInit : Option ℤ → ℕ
  rngRandom : ℕ → ℚ × ℕ
  rngShuffle : ℕ → List String → List String × ℕ
  shuffle_perm : ∀ s l, ((rngShuffle s l).1).Perm l

/-! ### Memory trace (`memory_state.MemoryState`) -/

structure MemState where
  memory_id : String
  text : String
  embedding : Option (List ℚ) := none
  metadata : JValue := JValue.jnull
  territory_id : Option ℤ := none
  ttl : ℤ := 0
  last_touch_tick : ℤ := 0
  use_count : ℤ := 0
  mass : ℚ := 1
  heat : ℚ := 0
  confidence : ℚ := 1/2
  novelty : ℚ := 1/2
  boredom : ℚ := 0
  inhibition : ℚ := 0
  frontier_hits : ℤ := 0
  pending_condense : Bool := false

namespace MemState

/-- Translation of `MemoryState.clamp_ranges`. -/
def clampRanges (ms : MemState) : MemState :=
  { ms with
    confidence := clamp01 ms.confidence
    novelty := clamp01 ms.novelty
    boredom := clamp01 ms.boredom
    mass := if ms.mass < 0 then 0 else ms.mass
    heat := if ms.heat < 0 then 0 else ms.heat
    ttl := if ms.ttl < 0 then 0 else ms.ttl
    inhibition := if ms.inhibition < 0 then 0 else ms.inhibition }

/-- Translation of `MemoryState.to_dict` (exact key order). -/
def toDict (ms : MemState) : JValue :=
  JValue.jobj
    [ ("text", JValue.jstr ms.text)
    , ("embedding", match ms.embedding with
        | none => JValue.jnull
        | some e => JValue.jarr (e.map JValue.jnum))
    , ("metadata", ms.metadata)
    , ("territory_id", jOptInt ms.territory_id)
    , ("ttl", JValue.jint ms.ttl)
    , ("last_touch_tick", JValue.jint ms.last_touch_tick)
    , ("use_count", JValue.jint ms.use_count)
    , ("mass", JValue.jnum ms.mass)
    , ("heat", JValue.jnum ms.heat)
    , ("confidence", JValue.jnum ms.confidence)
    , ("novelty", JValue.jnum ms.novelty)
    , ("boredom", JValue.jnum ms.boredom)
    , ("inhibition", JValue.jnum ms.inhibition)
    , ("frontier_hits", JValue.jint ms.frontier_hits)
    , ("pending_condense", JValue.jbool ms.pending_condense) ]

end MemState

/-! ### Well-formedness predicates

Facts maintained by the code itself: every trace is a fixed point of
`clamp_ranges` (the clamp runs after each mutation), and dict keys are the
`memory_id` fields of their values. -/

/-- Range discipline of a clamped trace. -/
def wfTrace (ms : MemState) : Prop :=
  0 ≤ ms.confidence ∧ ms.confidence ≤ 1 ∧
  0 ≤ ms.novelty ∧ ms.novelty ≤ 1 ∧
  0 ≤ ms.boredom ∧ ms.boredom ≤ 1 ∧
  0 ≤ ms.mass ∧ 0 ≤ ms.heat ∧ 0 ≤ ms.ttl ∧ 0 ≤ ms.inhibition

instance (ms : MemState) : Decidable (wfTrace ms) := by
  unfold wfTrace
  infer_instance

/-- Result of one degradation on a trace as stated by the spec:
TTL capped at the floor, boredom bumped by 0.1 and capped at 1. -/
def degradedTrace (floor : ℤ) (ms : MemState) : MemState :=
  { ms with ttl := min ms.ttl floor, boredom := min 1 (ms.boredom + 1/10) }


/-- Object field access `data.get(key, default)` for JSON objects; raises
(`none` at the call sites that propagate it) when the value is not an
object. -/
def jGetD (data : JValue) (key : String) (dflt : JValue) : JValue :=
  match data with
  | JValue.jobj l => (alGet l key).getD dflt
  | _ => dflt

/-- Object branch of `MemoryState.from_dict`. -/
def memFromDictBody (memory_id : String) (data : JValue) : Except String MemState := do
    let embedding ← (match jGetD data "embedding" JValue.jnull with
      | JValue.jnull => Except.ok none
      | JValue.jarr l => do
          let vals ← l.mapM (fun v => (v.toFloatP).elim (Except.error "float cast") Except.ok)
          Except.ok (some vals)
      | _ => Except.error "embedding is not iterable")
    let tid ← (match jGetD data "territory_id" JValue.jnull with
      | JValue.jnull => Except.ok none
      | JValue.jint n => Except.ok (some n)
      | _ => Except.error "territory id not modelled")
    let getInt := fun (key : String) (d : ℤ) =>
      ((jGetD data key (JValue.jint d)).toIntP).elim (Except.error "int cast") Except.ok
    let getFloat := fun (key : String) (d : ℚ) =>
      ((jGetD data key (JValue.jnum d)).toFloatP).elim (Except.error "float cast") Except.ok
    let ttl ← getInt "ttl" 0
    let last_touch ← getInt "last_touch_tick" 0
    let use_count ← getInt "use_count" 0
    let mass ← getFloat "mass" 1
    let heat ← getFloat "heat" 0
    let confidence ← getFloat "confidence" (1/2)
    let novelty ← getFloat "novelty" (1/2)
    let boredom ← getFloat "boredom" 0
    let inhibition ← getFloat "inhibition" 0
    let frontier_hits ← getInt "frontier_hits" 0
    let pending := (jGetD data "pending_condense" (JValue.jbool false)).truthy
    let text := match jGetD data "text" (JValue.jstr "") with
      | JValue.jstr s => s
      | v => v.toStrP
    Except.ok (MemState.clampRanges
      { memory_id := memory_id
        text := text
        embedding := embedding
        metadata := jGetD data "metadata" JValue.jnull
        territory_id := tid
        ttl := ttl
        last_touch_tick := last_touch
        use_count := use_count
        mass := mass
        heat := heat
        confidence := confidence
        novelty := novelty
        boredom := boredom
        inhibition := inhibition
        frontier_hits := frontier_hits
        pending_condense := pending })

/-- Translation of `MemoryState.from_dict`; `Except` models the exceptions
of the failed `int` / `float` casts, which the caller catches per entry. -/
def memFromDict (memory_id : String) (data : JValue) : Except String MemState :=
  match data with
  | JValue.jobj _ => memFromDictBody memory_id data
  | _ => Except.error "data is not a mapping"

/-! ### Manager state (`manager.VoidMemoryManager.__init__`) -/

/-- Event records are the payload dict extended with `type` and `tick`
(`_record_event`). -/
abbrev Event := List (String × JValue)

structure Manager where
  capacity : ℤ
  base_ttl : ℤ
  decay_half_life : ℤ
  prune_sample : ℤ
  prune_target_ratio : ℚ
  thread_safe : Bool
  seed : Option ℤ
  recency_half_life : ℤ
  habituation_start : ℤ
  habituation_scale : ℚ
  boredom_weight : ℚ
  frontier_novelty_threshold : ℚ
  frontier_patience : ℤ
  diffusion_interval : ℤ
  diffusion_kappa : ℚ
  exploration_churn_window : ℤ
  condensation_boredom : ℚ
  condensation_conf : ℚ
  condensation_mass : ℚ
  mem : List (String × MemState)
  tick : ℤ
  events : List Event
  nn_distances : List ℚ
  territory_centroids : List (ℤ × List ℚ)
  territory_counts : List (ℤ × ℤ)
  territory_member_dists : List (ℤ × List ℚ)
  territory_tau : ℚ
  next_territory_id : ℤ
  deterministic_ids : List (String × ℤ)
  reward_ema : ℚ
  pair_churn : List ((ℤ × ℤ) × List ℤ)
  pair_last : List ((ℤ × ℤ) × ℤ)
  exploration_temp : ℚ
  pending_condense : List String
  condense_callback : Option (List String → Option (String × String))
  engrams : List (String × List String)
  frontier : List (String × JValue)
  split_counter : ℤ
  merge_counter : ℤ
  rng : ℕ

/-- Class constant `_reward_alpha = 0.05`. -/
def rewardAlpha : ℚ := 1/20

/-- Class constant `_territory_warmup = 1000`. -/
def territoryWarmup : ℕ := 1000

/-- Translation of `_record_event`: payload dict copied, then `type` and
`tick` appended; the event deque is bounded at 1024. -/
def recordEvent (m : Manager) (eventType : String) (payload : List (String × JValue)) : Manager :=
  let data := payload ++ [("type", JValue.jstr eventType), ("tick", JValue.jint m.tick)]
  { m with events := pushBounded 1024 m.events data }

/-! ### Territory engine (`territories.py`) -/

/-- Translation of `estimate_novelty`: unique code points over 64, clamped. -/
def estimateNovelty (text : String) : ℚ :=
  if text = "" then 0
  else clamp01 ((text.toList.eraseDups.length : ℚ) / 64)

/-- Translation of `normalize_embedding` (the float `math.sqrt` is the
`Prims` primitive). -/
def normalizeEmbedding (P : Prims) (embedding : List ℚ) : List ℚ :=
  let norm := P.sqrtQ ((embedding.map (fun v => v * v)).sum)
  if norm = 0 then embedding else embedding.map (fun v => v / norm)

/-- Translation of `cosine_distance`; the `ValueError` on empty or
mismatched vectors is the `Except.error` case. -/
def cosineDistance (P : Prims) (a b : List ℚ) : Except String ℚ :=
  if a = [] ∨ b = [] ∨ a.length ≠ b.length then
    Except.error "cosine distance requires non-empty vectors of the same length"
  else
    let dot := ((a.zip b).map (fun p => p.1 * p.2)).sum
    let na := P.sqrtQ ((a.map (fun x => x * x)).sum)
    let nb := P.sqrtQ ((b.map (fun y => y * y)).sum)
    if na = 0 ∨ nb = 0 then Except.ok 1
    else Except.ok (1 - max (-1) (min 1 (dot / (na * nb))))

/-- Translation of `warmup_active`. -/
def warmupActive (m : Manager) : Bool :=
  m.nn_distances.length < territoryWarmup && m.territory_centroids.length < 50

/-- Translation of `record_nn_distance`: push into the 5000-capacity window
and refresh τ to the clamped median. -/
def recordNnDistance (m : Manager) (distance : ℚ) : Manager :=
  let nn := pushBounded 5000 m.nn_distances distance
  let tau := if nn.isEmpty then m.territory_tau else clampFloat (medianQ nn) (1/20) (3/5)
  { m with nn_distances := nn, territory_tau := tau }

/-- Translation of `create_territory`. -/
def createTerritory (P : Prims) (m : Manager) (embedding : List ℚ) (text : String) :
    Manager × ℤ :=
  let tid := m.next_territory_id
  let m := { m with
    next_territory_id := m.next_territory_id + 1
    territory_centroids := alSet m.territory_centroids tid (normalizeEmbedding P embedding)
    territory_counts := alSet m.territory_counts tid 0
    territory_member_dists := alSet m.territory_member_dists tid [] }
  let digest := P.blake2bHex text
  let m :=
    if alContains m.deterministic_ids digest then m
    else { m with deterministic_ids := alSet m.deterministic_ids digest tid }
  (recordEvent m "territory_create" [("id", JValue.jint tid)], tid)

/-- Translation of `deterministic_territory` (no centroid is reserved). -/
def deterministicTerritory (P : Prims) (m : Manager) (text : String) : Manager × ℤ :=
  let digest := P.blake2bHex text
  match alGet m.deterministic_ids digest with
  | some tid => (m, tid)
  | none =>
    let tid := m.next_territory_id
    let m := { m with
      next_territory_id := m.next_territory_id + 1
      territory_counts := alSet m.territory_counts tid 0
      territory_member_dists := alSet m.territory_member_dists tid []
      deterministic_ids := alSet m.deterministic_ids digest tid }
    (recordEvent m "territory_create" [("id", JValue.jint tid)], tid)

/-- Translation of `update_centroid`: count-weighted running-mean blend,
renormalised. -/
def updateCentroid (P : Prims) (m : Manager) (tid : ℤ) (embedding : List ℚ) : Manager :=
  match alGet m.territory_centroids tid with
  | none =>
    { m with territory_centroids := alSet m.territory_centroids tid (normalizeEmbedding P embedding) }
  | some centroid =>
    let count : ℤ := max 1 ((alGet m.territory_counts tid).getD 1)
    let updated := (centroid.zip embedding).map
      (fun p => (p.1 * (count : ℚ) + p.2) / ((count : ℚ) + 1))
    { m with territory_centroids := alSet m.territory_centroids tid (normalizeEmbedding P updated) }

/-- Loop body of `assign_territory`: closest centroid by iteration order,
strict improvement only (first encountered wins ties). -/
def bestCentroid (P : Prims) (vector : List ℚ) :
    List (ℤ × List ℚ) → Option (ℤ × ℚ) → Except String (Option (ℤ × ℚ))
  | [], best => Except.ok best
  | (tid, centroid) :: rest, best => do
    let d ← cosineDistance P vector centroid
    match best with
    | none => bestCentroid P vector rest (some (tid, d))
    | some (bt, bd) =>
      if d < bd then bestCentroid P vector rest (some (tid, d))
      else bestCentroid P vector rest (some (bt, bd))

/-- Translation of `assign_territory`. -/
def assignTerritory (P : Prims) (m : Manager) (text : String)
    (embedding : Option (List ℚ)) : Manager × Except String ℤ :=
  match embedding with
  | none =>
    let (m, tid) := deterministicTerritory P m text
    (m, Except.ok tid)
  | some emb =>
    let vector := normalizeEmbedding P emb
    if m.territory_centroids.isEmpty || warmupActive m then
      let (m, tid) := createTerritory P m vector text
      (m, Except.ok tid)
    else
      match bestCentroid P vector m.territory_centroids none with
      | Except.error e => (m, Except.error e)
      | Except.ok none =>
        let (m, tid) := createTerritory P m vector text
        (m, Except.ok tid)
      | Except.ok (some (bestTid, bestDistance)) =>
        let m := recordNnDistance m bestDistance
        if bestDistance ≤ m.territory_tau then
          (updateCentroid P m bestTid vector, Except.ok bestTid)
        else
          let (m, tid) := createTerritory P m vector text
          (m, Except.ok tid)

/-- Translation of `territory_radius`: max of the member-distance window,
zero when absent or empty. -/
def territoryRadius (m : Manager) (tid : ℤ) : ℚ :=
  match alGet m.territory_member_dists tid with
  | none => 0
  | some [] => 0
  | some (d :: ds) => ds.foldl max d

/-- Translation of `merge_territories`. -/
def mergeTerritories (P : Prims) (m : Manager) (fromTid toTid : ℤ) : Manager :=
  if fromTid = toTid then m
  else
    match alGet m.territory_centroids fromTid, alGet m.territory_centroids toTid with
    | some ca, some cb =>
      let countA : ℤ := (alGet m.territory_counts fromTid).getD 0
      let countB : ℤ := (alGet m.territory_counts toTid).getD 0
      if countA + countB > 1000 then m
      else
        let blended := (ca.zip cb).map
          (fun p => (p.1 * (countA : ℚ) + p.2 * (countB : ℚ)) / ((max 1 (countA + countB) : ℤ) : ℚ))
        let mergedDists :=
          (((alGet m.territory_member_dists toTid).getD []) ++
            ((alGet m.territory_member_dists fromTid).getD [])).foldl (pushBounded 1024) []
        let m := { m with
          territory_centroids :=
            alPop (alSet m.territory_centroids toTid (normalizeEmbedding P blended)) fromTid
          territory_member_dists :=
            alPop (alSet m.territory_member_dists toTid mergedDists) fromTid
          mem := m.mem.map (fun p =>
            if p.2.territory_id = some fromTid then (p.1, { p.2 with territory_id := some toTid })
            else p)
          territory_counts := alPop (alSet m.territory_counts toTid (countA + countB)) fromTid
          merge_counter := m.merge_counter + 1 }
        recordEvent m "territory_merge"
          [("from", JValue.jint fromTid), ("to", JValue.jint toTid)]
    | _, _ => m

/-- Pair loop of `maybe_diffuse`: at most one merge per pass, seeded draw
consumed per surviving candidate; a `cosine_distance` error propagates. -/
def diffusePairs (P : Prims) (m : Manager) : List (ℤ × ℤ) → Manager × Option String
  | [] => (m, none)
  | (a, b) :: rest =>
    if a = b then diffusePairs P m rest
    else
      match alGet m.territory_centroids a, alGet m.territory_centroids b with
      | some centroidA, some centroidB =>
        (match cosineDistance P centroidA centroidB with
         | Except.error e => (m, some e)
         | Except.ok distance =>
           let tau := min m.territory_tau (3/5)
           let maxRadius := max (territoryRadius m a) (territoryRadius m b)
           if distance ≤ (1/2) * m.territory_tau ∧ maxRadius ≤ (5/4) * tau then
             let combined := (alGet m.territory_counts a).getD 0 + (alGet m.territory_counts b).getD 0
             if combined ≥ 500 then diffusePairs P m rest
             else
               let (draw, rng') := P.rngRandom m.rng
               let m := { m with rng := rng' }
               if m.diffusion_kappa < draw then diffusePairs P m rest
               else
                 let countA := (alGet m.territory_counts a).getD 0
                 let countB := (alGet m.territory_counts b).getD 0
                 if countA ≤ countB then (mergeTerritories P m a b, none)
                 else (mergeTerritories P m b a, none)
           else diffusePairs P m rest)
      | _, _ => diffusePairs P m rest

/-- Translation of `maybe_diffuse`. -/
def maybeDiffuse (P : Prims) (m : Manager) : Manager × Option String :=
  if m.diffusion_interval ≤ 0 then (m, none)
  else if m.tick % m.diffusion_interval ≠ 0 then (m, none)
  else diffusePairs P m (combos2 (alKeys m.territory_centroids))

/-- The traces currently sharing a territory, in stored order
(`maybe_split_territory`'s `members`). -/
def splitMembers (m : Manager) (tid : ℤ) : List MemState :=
  (m.mem.filter (fun p => p.2.territory_id = some tid)).map Prod.snd

/-- The split median as the source computes it: the element at index
`len // 2` of the sorted novelty list (the upper median — the source
indexes the sorted list directly rather than calling `statistics.median`). -/
def codeSplitMedian (m : Manager) (tid : ℤ) : ℚ :=
  (((splitMembers m tid).map MemState.novelty).mergeSort
    (fun a b => decide (a ≤ b))).getD ((splitMembers m tid).length / 2) 0

/-- The split candidate set as the source computes it. -/
def codeSplitCandidates (m : Manager) (tid : ℤ) : List MemState :=
  (splitMembers m tid).filter
    (fun state => codeSplitMedian m tid < state.novelty ∧ state.boredom < 7/10)

/-- Seed embedding of the split (`candidates[0].embedding or []`). -/
def splitSeedEmbedding (m : Manager) (tid : ℤ) : List ℚ :=
  (((codeSplitCandidates m tid).head?).map (fun c => c.embedding.getD [])).getD []

/-- Reassignment loop of the split: every candidate trace moves to the new
territory. -/
def splitReassign (mm : Manager) (C : List MemState) (ntid : ℤ) : Manager :=
  C.foldl (fun acc c => { acc with mem := alUpdate acc.mem c.memory_id (fun s => { s with territory_id := some ntid }) }) mm

/-- Centroid accumulation of the split (`centroid_sum`): sum of the
non-empty candidate embeddings, zip-truncated as in the source. -/
def splitCentroidSum (C : List MemState) : Option (List ℚ) :=
  C.foldl
    (fun (acc : Option (List ℚ)) c =>
      match c.embedding with
      | none => acc
      | some [] => acc
      | some e =>
        match acc with
        | none => some (((List.replicate e.length (0 : ℚ)).zip e).map (fun p => p.1 + p.2))
        | some s => some ((s.zip e).map (fun p => p.1 + p.2)))
    none

/-- Install the averaged, renormalised centroid when the sum is non-empty
(`if centroid_sum:`). -/
def splitInstallCentroid (P : Prims) (mm : Manager) (ntid : ℤ)
    (csum : Option (List ℚ)) (newCount : ℤ) : Manager :=
  match csum with
  | none => mm
  | some [] => mm
  | some s =>
    { mm with territory_centroids := alSet mm.territory_centroids ntid (normalizeEmbedding P (s.map (fun v => v / ((max 1 newCount : ℤ) : ℚ)))) }

/-- Translation of `maybe_split_territory`, assembled from the stages above
in source order. -/
def maybeSplitTerritory (P : Prims) (m : Manager) (ms : MemState) : Manager :=
  match ms.territory_id with
  | none => m
  | some tid =>
    if (splitMembers m tid).length < 6 then m
    else if (codeSplitCandidates m tid).length < 2 ∨
        (codeSplitCandidates m tid).length = (splitMembers m tid).length then m
    else
      let created := createTerritory P m (splitSeedEmbedding m tid) ms.text
      let newTid := created.2
      let C := codeSplitCandidates m tid
      let m1 := splitReassign created.1 C newTid
      let m2 := splitInstallCentroid P m1 newTid (splitCentroidSum C) (C.length : ℤ)
      let m3 := { m2 with
        territory_counts :=
          alSet (alSet m2.territory_counts newTid (C.length : ℤ)) tid
            (max 0 (((alGet m2.territory_counts tid).getD
              ((splitMembers m tid).length : ℤ)) - (C.length : ℤ)))
        split_counter := m2.split_counter + 1 }
      recordEvent m3 "territory_split"
        [ ("from", JValue.jint tid), ("to", JValue.jint newTid)
        , ("count", JValue.jint (C.length : ℤ)) ]

/-- Translation of `record_member_distance`; indexing a missing
member-distance deque is Python's `KeyError`, modelled as the error case. -/
def recordMemberDistance (m : Manager) (ms : MemState) (sim : ℚ) : Manager × Option String :=
  match ms.embedding, ms.territory_id with
  | some _, some tid =>
    (match alGet m.territory_centroids tid with
     | none => (m, none)
     | some _ =>
       let distance := max 0 (1 - sim)
       match alGet m.territory_member_dists tid with
       | none => (m, some "KeyError: territory member distances")
       | some dq =>
         let m := { m with
           territory_member_dists :=
             alSet m.territory_member_dists tid (pushBounded 1024 dq distance) }
         (recordNnDistance m distance, none))
  | _, _ => (m, none)

/-- Translation of `update_pair_metrics`: every position pair of resolved
territory ids is recorded into the churn window (keyed min-max). -/
def updatePairMetrics (m : Manager) (states : List MemState) : Manager :=
  let ids := states.filterMap MemState.territory_id
  (combos2 ids).foldl
    (fun acc (p : ℤ × ℤ) =>
      let pair := (min p.1 p.2, max p.1 p.2)
      let dq := (alGet acc.pair_churn pair).getD []
      { acc with
        pair_churn := alSet acc.pair_churn pair
          (pushBounded acc.exploration_churn_window.toNat dq acc.tick)
        pair_last := alSet acc.pair_last pair acc.tick }) m

/-! ### Manager internals (`manager.py`) -/

/-- Translation of `composite_score` (`math.exp` and `math.log(2.0)` are
the `Prims` primitives). -/
def compositeScore (P : Prims) (m : Manager) (ms : MemState) : ℚ :=
  let dt := max 0 (m.tick - ms.last_touch_tick)
  let recencyHl := max 1 m.recency_half_life
  let recency := P.expQ (-(P.ln2) * (dt : ℚ) / (recencyHl : ℚ))
  let score := ms.confidence * (1 - m.boredom_weight) + ms.novelty * m.boredom_weight
    + ms.heat * (1/10) + recency
  max 0 score

/-- Translation of `composite_score_for`. -/
def compositeScoreFor (P : Prims) (m : Manager) (memory_id : String) : Option ℚ :=
  match alGet m.mem memory_id with
  | none => none
  | some ms => some (compositeScore P m ms)

/-- Translation of `exploratory_weight`. -/
def exploratoryWeight (m : Manager) (memory_id : String) : ℚ :=
  match alGet m.mem memory_id with
  | none => 0
  | some ms => clamp01 (ms.novelty * (1 - ms.boredom))

/-- Translation of `_boredom_increment` (called after `use_count` was
already incremented). -/
def boredomIncrement (m : Manager) (ms : MemState) : ℚ :=
  if ms.use_count ≤ m.habituation_start then 1/50
  else
    let denominator := max m.habituation_scale (ms.use_count : ℚ)
    min (1/5) ((ms.use_count : ℚ) / denominator * (1/20))

/-- Translation of `_apply_reinforcement`, acting on the trace stored under
`memory_id`; the error case is the `KeyError` of `record_member_distance`. -/
def applyReinforcement (m : Manager) (memory_id : String)
    (sim heatGain : ℚ) (ttlBoost : ℤ) : Manager × Option String :=
  match alGet m.mem memory_id with
  | none => (m, none)
  | some ms =>
    let boost := max ttlBoost 0
    let ms := { ms with
      last_touch_tick := m.tick
      use_count := ms.use_count + 1
      heat := ms.heat + heatGain
      mass := ms.mass + sim * (1 + heatGain) }
    let gain := boredomIncrement m ms
    let ms := { ms with
      boredom := clamp01 (ms.boredom + gain)
      confidence := clamp01 (ms.confidence + (1 - ms.confidence) * sim * (3/10))
      novelty := clamp01 (ms.novelty * (9/10) + (1 - sim) * (1/10))
      ttl := max ms.ttl boost }
    let ms := ms.clampRanges
    let m := { m with mem := alSet m.mem memory_id ms }
    recordMemberDistance m ms sim

/-- Translation of `_remove_memory`. -/
def removeMemory (m : Manager) (memory_id : String) : Manager :=
  match alGet m.mem memory_id with
  | none => m
  | some ms =>
    let m := { m with mem := alPop m.mem memory_id }
    let m :=
      match ms.territory_id with
      | none => m
      | some tid =>
        let count := (alGet m.territory_counts tid).getD 0 - 1
        if count ≤ 0 then
          { m with
            territory_counts := alPop m.territory_counts tid
            territory_centroids := alPop m.territory_centroids tid
            territory_member_dists := alPop m.territory_member_dists tid }
        else { m with territory_counts := alSet m.territory_counts tid count }
    recordEvent m "evict" [("id", JValue.jstr memory_id)]

/-- Translation of `_decay_pass`: per-trace geometric decay and TTL
decrement, then eviction of exhausted low-value traces. -/
def decayPass (P : Prims) (m : Manager) : Manager :=
  let decayFactor := P.rpow (1/2) (1 / (m.decay_half_life : ℚ))
  let mem := m.mem.map (fun p =>
    (p.1, MemState.clampRanges { p.2 with
      heat := p.2.heat * decayFactor
      ttl := max 0 (p.2.ttl - 1)
      inhibition := p.2.inhibition * (49/50) }))
  let toRemove := (mem.filter
    (fun p => p.2.ttl ≤ 0 ∧ p.2.confidence < 1/20 ∧ p.2.mass < 3)).map Prod.fst
  toRemove.foldl removeMemory { m with mem := mem }

/-- Sort key of `_prune_if_needed` (`self.composite_score(self._mem[mid])`;
the lookup always succeeds because the candidates are a permutation of the
keys). -/
def pruneScore (P : Prims) (m : Manager) (memory_id : String) : ℚ :=
  match alGet m.mem memory_id with
  | none => 0
  | some ms => compositeScore P m ms

/-- Seeded shuffle of all ids, as drawn by `_prune_if_needed`
(`candidates = list(mem.keys()); rng.shuffle(candidates)`). -/
def pruneShuffled (P : Prims) (m : Manager) : List String :=
  (P.rngShuffle m.rng (alKeys m.mem)).1

/-- Manager with the generator advanced by the shuffle draw. -/
def pruneDrawn (P : Prims) (m : Manager) : Manager :=
  { m with rng := (P.rngShuffle m.rng (alKeys m.mem)).2 }

/-- The sampled candidate ids (`candidates[: min(len, prune_sample)]`). -/
def pruneSampleIds (P : Prims) (m : Manager) : List String :=
  (pruneShuffled P m).take (min (pruneShuffled P m).length m.prune_sample.toNat)

/-- The sample sorted by ascending composite score (stable, as Python's
`sorted`), scored against the state whose generator was advanced. -/
def pruneSorted (P : Prims) (m : Manager) : List String :=
  (pruneSampleIds P m).mergeSort
    (fun a b => decide (pruneScore P (pruneDrawn P m) a ≤ pruneScore P (pruneDrawn P m) b))

/-- The drop count computed by `_prune_if_needed`'s target line: note the
ratio is re-clamped into `[0.05, 0.95]` here, tighter than the
`[0.05, 1.0]` accepted at construction. -/
def codePruneTarget (m : Manager) : ℤ :=
  max 1 (min ((m.mem.length : ℤ) - m.capacity)
    (pyTrunc (max 1 ((m.mem.length : ℚ) * clampFloat m.prune_target_ratio (1/20) (19/20)
      - (m.capacity : ℚ)))))

/-- Translation of `_prune_if_needed`, assembled from the per-line
projections above in source order. -/
def pruneIfNeeded (P : Prims) (m : Manager) : Manager :=
  if (m.mem.length : ℤ) ≤ m.capacity then m
  else
    let removed := ((pruneSorted P m).take (codePruneTarget m).toNat).foldl
      removeMemory (pruneDrawn P m)
    recordEvent removed "prune" [("count", JValue.jint (codePruneTarget m))]

/-- Translation of `_after_operation`: tick, decay, prune, diffusion,
exploration-temperature clamp; a diffusion error propagates and skips the
clamp. -/
def afterOperation (P : Prims) (m : Manager) : Manager × Option String :=
  let m := { m with tick := m.tick + 1 }
  let m := decayPass P m
  let m := pruneIfNeeded P m
  match maybeDiffuse P m with
  | (m, some e) => (m, some e)
  | (m, none) => ({ m with exploration_temp := min m.exploration_temp 1 }, none)

/-- Per-id body of `_flush_condensation_locked`: snapshot the trace text and
clear its `pending_condense` flag when the id is still stored. -/
def flushStep (acc : List (String × String) × Manager) (memory_id : String) :
    List (String × String) × Manager :=
  match alGet acc.2.mem memory_id with
  | none => acc
  | some ms =>
    (acc.1 ++ [(memory_id, ms.text)],
     { acc.2 with mem := alSet acc.2.mem memory_id { ms with pending_condense := false } })

/-- Translation of `_flush_condensation_locked`: snapshot the queue into
`(id, text)` pairs, clear `pending_condense` on each still-present trace,
empty the queue. -/
def flushCondensation (m : Manager) : List (String × String) × Manager :=
  if m.pending_condense.isEmpty then ([], m)
  else
    let r := m.pending_condense.foldl flushStep ([], m)
    (r.1, { r.2 with pending_condense := [] })

/-- Translation of `_register_memory`. -/
def registerMemory (P : Prims) (m : Manager) (memory_id text : String)
    (embedding : Option (List ℚ)) (meta : JValue) : Manager × Option String :=
  match assignTerritory P m text embedding with
  | (m, Except.error e) => (m, some e)
  | (m, Except.ok territoryId) =>
    let state := MemState.clampRanges
      { memory_id := memory_id
        text := text
        embedding := embedding
        metadata := meta
        territory_id := some territoryId
        ttl := m.base_ttl
        last_touch_tick := m.tick
        confidence := 7/20
        novelty := estimateNovelty text
        boredom := 0
        mass := 1
        heat := 0 }
    let m := { m with
      mem := alSet m.mem memory_id state
      territory_counts := alSet m.territory_counts territoryId
        (((alGet m.territory_counts territoryId).getD 0) + 1) }
    let m :=
      if alContains m.territory_member_dists territoryId then m
      else { m with territory_member_dists := alSet m.territory_member_dists territoryId [] }
    (recordEvent m "register"
      [("id", JValue.jstr memory_id), ("territory", JValue.jint territoryId)], none)

/-! ### Public operations (`manager.py`) -/

/-- Registration loop of `register_chunks` over the index-aligned input
lists (duplicate ids already present are skipped); returns the `added`
flag; an `assign_territory` error aborts the loop keeping prior
registrations. -/
def registerLoop (P : Prims) (m : Manager) :
    List (String × String × Option (List ℚ) × JValue) → Bool →
    Manager × Bool × Option String
  | [], added => (m, added, none)
  | (memory_id, text, rawEmbedding, meta) :: rest, added =>
    if alContains m.mem memory_id then registerLoop P m rest added
    else
      let embedding := rawEmbedding.map (normalizeEmbedding P)
      match registerMemory P m memory_id text embedding meta with
      | (m, some e) => (m, true, some e)
      | (m, none) => registerLoop P m rest true

/-- Locked section of `register_chunks` (validation, loop, flush,
maintenance), returning the drained condensation pairs for the
out-of-lock callback dispatch. -/
def registerChunksNoCb (P : Prims) (m : Manager) (ids raw_texts : List String)
    (embeddings : Option (List (Option (List ℚ)))) (metadata : Option (List JValue)) :
    Manager × List (String × String) × Option String :=
  if ids.length ≠ raw_texts.length then
    (m, [], some "ids and raw_texts must be correlated pairwise")
  else if (embeddings.map List.length).getD ids.length ≠ ids.length then
    (m, [], some "embeddings length must match ids")
  else if (metadata.map List.length).getD ids.length ≠ ids.length then
    (m, [], some "metadata length must match ids")
  else
    let rows := (ids.zip raw_texts).zipWith
      (fun p (extra : Option (List ℚ) × JValue) => (p.1, p.2, extra.1, extra.2))
      (((embeddings.getD (List.replicate ids.length none)).zip
        (metadata.getD (List.replicate ids.length JValue.jnull))))
    match registerLoop P m rows false with
    | (m, _, some e) => (m, [], some e)
    | (m, false, none) => (m, [], none)
    | (m, true, none) =>
      let (pairs, m) := flushCondensation m
      match afterOperation P m with
      | (m, some e) => (m, [], some e)
      | (m, none) => (m, pairs, none)

/-- Translation of `_run_condense_callback`.  The re-ingest goes through the
locked register path; its own trailing callback dispatch is elided because
the queue was emptied by the flush that produced `pending`, so the nested
dispatch in the source always receives an empty batch and is a no-op. -/
def runCondenseCallback (P : Prims) (m : Manager)
    (pending : List (String × String)) : Manager × Option String :=
  if pending.isEmpty then (m, none)
  else
    match m.condense_callback with
    | none => (m, none)
    | some callback =>
      match callback (pending.map Prod.snd) with
      | none => (m, none)
      | some (summaryId, text) =>
        let (m, _, e) := registerChunksNoCb P m [summaryId] [text] none none
        (m, e)

/-- Translation of `register_chunks`. -/
def registerChunks (P : Prims) (m : Manager) (ids raw_texts : List String)
    (embeddings : Option (List (Option (List ℚ)))) (metadata : Option (List JValue)) :
    Manager × Option String :=
  match registerChunksNoCb P m ids raw_texts embeddings metadata with
  | (m, _, some e) => (m, some e)
  | (m, pairs, none) => runCondenseCallback P m pairs

/-- Frontier accounting of the per-trace reinforcement pass: hit counting,
frontier map upkeep and the possible territory split on patience. -/
def frontierBlock (P : Prims) (m : Manager) (memory_id : String) (ms : MemState) :
    Manager :=
  if ms.novelty ≥ m.frontier_novelty_threshold ∧ ms.boredom < 1/2 then
    let hits := ms.frontier_hits + 1
    let ms := { ms with frontier_hits := hits }
    let m := { m with
      mem := alSet m.mem memory_id ms
      frontier := alSet m.frontier ms.memory_id (JValue.jobj
        [ ("territory", jOptInt ms.territory_id)
        , ("hits", JValue.jint hits)
        , ("novelty", JValue.jnum ms.novelty) ]) }
    if hits ≥ m.frontier_patience then
      let m := maybeSplitTerritory P m ms
      { m with mem := alUpdate m.mem memory_id (fun s => { s with frontier_hits := 0 }) }
    else m
  else
    { m with
      mem := alUpdate m.mem memory_id (fun s => { s with frontier_hits := 0 })
      frontier := alPop m.frontier ms.memory_id }

/-- Condensation check of the per-trace reinforcement pass: a saturated
trace is flagged and its id appended to the queue, once. -/
def condenseBlock (m : Manager) (memory_id : String) : Manager :=
  match alGet m.mem memory_id with
  | none => m
  | some current =>
    if current.boredom ≥ m.condensation_boredom ∧
        current.confidence ≥ m.condensation_conf ∧
        current.mass ≥ m.condensation_mass then
      if current.memory_id ∈ m.pending_condense then m
      else
        { m with
          pending_condense := m.pending_condense ++ [current.memory_id]
          mem := alSet m.mem memory_id { current with pending_condense := true } }
    else m

/-- Per-trace pass of a reinforcement row (`for ms, sim in zip(states,
sims)`): apply the update, frontier accounting with a possible split, and
the condensation check. -/
def reinforceTraces (P : Prims) (m : Manager) :
    List (String × ℚ) → ℚ → ℤ → Manager × Option String
  | [], _, _ => (m, none)
  | (memory_id, sim) :: rest, heatGain, ttlBoost =>
    match applyReinforcement m memory_id sim heatGain ttlBoost with
    | (m, some e) => (m, some e)
    | (m, none) =>
      match alGet m.mem memory_id with
      | none => reinforceTraces P m rest heatGain ttlBoost
      | some ms =>
        reinforceTraces P (condenseBlock (frontierBlock P m memory_id ms) memory_id)
          rest heatGain ttlBoost

/-- Resolution of one reinforcement row: known ids paired with their
similarity `max(0, 1 - distance)`, unknown ids dropped. -/
def resolveRow (m : Manager) (idsRow : List String) (distRow : List ℚ) :
    List (String × ℚ) :=
  (idsRow.zip distRow).filterMap
    (fun p => if alContains m.mem p.1 then some (p.1, max 0 (1 - p.2)) else none)

/-- Body of one non-empty reinforcement row: inhibition bump for every
resolved trace, pair metrics, reward EMA update, then the per-trace pass. -/
def reinforceRowCore (P : Prims) (m : Manager) (resolved : List (String × ℚ))
    (heatGain : ℚ) (ttlBoost : ℤ) : Manager × Option String :=
  let m := resolved.foldl
    (fun acc p => { acc with
      mem := alUpdate acc.mem p.1
        (fun s => { s with inhibition := min (s.inhibition + 1/20) 1 }) }) m
  let states := resolved.filterMap (fun p => alGet m.mem p.1)
  let m := updatePairMetrics m states
  let avgSim := ((resolved.map Prod.snd).sum) / (resolved.length : ℚ)
  let m := { m with
    reward_ema := (1 - rewardAlpha) * m.reward_ema + rewardAlpha * avgSim }
  reinforceTraces P m resolved heatGain ttlBoost

/-- Row loop of `reinforce`: per-row validation, resolution of known ids,
row body, one event per non-empty row. -/
def reinforceRows (P : Prims) (m : Manager) :
    List (List String × List ℚ) → ℚ → ℤ → Manager × Option String
  | [], _, _ => (m, none)
  | (idsRow, distRow) :: rest, heatGain, ttlBoost =>
    if idsRow.length ≠ distRow.length then
      (m, some "ids_row and dist_row must align")
    else
      if (resolveRow m idsRow distRow).isEmpty then
        reinforceRows P m rest heatGain ttlBoost
      else
        match reinforceRowCore P m (resolveRow m idsRow distRow) heatGain ttlBoost with
        | (m1, some e) => (m1, some e)
        | (m1, none) =>
          reinforceRows P
            (recordEvent m1 "reinforce"
              [("count", JValue.jint (resolveRow m idsRow distRow).length)])
            rest heatGain ttlBoost

/-- Translation of `reinforce`. -/
def reinforce (P : Prims) (m : Manager) (idsRows : List (List String))
    (distRows : List (List ℚ)) (heatGain : ℚ) (ttlBoost : ℤ) : Manager × Option String :=
  if idsRows.length ≠ distRows.length then
    (m, some "ids and distances rows must align")
  else
    match reinforceRows P m (idsRows.zip distRows) heatGain ttlBoost with
    | (m, some e) => (m, some e)
    | (m, none) =>
      let (pairs, m) := flushCondensation m
      match afterOperation P m with
      | (m, some e) => (m, some e)
      | (m, none) => runCondenseCallback P m pairs

/-- Translation of `utils.require_int` applied to an integer argument
(`int(value)` is the identity there). -/
def requireInt (value minimum : ℤ) (name : String) : Except String ℤ :=
  if value < minimum then Except.error (name ++ " must be >= minimum")
  else Except.ok value

/-- Per-id body of the `degrade` loop: TTL capped at the floor, boredom
bumped, clamp; unknown ids are skipped. -/
def degradeStep (floor : ℤ) (acc : Manager × ℤ) (memory_id : String) : Manager × ℤ :=
  match alGet acc.1.mem memory_id with
  | none => acc
  | some ms =>
    ({ acc.1 with
        mem := alSet acc.1.mem memory_id (MemState.clampRanges (degradedTrace floor ms)) },
      acc.2 + 1)

/-- Translation of `degrade` (cont.): validate the floor, apply the per-id
step, emit one summary event when anything was touched. -/
def degrade (m : Manager) (ids : List String) (ttlFloor : ℤ) : Manager × Option String :=
  match requireInt ttlFloor 1 "ttl_floor" with
  | Except.error e => (m, some e)
  | Except.ok floor =>
    let r := ids.foldl (degradeStep floor) (m, 0)
    if r.2 ≠ 0 then (recordEvent r.1 "degrade" [("count", JValue.jint r.2)], none)
    else (r.1, none)

/-- Translation of `register_engram`. -/
def registerEngram (m : Manager) (summaryId : String) (memberIds : List String)
    (_text : String) : Manager × Bool :=
  let members := memberIds.filter (fun mid => alContains m.mem mid)
  if members.length < 2 then (m, false)
  else
    let m := { m with engrams := alSet m.engrams summaryId members }
    let m := members.foldl
      (fun acc mid => { acc with
        mem := alUpdate acc.mem mid (fun ms => MemState.clampRanges { ms with
          boredom := min 1 (ms.boredom + 1/20)
          inhibition := min 1 (ms.inhibition + 1/20) }) }) m
    (recordEvent m "engram"
      [("id", JValue.jstr summaryId), ("members", JValue.jint members.length)], true)

/-- Translation of `top`: clamp `k` to `[1, 100]`, score every trace, sort
descending (stable), take the first `k`. -/
def topK (P : Prims) (m : Manager) (k : ℤ) : List (String × ℚ) :=
  let k := if k ≤ 0 then 1 else if k > 100 then 100 else k
  let scored := m.mem.map (fun p => (p.1, compositeScore P m p.2))
  (scored.mergeSort (fun a b => decide (b.2 ≤ a.2))).take k.toNat

/-- Translation of `stats`. -/
def statsQ (m : Manager) : List (String × ℚ) :=
  if m.mem.isEmpty then
    [ ("count", 0), ("avg_confidence", 0), ("avg_novelty", 0)
    , ("avg_boredom", 0), ("avg_mass", 0) ]
  else
    let count : ℚ := m.mem.length
    [ ("count", count)
    , ("avg_confidence", ((m.mem.map (fun p => p.2.confidence)).sum) / count)
    , ("avg_novelty", ((m.mem.map (fun p => p.2.novelty)).sum) / count)
    , ("avg_boredom", ((m.mem.map (fun p => p.2.boredom)).sum) / count)
    , ("avg_mass", ((m.mem.map (fun p => p.2.mass)).sum) / count) ]

/-- Translation of `consume_events`: return and clear the buffer. -/
def consumeEvents (m : Manager) : List Event × Manager :=
  (m.events, { m with events := [] })

/-- Translation of `peek_events`. -/
def peekEvents (m : Manager) (limit : ℤ) : List Event :=
  if limit ≤ 0 then [] else m.events.take limit.toNat

/-- Translation of `set_condense_callback`. -/
def setCondenseCallback (m : Manager)
    (callback : Option (List String → Option (String × String))) : Manager :=
  { m with condense_callback := callback }

/-- Everything except the trace store and the event log agrees between two
manager states: witnesses that an operation ran no maintenance cadence (no
tick advance, no decay, no prune, no diffusion, no random draw). -/
def frameEq (a b : Manager) : Prop :=
  a.tick = b.tick ∧ a.nn_distances = b.nn_distances ∧
  a.territory_tau = b.territory_tau ∧
  a.territory_centroids = b.territory_centroids ∧
  a.territory_counts = b.territory_counts ∧
  a.territory_member_dists = b.territory_member_dists ∧
  a.reward_ema = b.reward_ema ∧ a.rng = b.rng ∧
  a.pending_condense = b.pending_condense ∧
  a.split_counter = b.split_counter ∧ a.merge_counter = b.merge_counter ∧
  a.next_territory_id = b.next_territory_id ∧
  a.exploration_temp = b.exploration_temp ∧
  a.pair_churn = b.pair_churn ∧ a.pair_last = b.pair_last ∧
  a.frontier = b.frontier ∧ a.engrams = b.engrams ∧
  a.deterministic_ids = b.deterministic_ids

/-! ### Decimal key codec

Python serialises territory ids with `str(...)` and parses them back with
`int(...)`; pair keys are `"a:b"` split once at the first colon.  The codec
is modelled by an explicit decimal printer and parser (Python's extra
accepted forms — whitespace, a leading plus, underscores — are not
modelled; only canonical `str(int)` images matter here). -/

/-- Decimal digit character for `d % 10`. -/
def digitChar (d : ℕ) : Char :=
  match d % 10 with
  | 0 => '0' | 1 => '1' | 2 => '2' | 3 => '3' | 4 => '4'
  | 5 => '5' | 6 => '6' | 7 => '7' | 8 => '8' | _ => '9'

/-- Value of a decimal digit character (10 marks a non-digit). -/
def digitVal (c : Char) : ℕ :=
  if c = '0' then 0 else if c = '1' then 1 else if c = '2' then 2
  else if c = '3' then 3 else if c = '4' then 4 else if c = '5' then 5
  else if c = '6' then 6 else if c = '7' then 7 else if c = '8' then 8
  else if c = '9' then 9 else 10

/-- Is `c` a decimal digit. -/
def isDigitCh (c : Char) : Bool := digitVal c < 10

/-- Fuel-driven digit expansion (structural recursion so that concrete keys
evaluate inside the kernel). -/
def natCharsAux : ℕ → ℕ → List Char
  | 0, _ => []
  | fuel + 1, n =>
    if n < 10 then [digitChar n]
    else natCharsAux fuel (n / 10) ++ [digitChar (n % 10)]

/-- Canonical decimal digits of a natural number (`str(n)` for `n ≥ 0`). -/
def natChars (n : ℕ) : List Char := natCharsAux (n + 1) n

/-- Parse an unsigned decimal digit list. -/
def charsToNat (l : List Char) : ℕ :=
  l.foldl (fun acc c => acc * 10 + digitVal c) 0

/-- Python `str(z)` for an integer. -/
def intChars (z : ℤ) : List Char :=
  if z < 0 then '-' :: natChars (-z).toNat else natChars z.toNat

/-- Python `int(s)` restricted to canonical decimal forms; `none` models the
raised `ValueError`. -/
def charsToInt : List Char → Option ℤ
  | [] => none
  | c :: rest =>
    if c = '-' then
      if rest ≠ [] ∧ rest.all isDigitCh then some (-(charsToNat rest : ℤ)) else none
    else if (c :: rest).all isDigitCh then some ((charsToNat (c :: rest) : ℤ)) else none

/-- Serialised dict key `str(tid)`. -/
def intKey (z : ℤ) : String := String.mk (intChars z)

/-- Key parse `int(tid_str)`. -/
def parseIntKey (s : String) : Option ℤ := charsToInt s.data

/-- Split a character list at the first colon (`s.split(":", 1)`); `none`
when there is no colon (the two-way unpacking then raises). -/
def splitFirstColon : List Char → Option (List Char × List Char)
  | [] => none
  | c :: rest =>
    if c = ':' then some ([], rest)
    else (splitFirstColon rest).map (fun p => (c :: p.1, p.2))

/-- Serialised pair key `f"{a}:{b}"`. -/
def pairKey (a b : ℤ) : String := String.mk (intChars a ++ ':' :: intChars b)

/-- Parse a `"a:b"` pair key into the sorted pair
`tuple(sorted((int(a_str), int(b_str))))`. -/
def parsePairKey (s : String) : Option (ℤ × ℤ) :=
  match splitFirstColon s.data with
  | none => none
  | some (l, r) =>
    match charsToInt l, charsToInt r with
    | some a, some b => some (min a b, max a b)
    | _, _ => none

/-! ### Persistence (`persistence.py`) -/

/-- Configuration echo `self._config` as built by `__init__` (the fields are
never mutated afterwards, so it is a function of the manager state). -/
def configDict (m : Manager) : List (String × JValue) :=
  [ ("capacity", JValue.jint m.capacity)
  , ("base_ttl", JValue.jint m.base_ttl)
  , ("decay_half_life", JValue.jint m.decay_half_life)
  , ("prune_sample", JValue.jint m.prune_sample)
  , ("prune_target_ratio", JValue.jnum m.prune_target_ratio)
  , ("thread_safe", JValue.jbool m.thread_safe)
  , ("seed", jOptInt m.seed)
  , ("recency_half_life_ticks", JValue.jint m.recency_half_life)
  , ("habituation_start", JValue.jint m.habituation_start)
  , ("habituation_scale", JValue.jnum m.habituation_scale)
  , ("boredom_weight", JValue.jnum m.boredom_weight)
  , ("frontier_novelty_threshold", JValue.jnum m.frontier_novelty_threshold)
  , ("frontier_patience", JValue.jint m.frontier_patience)
  , ("diffusion_interval", JValue.jint m.diffusion_interval)
  , ("diffusion_kappa", JValue.jnum m.diffusion_kappa)
  , ("exploration_churn_window", JValue.jint m.exploration_churn_window)
  , ("condensation_boredom", JValue.jnum m.condensation_boredom)
  , ("condensation_conf", JValue.jnum m.condensation_conf)
  , ("condensation_mass", JValue.jnum m.condensation_mass) ]

/-- Entry list of `manager_to_dict` (exact key order of the source). -/
def managerToDictList (m : Manager) : List (String × JValue) :=
    [ ("version", JValue.jint 1)
    , ("tick", JValue.jint m.tick)
    , ("mem", JValue.jobj (m.mem.map (fun p => (p.1, p.2.toDict))))
    , ("engrams", JValue.jobj
        (m.engrams.map (fun p => (p.1, JValue.jarr (p.2.map JValue.jstr)))))
    , ("frontier", JValue.jobj m.frontier)
    , ("next_territory", JValue.jint m.next_territory_id)
    , ("reward_ema", JValue.jnum m.reward_ema)
    , ("pair_churn", JValue.jobj (m.pair_churn.map
        (fun p => (pairKey p.1.1 p.1.2, JValue.jarr (p.2.map JValue.jint)))))
    , ("pair_last", JValue.jobj (m.pair_last.map
        (fun p => (pairKey p.1.1 p.1.2, JValue.jint p.2))))
    , ("territory_centroids", JValue.jobj (m.territory_centroids.map
        (fun p => (intKey p.1, JValue.jarr (p.2.map JValue.jnum)))))
    , ("territory_counts", JValue.jobj (m.territory_counts.map
        (fun p => (intKey p.1, JValue.jint p.2))))
    , ("territory_member_dists", JValue.jobj (m.territory_member_dists.map
        (fun p => (intKey p.1, JValue.jarr (p.2.map JValue.jnum)))))
    , ("nn_distances", JValue.jarr (m.nn_distances.map JValue.jnum))
    , ("territory_tau", JValue.jnum m.territory_tau)
    , ("split_counter", JValue.jint m.split_counter)
    , ("merge_counter", JValue.jint m.merge_counter)
    , ("config", JValue.jobj (configDict m)) ]

/-- Translation of `manager_to_dict`. -/
def managerToDict (m : Manager) : JValue :=
  JValue.jobj (managerToDictList m)

/-- Defaults of `utils.sanitize_config` in source order. -/
def configDefaults : List (String × JValue) :=
  [ ("capacity", JValue.jint 256)
  , ("base_ttl", JValue.jint 128)
  , ("decay_half_life", JValue.jint 32)
  , ("prune_sample", JValue.jint 64)
  , ("prune_target_ratio", JValue.jnum (1/5))
  , ("thread_safe", JValue.jbool false)
  , ("seed", JValue.jnull)
  , ("recency_half_life_ticks", JValue.jint 64)
  , ("habituation_start", JValue.jint 32)
  , ("habituation_scale", JValue.jnum 1)
  , ("boredom_weight", JValue.jnum (7/20))
  , ("frontier_novelty_threshold", JValue.jnum (4/5))
  , ("frontier_patience", JValue.jint 3)
  , ("diffusion_interval", JValue.jint 12)
  , ("diffusion_kappa", JValue.jnum (1/4))
  , ("exploration_churn_window", JValue.jint 32)
  , ("condensation_boredom", JValue.jnum (17/20))
  , ("condensation_conf", JValue.jnum (3/5))
  , ("condensation_mass", JValue.jnum 5) ]

/-- Translation of `sanitize_config`: `dict(defaults)` updated with the
given entries. -/
def sanitizeConfig (config : List (String × JValue)) : List (String × JValue) :=
  config.foldl (fun acc p => alSet acc p.1 p.2) configDefaults

/-- Keyword parameter names of `VoidMemoryManager.__init__`. -/
def managerParamNames : List String :=
  [ "capacity", "base_ttl", "decay_half_life", "prune_sample"
  , "prune_target_ratio", "thread_safe", "seed", "recency_half_life_ticks"
  , "habituation_start", "habituation_scale", "boredom_weight"
  , "frontier_novelty_threshold", "frontier_patience", "diffusion_interval"
  , "diffusion_kappa", "exploration_churn_window", "condensation_boredom"
  , "condensation_conf", "condensation_mass" ]

/-- Translation of `require_int` on a JSON-typed keyword argument
(`int(value)` then the minimum check). -/
def requireIntJ (value : JValue) (minimum : ℤ) (name : String) : Except String ℤ :=
  match value.toIntP with
  | none => Except.error (name ++ " must be an integer")
  | some n => if n < minimum then Except.error (name ++ " must be above the minimum")
              else Except.ok n

/-- Translation of `clamp_float` on a JSON-typed keyword argument; a
non-numeric value raises the `float(...)` error. -/
def clampFloatJ (value : JValue) (lower upper : ℚ) : Except String ℚ :=
  match value.toFloatP with
  | none => Except.error "TypeError: value is not a number"
  | some q => Except.ok (clampFloat q lower upper)

/-- Translation of `clamp01` applied to a raw keyword argument (a
non-numeric value raises at the comparison). -/
def clamp01J (value : JValue) : Except String ℚ :=
  match value.toFloatP with
  | none => Except.error "TypeError: value is not a number"
  | some q => Except.ok (clamp01 q)

/-- Translation of `VoidMemoryManager.__init__` invoked as `cls(**config)`
on a keyword dictionary: unknown keywords raise, each parameter is
validated in source order, and the zero state is installed. -/
def mkManagerFromJ (P : Prims) (config : List (String × JValue)) : Except String Manager := do
  if (config.map Prod.fst).any (fun k => !(managerParamNames.contains k)) then
    Except.error "TypeError: unexpected keyword argument"
  else
    let getP := fun (key : String) (dflt : JValue) => (alGet config key).getD dflt
    let getR := fun (key : String) =>
      match alGet config key with
      | some v => Except.ok v
      | none => Except.error "TypeError: missing required argument"
    let capacityV ← getR "capacity"
    let capacity ← requireIntJ capacityV 10 "capacity"
    let baseTtlV ← getR "base_ttl"
    let base_ttl ← requireIntJ baseTtlV 10 "base_ttl"
    let decayV ← getR "decay_half_life"
    let decay_half_life ← requireIntJ decayV 1 "decay_half_life"
    let pruneSampleV ← getR "prune_sample"
    let prune_sample ← requireIntJ pruneSampleV 16 "prune_sample"
    let ratioV ← getR "prune_target_ratio"
    let prune_target_ratio ← clampFloatJ ratioV (1/20) 1
    let thread_safe := (getP "thread_safe" (JValue.jbool false)).truthy
    let seed ← (match getP "seed" JValue.jnull with
      | JValue.jnull => Except.ok none
      | v => (v.toIntP).elim (Except.error "TypeError: seed is not an integer")
          (fun n => Except.ok (some n)))
    let recency_half_life ← requireIntJ (getP "recency_half_life_ticks" (JValue.jint 64))
      1 "recency_half_life_ticks"
    let habituation_start ← requireIntJ (getP "habituation_start" (JValue.jint 32))
      0 "habituation_start"
    let habScaleQ ← ((getP "habituation_scale" (JValue.jnum 1)).toFloatP).elim
      (Except.error "TypeError: habituation_scale is not a number") Except.ok
    let habituation_scale := max habScaleQ 1
    let boredom_weight ← clampFloatJ (getP "boredom_weight" (JValue.jnum (7/20))) 0 1
    let frontier_novelty_threshold ←
      clampFloatJ (getP "frontier_novelty_threshold" (JValue.jnum (4/5))) 0 1
    let frontier_patience ← requireIntJ (getP "frontier_patience" (JValue.jint 3))
      2 "frontier_patience"
    let diffusion_interval ← requireIntJ (getP "diffusion_interval" (JValue.jint 12))
      5 "diffusion_interval"
    let diffusion_kappa ← clampFloatJ (getP "diffusion_kappa" (JValue.jnum (1/4))) 0 1
    let exploration_churn_window ←
      requireIntJ (getP "exploration_churn_window" (JValue.jint 32))
        10 "exploration_churn_window"
    let condensation_boredom ← clamp01J (getP "condensation_boredom" (JValue.jnum (17/20)))
    let condensation_conf ← clamp01J (getP "condensation_conf" (JValue.jnum (3/5)))
    let condensation_mass ← ((getP "condensation_mass" (JValue.jnum 5)).toFloatP).elim
      (Except.error "TypeError: condensation_mass is not a number") Except.ok
    Except.ok
      { capacity := capacity
        base_ttl := base_ttl
        decay_half_life := decay_half_life
        prune_sample := prune_sample
        prune_target_ratio := prune_target_ratio
        thread_safe := thread_safe
        seed := seed
        recency_half_life := recency_half_life
        habituation_start := habituation_start
        habituation_scale := habituation_scale
        boredom_weight := boredom_weight
        frontier_novelty_threshold := frontier_novelty_threshold
        frontier_patience := frontier_patience
        diffusion_interval := diffusion_interval
        diffusion_kappa := diffusion_kappa
        exploration_churn_window := exploration_churn_window
        condensation_boredom := condensation_boredom
        condensation_conf := condensation_conf
        condensation_mass := condensation_mass
        mem := []
        tick := 0
        events := []
        nn_distances := []
        territory_centroids := []
        territory_counts := []
        territory_member_dists := []
        territory_tau := 3/10
        next_territory_id := 10000
        deterministic_ids := []
        reward_ema := 0
        pair_churn := []
        pair_last := []
        exploration_temp := 1
        pending_condense := []
        condense_callback := none
        engrams := []
        frontier := []
        split_counter := 0
        merge_counter := 0
        rng := P.rngInit seed }

/-- Translation of `populate_manager_from_dict`.  Per-entry `try/except`
blocks become per-entry skips; errors outside those blocks (bad scalar
casts, a non-mapping where `.items()` is called) are the `Except.error`
case, which the caller may or may not catch. -/
def populateFromDict (m : Manager) (payload : JValue) : Except String Manager := do
  let tick ← ((jGetD payload "tick" (JValue.jint 0)).toIntP).elim
    (Except.error "ValueError: tick") Except.ok
  let nextTerritory ← ((jGetD payload "next_territory" (JValue.jint 10000)).toIntP).elim
    (Except.error "ValueError: next_territory") Except.ok
  let rewardEma ← ((jGetD payload "reward_ema" (JValue.jnum 0)).toFloatP).elim
    (Except.error "ValueError: reward_ema") Except.ok
  let tauRaw ← ((jGetD payload "territory_tau" (JValue.jnum (3/10))).toFloatP).elim
    (Except.error "ValueError: territory_tau") Except.ok
  let splitCounter ← ((jGetD payload "split_counter" (JValue.jint 0)).toIntP).elim
    (Except.error "ValueError: split_counter") Except.ok
  let mergeCounter ← ((jGetD payload "merge_counter" (JValue.jint 0)).toIntP).elim
    (Except.error "ValueError: merge_counter") Except.ok
  let engrams ← (match jGetD payload "engrams" (JValue.jobj []) with
    | JValue.jobj l => Except.ok (l.foldl
        (fun acc p => match p.2 with
          | JValue.jarr members => alSet acc p.1 (members.map JValue.toStrP)
          | _ => acc) [])
    | _ => Except.error "AttributeError: engrams is not a mapping")
  let frontier ← (match jGetD payload "frontier" (JValue.jobj []) with
    | JValue.jobj l => Except.ok (l.foldl
        (fun acc p => match p.2 with
          | JValue.jobj info => alSet acc p.1 (JValue.jobj info)
          | _ => acc) [])
    | _ => Except.error "AttributeError: frontier is not a mapping")
  let mem := (match jGetD payload "mem" (JValue.jobj []) with
    | JValue.jobj l => l.foldl
        (fun acc p => match memFromDict p.1 p.2 with
          | Except.ok state => alSet acc state.memory_id state
          | Except.error _ => acc) m.mem
    | _ => m.mem)
  let centroids ← (match jGetD payload "territory_centroids" (JValue.jobj []) with
    | JValue.jobj l => Except.ok (l.foldl
        (fun acc p =>
          match parseIntKey p.1,
            (match p.2 with
             | JValue.jarr vs => vs.mapM JValue.toFloatP
             | _ => none) with
          | some tid, some vals => alSet acc tid vals
          | _, _ => acc) m.territory_centroids)
    | _ => Except.error "AttributeError: territory_centroids is not a mapping")
  let counts ← (match jGetD payload "territory_counts" (JValue.jobj []) with
    | JValue.jobj l => Except.ok (l.foldl
        (fun acc p =>
          match parseIntKey p.1, p.2.toIntP with
          | some tid, some count => alSet acc tid count
          | _, _ => acc) m.territory_counts)
    | _ => Except.error "AttributeError: territory_counts is not a mapping")
  let memberDists ← (match jGetD payload "territory_member_dists" (JValue.jobj []) with
    | JValue.jobj l => Except.ok (l.foldl
        (fun acc p =>
          match parseIntKey p.1,
            (match p.2 with
             | JValue.jarr vs => vs.mapM JValue.toFloatP
             | _ => none) with
          | some tid, some vals => alSet acc tid (vals.foldl (pushBounded 1024) [])
          | _, _ => acc) m.territory_member_dists)
    | _ => Except.error "AttributeError: territory_member_dists is not a mapping")
  let nn := (match jGetD payload "nn_distances" (JValue.jarr []) with
    | JValue.jarr vs => vs.foldl
        (fun acc v => match v.toFloatP with
          | some q => pushBounded 5000 acc q
          | none => acc) []
    | _ => [])
  let pairChurn ← (match jGetD payload "pair_churn" (JValue.jobj []) with
    | JValue.jobj l => Except.ok (l.foldl
        (fun acc p =>
          match parsePairKey p.1,
            (match p.2 with
             | JValue.jarr vs => vs.mapM JValue.toIntP
             | _ => none) with
          | some pair, some ticks =>
            alSet acc pair (ticks.foldl (pushBounded m.exploration_churn_window.toNat) [])
          | _, _ => acc) m.pair_churn)
    | _ => Except.error "AttributeError: pair_churn is not a mapping")
  let pairLast ← (match jGetD payload "pair_last" (JValue.jobj []) with
    | JValue.jobj l => Except.ok (l.foldl
        (fun acc p =>
          match parsePairKey p.1, p.2.toIntP with
          | some pair, some v => alSet acc pair v
          | _, _ => acc) m.pair_last)
    | _ => Except.error "AttributeError: pair_last is not a mapping")
  Except.ok { m with
    tick := tick
    next_territory_id := nextTerritory
    reward_ema := rewardEma
    territory_tau := clampFloat tauRaw (1/20) (3/5)
    split_counter := splitCounter
    merge_counter := mergeCounter
    engrams := engrams
    frontier := frontier
    mem := mem
    territory_centroids := centroids
    territory_counts := counts
    territory_member_dists := memberDists
    nn_distances := nn
    pair_churn := pairChurn
    pair_last := pairLast }

/-- Translation of `persistence.load_json`.  The file argument is the parsed
JSON document, `none` standing for an `OSError` or `JSONDecodeError` (both
yield `null`).  Only the `populate_manager_from_dict` call is guarded by a
`try/except`; an error from `sanitize_config` or from the constructor
propagates (the `Except.error` case). -/
def loadJson (P : Prims) (file : Option JValue) : Except String (Option Manager) := do
  match file with
  | none => Except.ok none
  | some payload =>
    let cfgRaw ← (match payload with
      | JValue.jobj _ => Except.ok (jGetD payload "config" (JValue.jobj []))
      | _ => Except.error "AttributeError: payload is not a mapping")
    let cfgEntries ← (match cfgRaw with
      | JValue.jobj l => Except.ok l
      | _ => Except.error "TypeError: config is not a mapping")
    let m ← mkManagerFromJ P (sanitizeConfig cfgEntries)
    match populateFromDict m payload with
    | Except.error _ => Except.ok none
    | Except.ok m => Except.ok (some m)

/-- Translation of `VoidMemoryManager.from_dict` (no `try/except` at all:
constructor and populate errors propagate). -/
def fromDict (P : Prims) (payload : JValue) : Except String Manager := do
  let cfgRaw ← (match payload with
    | JValue.jobj _ => Except.ok (jGetD payload "config" (JValue.jobj []))
    | _ => Except.error "AttributeError: payload is not a mapping")
  let cfgEntries ← (match cfgRaw with
    | JValue.jobj l => Except.ok l
    | _ => Except.error "TypeError: config is not a mapping")
  let m ← mkManagerFromJ P (sanitizeConfig cfgEntries)
  populateFromDict m payload

/-- Successful `save_json` followed by `load_json` of the same path: the
file then holds exactly the dumped `manager_to_dict` document (Python's
JSON text round-trip is exact on these values). -/
def saveLoad (P : Prims) (m : Manager) : Except String (Option Manager) :=
  loadJson P (some (managerToDict m))

/-! ### Public call sequences

One constructor per public entry point; queries leave the state unchanged
(`consume_events` clears the event buffer, so it is a mutator). -/

inductive Op where
  | register (ids raw_texts : List String)
      (embeddings : Option (List (Option (List ℚ))))
      (metadata : Option (List JValue)) : Op
  | reinforceOp (idsRows : List (List String)) (distRows : List (List ℚ))
      (heatGain : ℚ) (ttlBoost : ℤ) : Op
  | degradeOp (ids : List String) (ttlFloor : ℤ) : Op
  | engramOp (summaryId : String) (memberIds : List String) (text : String) : Op
  | setCallbackOp (callback : Option (List String → Option (String × String))) : Op
  | consumeOp : Op
  | topOp (k : ℤ) : Op
  | statsOp : Op
  | peekOp (k : ℤ) : Op
  | scoreForOp (memory_id : String) : Op
  | weightOp (memory_id : String) : Op
  | toDictOp : Op

/-- State transition of one public call (a raised exception leaves the
manager object with the mutations applied up to the raise). -/
def stepOp (P : Prims) (m : Manager) : Op → Manager
  | Op.register ids raw_texts embeddings metadata =>
    (registerChunks P m ids raw_texts embeddings metadata).1
  | Op.reinforceOp idsRows distRows heatGain ttlBoost =>
    (reinforce P m idsRows distRows heatGain ttlBoost).1
  | Op.degradeOp ids ttlFloor => (degrade m ids ttlFloor).1
  | Op.engramOp summaryId memberIds text => (registerEngram m summaryId memberIds text).1
  | Op.setCallbackOp callback => setCondenseCallback m callback
  | Op.consumeOp => (consumeEvents m).2
  | Op.topOp _ => m
  | Op.statsOp => m
  | Op.peekOp _ => m
  | Op.scoreForOp _ => m
  | Op.weightOp _ => m
  | Op.toDictOp => m

/-- Drive a manager through a sequence of public calls. -/
def runOps (P : Prims) (m : Manager) (ops : List Op) : Manager :=
  ops.foldl (stepOp P) m

/-! ### Concrete instances for witnesses -/

/-- Simple concrete primitive bundle used to instantiate witnesses (the
verified statements hold for every bundle). -/
def P0 : Prims :=
  { expQ := fun _ => 1
  , sqrtQ := fun _ => 0
  , rpow := fun _ _ => 1
  , ln2 := 7/10
  , blake2bHex := fun t => t
  , rngInit := fun _ => 0
  , rngRandom := fun s => (1/2, s + 1)
  , rngShuffle := fun s l => (l, s + 1)
  , shuffle_perm := fun _ l => List.Perm.refl l }

/-- All-defaults sanitized configuration. -/
def cfg0 : List (String × JValue) := sanitizeConfig []

/-- Fallback manager record for total extraction in witnesses. -/
def emptyManager : Manager :=
  { capacity := 256, base_ttl := 128, decay_half_life := 32, prune_sample := 64
  , prune_target_ratio := 1/5, thread_safe := false, seed := none
  , recency_half_life := 64, habituation_start := 32, habituation_scale := 1
  , boredom_weight := 7/20, frontier_novelty_threshold := 4/5, frontier_patience := 3
  , diffusion_interval := 12, diffusion_kappa := 1/4, exploration_churn_window := 32
  , condensation_boredom := 17/20, condensation_conf := 3/5, condensation_mass := 5
  , mem := [], tick := 0, events := [], nn_distances := []
  , territory_centroids := [], territory_counts := [], territory_member_dists := []
  , territory_tau := 3/10, next_territory_id := 10000, deterministic_ids := []
  , reward_ema := 0, pair_churn := [], pair_last := [], exploration_temp := 1
  , pending_condense := [], condense_callback := none, engrams := [], frontier := []
  , split_counter := 0, merge_counter := 0, rng := 0 }

/-- Manager freshly constructed from the default configuration with `P0`. -/
def mgr0 : Manager :=
  match mkManagerFromJ P0 cfg0 with
  | Except.ok m => m
  | Except.error _ => emptyManager

/-- Concrete one-trace manager used by witnesses: the default manager after
registering one chunk. -/
def mgrA : Manager := (registerChunks P0 mgr0 ["a"] ["hi"] none none).1

/-- From the claim's words: the prune target computed with the configured
`prune_target_ratio` (any value in `[0.05, 1.0]`), for comparison with the
code's `codePruneTarget`. -/
def claimPruneTarget (m : Manager) : ℤ :=
  max 1 (min ((m.mem.length : ℤ) - m.capacity)
    (pyTrunc (max 1 ((m.mem.length : ℚ) * m.prune_target_ratio - (m.capacity : ℚ)))))

/-- Counterexample manager for the prune target: capacity 10,
`prune_target_ratio = 1.0`, 40 identical traces. -/
def mgrC6base : Manager :=
  match mkManagerFromJ P0 (sanitizeConfig
    [ ("capacity", JValue.jint 10), ("prune_sample", JValue.jint 16)
    , ("prune_target_ratio", JValue.jnum 1) ]) with
  | Except.ok m => m
  | Except.error _ => emptyManager

/-- One anonymous stored trace keyed by its decimal index. -/
def c6Trace (i : ℕ) : MemState :=
  { memory_id := String.mk (natChars i), text := "t" }

/-- Forty identical traces. -/
def c6Mem : List (String × MemState) :=
  (List.range 40).map (fun i => (String.mk (natChars i), c6Trace i))

/-- Counterexample manager continued: the 40-trace store. -/
def mgrC6 : Manager := { mgrC6base with mem := c6Mem }

/-- From the claim's words: the split candidate set computed with the
statistical median (averaging the two middle novelties when the member
count is even), for comparison with `codeSplitCandidates`. -/
def claimSplitCandidates (m : Manager) (tid : ℤ) : List MemState :=
  (splitMembers m tid).filter
    (fun state => medianQ ((splitMembers m tid).map MemState.novelty) < state.novelty ∧
      state.boredom < 7/10)

/-- Trace in territory 777 with a given decimal id and novelty. -/
def c7Trace (i : ℕ) (nov : ℚ) : MemState :=
  { memory_id := String.mk (natChars i), text := "t", territory_id := some 777
    novelty := nov }

/-- Six traces whose novelties are split 0.1 / 0.9 (even-length median
divergence: upper median 0.9, statistical median 0.5). -/
def c7Mem : List (String × MemState) :=
  [ (String.mk (natChars 0), c7Trace 0 (1/10))
  , (String.mk (natChars 1), c7Trace 1 (1/10))
  , (String.mk (natChars 2), c7Trace 2 (1/10))
  , (String.mk (natChars 3), c7Trace 3 (9/10))
  , (String.mk (natChars 4), c7Trace 4 (9/10))
  , (String.mk (natChars 5), c7Trace 5 (9/10)) ]

/-- Counterexample manager for the split median. -/
def mgrC7 : Manager :=
  { mgr0 with mem := c7Mem, territory_counts := [(777, 6)] }

/-- Six traces with evenly spread novelties so that the code's own split
fires (upper median 0.4, candidates 0.5 and 0.6). -/
def c7wMem : List (String × MemState) :=
  [ (String.mk (natChars 0), c7Trace 0 (1/10))
  , (String.mk (natChars 1), c7Trace 1 (1/5))
  , (String.mk (natChars 2), c7Trace 2 (3/10))
  , (String.mk (natChars 3), c7Trace 3 (2/5))
  , (String.mk (natChars 4), c7Trace 4 (1/2))
  , (String.mk (natChars 5), c7Trace 5 (3/5)) ]

/-- Witness manager on which the code's split proceeds. -/
def mgrC7w : Manager :=
  { mgr0 with mem := c7wMem, territory_counts := [(777, 6)] }

/-- Snapshot whose config entry fails constructor validation
(`capacity = 5 < 10`). -/
def badCapacityPayload : JValue :=
  JValue.jobj [("config", JValue.jobj [("capacity", JValue.jint 5)])]

/-- Snapshot whose stored `territory_tau` disagrees with the clamped median
of its stored `nn_distances`. -/
def inconsistentTauPayload : JValue :=
  JValue.jobj
    [ ("territory_tau", JValue.jnum (1/2))
    , ("nn_distances", JValue.jarr [JValue.jnum (1/10)]) ]

/-- Manager loaded from `inconsistentTauPayload`. -/
def tauLoadedManager : Manager :=
  match loadJson P0 (some inconsistentTauPayload) with
  | Except.ok (some m) => m
  | _ => emptyManager

/-! ### Condensation bookkeeping (C5) -/

/-- The claim's invariant: a stored trace is flagged `pending_condense`
exactly when its id sits in the condensation queue. -/
def condenseInv (m : Manager) : Prop :=
  ∀ p ∈ m.mem, (p.2.pending_condense = true ↔ p.1 ∈ m.pending_condense)

/-- Per-entry projection the condensation bookkeeping depends on: stored
key, `memory_id` field and `pending_condense` flag. -/
def msView (p : String × MemState) : String × String × Bool :=
  (p.1, p.2.memory_id, p.2.pending_condense)

/-- The state view the condensation bookkeeping depends on; operations that
do not touch it preserve the invariant. -/
def condenseView (m : Manager) : List (String × String × Bool) × List String :=
  (m.mem.map msView, m.pending_condense)

/-- Auxiliary strengthening carried through the operations: the claim's
invariant, every queued id names a stored trace, stored keys are unique,
and each trace records its own key. -/
def condenseStrong (m : Manager) : Prop :=
  condenseInv m ∧
  (∀ mid ∈ m.pending_condense, alContains m.mem mid = true) ∧
  (m.mem.map Prod.fst).Nodup ∧
  (∀ p ∈ m.mem, p.2.memory_id = p.1)

/-- State right after a condensation flush: empty queue, no flagged trace,
unique keys, traces record their own keys. -/
def condenseClear (m : Manager) : Prop :=
  m.pending_condense = [] ∧
  (∀ p ∈ m.mem, p.2.pending_condense = false) ∧
  (m.mem.map Prod.fst).Nodup ∧
  (∀ p ∈ m.mem, p.2.memory_id = p.1)

/-- Snapshot holding one trace flagged `pending_condense` — exactly what
`to_dict` writes for a manager whose reinforcement raised after queueing
the trace. -/
def pendingPayload : JValue :=
  JValue.jobj [("mem", JValue.jobj
    [("a", JValue.jobj [("pending_condense", JValue.jbool true)])])]

/-- Manager loaded from `pendingPayload`. -/
def pendingLoadedManager : Manager :=
  match loadJson P0 (some pendingPayload) with
  | Except.ok (some m) => m
  | _ => emptyManager

/-- The single trace stored by `pendingLoadedManager`. -/
def pcTrace : MemState :=
  match alGet pendingLoadedManager.mem "a" with
  | some ms => ms
  | none => { memory_id := "a", text := "" }

/-! ### Snapshot well-formedness (C1) -/

/-- Is the value a JSON object. -/
def isJObj : JValue → Bool
  | JValue.jobj _ => true
  | _ => false

/-- Decidable well-formedness of a manager state, every part of which the
code maintains itself: configuration inside the constructor-accepted
ranges, clamped traces stored under their own ids with unique keys, τ in
`[0.05, 0.6]`, windows within their deque bounds, frontier values objects,
engram/territory/pair dicts with unique keys and pair keys sorted. -/
def wfManager (m : Manager) : Prop :=
  10 ≤ m.capacity ∧ 10 ≤ m.base_ttl ∧ 1 ≤ m.decay_half_life ∧
  16 ≤ m.prune_sample ∧
  1/20 ≤ m.prune_target_ratio ∧ m.prune_target_ratio ≤ 1 ∧
  1 ≤ m.recency_half_life ∧ 0 ≤ m.habituation_start ∧
  1 ≤ m.habituation_scale ∧
  0 ≤ m.boredom_weight ∧ m.boredom_weight ≤ 1 ∧
  0 ≤ m.frontier_novelty_threshold ∧ m.frontier_novelty_threshold ≤ 1 ∧
  2 ≤ m.frontier_patience ∧ 5 ≤ m.diffusion_interval ∧
  0 ≤ m.diffusion_kappa ∧ m.diffusion_kappa ≤ 1 ∧
  10 ≤ m.exploration_churn_window ∧
  0 ≤ m.condensation_boredom ∧ m.condensation_boredom ≤ 1 ∧
  0 ≤ m.condensation_conf ∧ m.condensation_conf ≤ 1 ∧
  1/20 ≤ m.territory_tau ∧ m.territory_tau ≤ 3/5 ∧
  (∀ p ∈ m.mem, p.2.memory_id = p.1 ∧ wfTrace p.2) ∧
  (m.mem.map Prod.fst).Nodup ∧
  (m.engrams.map Prod.fst).Nodup ∧
  (m.frontier.map Prod.fst).Nodup ∧
  (∀ p ∈ m.frontier, isJObj p.2 = true) ∧
  (m.territory_centroids.map Prod.fst).Nodup ∧
  (m.territory_counts.map Prod.fst).Nodup ∧
  (m.territory_member_dists.map Prod.fst).Nodup ∧
  (∀ p ∈ m.territory_member_dists, p.2.length ≤ 1024) ∧
  m.nn_distances.length ≤ 5000 ∧
  (m.pair_churn.map Prod.fst).Nodup ∧
  (∀ p ∈ m.pair_churn, p.1.1 ≤ p.1.2 ∧
    p.2.length ≤ m.exploration_churn_window.toNat) ∧
  (m.pair_last.map Prod.fst).Nodup ∧
  (∀ p ∈ m.pair_last, p.1.1 ≤ p.1.2)

instance (m : Manager) : Decidable (wfManager m) := by
  unfold wfManager
  infer_instance

/-- Zero state the constructor re-installs for `m`'s configuration echo. -/
def freshOf (P : Prims) (m : Manager) : Manager :=
  { m with
    mem := [], tick := 0, events := [], nn_distances := []
    territory_centroids := [], territory_counts := [], territory_member_dists := []
    territory_tau := 3/10, next_territory_id := 10000, deterministic_ids := []
    reward_ema := 0, pair_churn := [], pair_last := [], exploration_temp := 1
    pending_condense := [], condense_callback := none, engrams := [], frontier := []
    split_counter := 0, merge_counter := 0, rng := P.rngInit m.seed }

/-- The manager `load_json` rebuilds from `manager_to_dict m`: every
serialised field restored, everything else the constructor's zero state. -/
def reloaded (P : Prims) (m : Manager) : Manager :=
  { freshOf P m with
    tick := m.tick
    next_territory_id := m.next_territory_id
    reward_ema := m.reward_ema
    territory_tau := m.territory_tau
    split_counter := m.split_counter
    merge_counter := m.merge_counter
    engrams := m.engrams
    frontier := m.frontier
    mem := m.mem
    territory_centroids := m.territory_centroids
    territory_counts := m.territory_counts
    territory_member_dists := m.territory_member_dists
    nn_distances := m.nn_distances
    pair_churn := m.pair_churn
    pair_last := m.pair_last }

end VoidDyn

namespace VoidDyn

/-! ## Helper lemmas -/

/-- Destructure a successful `Except` bind. -/
theorem bindE_ok {ε α β : Type} {x : Except ε α} {f : α → Except ε β} {b : β}
    (h : (x >>= f) = Except.ok b) : ∃ a, x = Except.ok a ∧ f a = Except.ok b := by
  cases x with
  | error e => exact absurd h (by simp [Bind.bind, Except.bind])
  | ok a => exact ⟨a, rfl, by simpa [Bind.bind, Except.bind] using h⟩

/-- Bind of a success reduces. -/
@[simp] theorem bindE_ok_eq {ε α β : Type} (a : α) (f : α → Except ε β) :
    (Except.ok (ε := ε) a >>= f) = f a := rfl

/-- Bind of an error reduces. -/
@[simp] theorem bindE_error_eq {ε α β : Type} (e : ε) (f : α → Except ε β) :
    (Except.error (α := α) e >>= f) = Except.error (α := β) e := rfl

/-- Clamping lands inside the interval. -/
theorem clampFloat_bounds {lower upper : ℚ} (v : ℚ) (h : lower ≤ upper) :
    lower ≤ clampFloat v lower upper ∧ clampFloat v lower upper ≤ upper := by
  unfold clampFloat
  split_ifs with h1 h2 <;> constructor <;> linarith

/-- Clamping is the identity on values already inside the interval. -/
theorem clampFloat_eq_self {lower upper v : ℚ} (h1 : lower ≤ v) (h2 : v ≤ upper) :
    clampFloat v lower upper = v := by
  unfold clampFloat
  split_ifs <;> linarith

/-- Bounded pushes never produce the empty list. -/
theorem pushBounded_ne_nil {cap : ℕ} (hcap : 0 < cap) (l : List α) (x : α) :
    pushBounded cap l x ≠ [] := by
  unfold pushBounded
  simp only []
  split_ifs with h
  · intro he
    have hlen := congrArg List.length he
    simp [List.length_drop] at hlen
    omega
  · simp

/-! ## C10 -/

/-- C10: for every id not present in the store, `composite_score_for`
returns null while `exploratory_weight` returns 0.0, and neither query
mutates any manager state (their public calls are state-identities). -/
theorem c10_unknown_id_queries (P : Prims) (m : Manager) (memory_id : String)
    (h : alGet m.mem memory_id = none) :
    compositeScoreFor P m memory_id = none ∧
    exploratoryWeight m memory_id = 0 ∧
    stepOp P m (Op.scoreForOp memory_id) = m ∧
    stepOp P m (Op.weightOp memory_id) = m := by
  refine ⟨?_, ?_, rfl, rfl⟩
  · unfold compositeScoreFor
    rw [h]
  · unfold exploratoryWeight
    rw [h]

/-- C10 witness: the default manager holds no trace under "zzz". -/
theorem c10_unknown_id_queries_witness :
    alGet mgr0.mem "zzz" = none ∧
    (compositeScoreFor P0 mgr0 "zzz" = none ∧
     exploratoryWeight mgr0 "zzz" = 0 ∧
     stepOp P0 mgr0 (Op.scoreForOp "zzz") = mgr0 ∧
     stepOp P0 mgr0 (Op.weightOp "zzz") = mgr0) :=
  ⟨by with_unfolding_all rfl,
   c10_unknown_id_queries P0 mgr0 "zzz" (by with_unfolding_all rfl)⟩

/-! ## C3 -/

/-- C3 counterexample: a parsed snapshot whose config entry fails
constructor validation makes `load_json` raise (propagated `ValueError`
from `require_int`) instead of returning null. -/
theorem c3_load_json_raises_counterexample :
    loadJson P0 (some badCapacityPayload) =
      Except.error "capacity must be above the minimum" := by
  with_unfolding_all rfl

/-- C3 amended: `load_json` returns null for an I/O or parse failure, and
never raises when the payload's sanitized config constructs successfully
(structural errors inside the payload yield null via the guarded populate
call); but a config entry that fails constructor validation, or a
non-mapping payload or config, raises a propagated error. -/
theorem c3_load_json_amended (P : Prims) (payload : JValue)
    (entries : List (String × JValue)) (m0 : Manager)
    (hobj : ∃ l, payload = JValue.jobj l)
    (hcfg : jGetD payload "config" (JValue.jobj []) = JValue.jobj entries)
    (hmk : mkManagerFromJ P (sanitizeConfig entries) = Except.ok m0) :
    loadJson P none = Except.ok none ∧
    ∃ r, loadJson P (some payload) = Except.ok r := by
  constructor
  · rfl
  · obtain ⟨l, rfl⟩ := hobj
    simp only [loadJson, hcfg, bindE_ok_eq, hmk]
    cases hpop : populateFromDict m0 (JValue.jobj l) with
    | error e => exact ⟨none, rfl⟩
    | ok m1 => exact ⟨some m1, rfl⟩

/-- C3 amended witness: loading an empty JSON object succeeds. -/
theorem c3_load_json_amended_witness :
    (jGetD (JValue.jobj []) "config" (JValue.jobj []) = JValue.jobj [] ∧
     mkManagerFromJ P0 (sanitizeConfig []) = Except.ok mgr0) ∧
    (loadJson P0 none = Except.ok none ∧
     ∃ r, loadJson P0 (some (JValue.jobj [])) = Except.ok r) :=
  ⟨⟨by with_unfolding_all rfl, by with_unfolding_all rfl⟩,
   c3_load_json_amended P0 (JValue.jobj []) [] mgr0 ⟨[], rfl⟩
     (by with_unfolding_all rfl) (by with_unfolding_all rfl)⟩

/-! ## Constructor and loader shape lemmas -/

/-- Zero state installed by a successful `__init__`. -/
theorem mkManagerFromJ_ok_state {P : Prims} {cfg : List (String × JValue)} {m : Manager}
    (h : mkManagerFromJ P cfg = Except.ok m) :
    m.mem = [] ∧ m.tick = 0 ∧ m.events = [] ∧ m.nn_distances = [] ∧
    m.territory_tau = 3/10 ∧ m.pending_condense = [] ∧ m.next_territory_id = 10000 ∧
    m.reward_ema = 0 ∧ m.engrams = [] ∧ m.frontier = [] ∧
    m.territory_centroids = [] ∧ m.territory_counts = [] ∧
    m.territory_member_dists = [] ∧ m.split_counter = 0 ∧ m.merge_counter = 0 := by
  unfold mkManagerFromJ at h
  split at h
  · exact absurd h (by simp)
  · repeat obtain ⟨_, _, h⟩ := bindE_ok h
    injection h with h
    subst h
    exact ⟨rfl, rfl, rfl, rfl, rfl, rfl, rfl, rfl, rfl, rfl, rfl, rfl, rfl, rfl, rfl⟩

/-- The radius τ stored by a successful `populate_manager_from_dict` is a
clamped value. -/
theorem populateFromDict_ok_tau {m0 : Manager} {payload : JValue} {m : Manager}
    (h : populateFromDict m0 payload = Except.ok m) :
    ∃ q, m.territory_tau = clampFloat q (1/20) (3/5) := by
  unfold populateFromDict at h
  obtain ⟨_, _, h⟩ := bindE_ok h
  obtain ⟨_, _, h⟩ := bindE_ok h
  obtain ⟨_, _, h⟩ := bindE_ok h
  obtain ⟨tauRaw, _, h⟩ := bindE_ok h
  repeat obtain ⟨_, _, h⟩ := bindE_ok h
  injection h with h
  subst h
  exact ⟨tauRaw, rfl⟩

/-- A successful non-null `load_json` factors into a successful
construction followed by a successful populate. -/
theorem loadJson_ok_some {P : Prims} {file : Option JValue} {m : Manager}
    (h : loadJson P file = Except.ok (some m)) :
    ∃ m0 payload, file = some payload ∧ populateFromDict m0 payload = Except.ok m := by
  cases file with
  | none => exact absurd h (by simp [loadJson])
  | some payload =>
    simp only [loadJson] at h
    obtain ⟨_, _, h⟩ := bindE_ok h
    obtain ⟨_, _, h⟩ := bindE_ok h
    obtain ⟨m0, _, h⟩ := bindE_ok h
    refine ⟨m0, payload, rfl, ?_⟩
    cases hpop : populateFromDict m0 payload with
    | error e => rw [hpop] at h; exact absurd h (by simp)
    | ok m1 =>
      rw [hpop] at h
      injection h with h
      injection h with h
      rw [h]

/-! ## Association list lemmas -/

/-- Lookup on the empty dict. -/
@[simp] theorem alGet_nil [DecidableEq κ] (k : κ) :
    alGet ([] : List (κ × α)) k = none := rfl

/-- Lookup on a cons cell. -/
theorem alGet_cons [DecidableEq κ] (a : κ) (b : α) (l : List (κ × α)) (k : κ) :
    alGet ((a, b) :: l) k = if a = k then some b else alGet l k := by
  unfold alGet
  rw [List.find?_cons]
  by_cases h : a = k <;> simp [h]

/-- Lookup after setting the same key. -/
@[simp] theorem alGet_alSet_self [DecidableEq κ] (l : List (κ × α)) (k : κ) (v : α) :
    alGet (alSet l k v) k = some v := by
  induction l with
  | nil => simp [alSet, alGet_cons]
  | cons p rest ih =>
    unfold alSet
    by_cases h : p.1 = k
    · simp [h, alGet_cons]
    · simp only [if_neg h]
      obtain ⟨a, b⟩ := p
      rw [alGet_cons]
      simp only [if_neg h]
      exact ih

/-- Lookup after setting a different key. -/
theorem alGet_alSet_ne [DecidableEq κ] (l : List (κ × α)) {k k' : κ} (v : α)
    (h : k' ≠ k) : alGet (alSet l k v) k' = alGet l k' := by
  induction l with
  | nil =>
    unfold alSet
    rw [alGet_cons]
    simp [Ne.symm h]
  | cons p rest ih =>
    unfold alSet
    obtain ⟨a, b⟩ := p
    by_cases ha : a = k
    · simp only [if_pos ha]
      rw [alGet_cons, alGet_cons]
      simp [ha, Ne.symm h]
    · simp only [if_neg ha]
      rw [alGet_cons, alGet_cons]
      by_cases ha' : a = k'
      · simp [ha']
      · simp only [if_neg ha']
        exact ih

/-- Lookup after updating the same key. -/
theorem alGet_alUpdate_self [DecidableEq κ] (l : List (κ × α)) (k : κ) (f : α → α) :
    alGet (alUpdate l k f) k = (alGet l k).map f := by
  induction l with
  | nil => simp [alUpdate]
  | cons p rest ih =>
    unfold alUpdate
    obtain ⟨a, b⟩ := p
    by_cases ha : a = k
    · simp [ha, alGet_cons]
    · simp only [if_neg ha]
      rw [alGet_cons, alGet_cons]
      simp only [if_neg ha]
      exact ih

/-- Lookup after updating a different key. -/
theorem alGet_alUpdate_ne [DecidableEq κ] (l : List (κ × α)) {k k' : κ} (f : α → α)
    (h : k' ≠ k) : alGet (alUpdate l k f) k' = alGet l k' := by
  induction l with
  | nil => simp [alUpdate]
  | cons p rest ih =>
    unfold alUpdate
    obtain ⟨a, b⟩ := p
    by_cases ha : a = k
    · simp only [if_pos ha]
      rw [alGet_cons, alGet_cons]
      simp only [ha, Ne.symm h, if_false]
    · simp only [if_neg ha]
      rw [alGet_cons, alGet_cons]
      by_cases ha' : a = k'
      · simp [ha']
      · simp only [if_neg ha']
        exact ih

/-- Lookup after popping a key. -/
theorem alGet_alPop_ne [DecidableEq κ] (l : List (κ × α)) {k k' : κ}
    (h : k' ≠ k) : alGet (alPop l k) k' = alGet l k' := by
  induction l with
  | nil => simp [alPop]
  | cons p rest ih =>
    unfold alPop at ih ⊢
    obtain ⟨a, b⟩ := p
    rw [List.filter_cons]
    by_cases ha : a = k
    · simp only [ha, ne_eq, not_true_eq_false, decide_False, Bool.false_eq_true, if_false]
      rw [alGet_cons]
      simp only [ha, Ne.symm h, if_false]
      exact ih
    · simp only [ne_eq, ha, not_false_eq_true, decide_True, if_true]
      rw [alGet_cons, alGet_cons]
      by_cases ha' : a = k'
      · simp [ha']
      · simp only [if_neg ha']
        exact ih

/-- Popping removes the key. -/
theorem alGet_alPop_self [DecidableEq κ] (l : List (κ × α)) (k : κ) :
    alGet (alPop l k) k = none := by
  induction l with
  | nil => simp [alPop]
  | cons p rest ih =>
    unfold alPop at ih ⊢
    obtain ⟨a, b⟩ := p
    rw [List.filter_cons]
    by_cases ha : a = k
    · simpa [ha] using ih
    · simp only [ne_eq, ha, not_false_eq_true, decide_True, if_true]
      rw [alGet_cons]
      simp only [if_neg ha]
      exact ih

/-- Members of a set dict come from the new binding or the old dict. -/
theorem mem_alSet [DecidableEq κ] {l : List (κ × α)} {k : κ} {v : α} {p : κ × α}
    (h : p ∈ alSet l k v) : p = (k, v) ∨ p ∈ l := by
  induction l with
  | nil => simpa [alSet] using h
  | cons q rest ih =>
    unfold alSet at h
    by_cases hq : q.1 = k
    · rw [if_pos hq] at h
      rcases List.mem_cons.mp h with h1 | h1
      · exact Or.inl h1
      · exact Or.inr (List.mem_cons_of_mem _ h1)
    · rw [if_neg hq] at h
      rcases List.mem_cons.mp h with h1 | h1
      · exact Or.inr (h1 ▸ List.mem_cons_self _ _)
      · rcases ih h1 with h2 | h2
        · exact Or.inl h2
        · exact Or.inr (List.mem_cons_of_mem _ h2)

/-! ## C8 -/

/-- Clamping a degraded well-formed trace changes nothing. -/
theorem clampRanges_degradedTrace {floor : ℤ} (ms : MemState)
    (hwf : wfTrace ms) (hfloor : 1 ≤ floor) :
    MemState.clampRanges (degradedTrace floor ms) = degradedTrace floor ms := by
  obtain ⟨h1, h2, h3, h4, h5, h6, h7, h8, h9, h10⟩ := hwf
  have hmin1 : (0 : ℤ) ≤ min ms.ttl floor := le_min h9 (by omega)
  have hmin2 : (0 : ℚ) ≤ min 1 (ms.boredom + 1/10) := le_min (by norm_num) (by linarith)
  have hmin3 : min 1 (ms.boredom + 1/10) ≤ (1 : ℚ) := min_le_left _ _
  unfold degradedTrace MemState.clampRanges clamp01
  simp only [MemState.mk.injEq]
  and_intros <;> (first | trivial | (split_ifs <;> first | rfl | linarith))

/-- Degradation preserves trace well-formedness. -/
theorem wfTrace_degradedTrace {floor : ℤ} (ms : MemState)
    (hwf : wfTrace ms) (hfloor : 1 ≤ floor) : wfTrace (degradedTrace floor ms) := by
  obtain ⟨h1, h2, h3, h4, h5, h6, h7, h8, h9, h10⟩ := hwf
  unfold degradedTrace wfTrace
  and_intros <;> simp_all <;> linarith

/-- Lookups come from memberships. -/
theorem alGet_some_mem [DecidableEq κ] {l : List (κ × α)} {k : κ} {v : α}
    (h : alGet l k = some v) : (k, v) ∈ l := by
  induction l with
  | nil => simp at h
  | cons p rest ih =>
    obtain ⟨a, b⟩ := p
    rw [alGet_cons] at h
    by_cases ha : a = k
    · rw [if_pos ha] at h
      injection h with h
      exact ha ▸ h ▸ List.mem_cons_self _ _
    · rw [if_neg ha] at h
      exact List.mem_cons_of_mem _ (ih h)

/-- The frame relation is reflexive. -/
theorem frameEq_refl (a : Manager) : frameEq a a := by
  unfold frameEq
  and_intros <;> rfl

/-- The frame relation is transitive. -/
theorem frameEq_trans {a b c : Manager} (h1 : frameEq a b) (h2 : frameEq b c) :
    frameEq a c := by
  unfold frameEq at h1 h2 ⊢
  obtain ⟨e1, e2, e3, e4, e5, e6, e7, e8, e9, e10, e11, e12, e13, e14, e15, e16, e17, e18⟩ := h1
  obtain ⟨f1, f2, f3, f4, f5, f6, f7, f8, f9, f10, f11, f12, f13, f14, f15, f16, f17, f18⟩ := h2
  exact ⟨e1.trans f1, e2.trans f2, e3.trans f3, e4.trans f4, e5.trans f5, e6.trans f6,
    e7.trans f7, e8.trans f8, e9.trans f9, e10.trans f10, e11.trans f11, e12.trans f12,
    e13.trans f13, e14.trans f14, e15.trans f15, e16.trans f16, e17.trans f17, e18.trans f18⟩

/-- Behaviour of the `degrade` loop over the id iterable. -/
theorem degradeFold_spec {floor : ℤ} (hfloor : 1 ≤ floor) :
    ∀ (ids : List String) (m : Manager) (n : ℤ),
    ids.Nodup → (∀ p ∈ m.mem, wfTrace p.2) →
    ((∀ id ∈ ids, ∀ ms, alGet m.mem id = some ms →
        alGet (ids.foldl (degradeStep floor) (m, n)).1.mem id =
          some (degradedTrace floor ms)) ∧
     (∀ id, id ∉ ids →
        alGet (ids.foldl (degradeStep floor) (m, n)).1.mem id = alGet m.mem id) ∧
     (∀ id, alGet m.mem id = none →
        alGet (ids.foldl (degradeStep floor) (m, n)).1.mem id = none) ∧
     frameEq (ids.foldl (degradeStep floor) (m, n)).1 m ∧
     (ids.foldl (degradeStep floor) (m, n)).1.events = m.events ∧
     (∀ p ∈ (ids.foldl (degradeStep floor) (m, n)).1.mem, wfTrace p.2)) := by
  intro ids
  induction ids with
  | nil =>
    intro m n _ hwf
    exact ⟨by simp, fun id _ => rfl, fun id h => h, frameEq_refl m, rfl, hwf⟩
  | cons a rest ih =>
    intro m n hnodup hwf
    have hnod_rest : rest.Nodup := (List.nodup_cons.mp hnodup).2
    have ha_rest : a ∉ rest := (List.nodup_cons.mp hnodup).1
    rw [List.foldl_cons]
    -- analyse the first step
    cases hga : alGet m.mem a with
    | none =>
      have hstep : degradeStep floor (m, n) a = (m, n) := by
        simp only [degradeStep, hga]
      rw [hstep]
      obtain ⟨i1, i2, i3, i4, i5, i6⟩ := ih m n hnod_rest hwf
      refine ⟨?_, ?_, i3, i4, i5, i6⟩
      · intro id hid ms hms
        rcases List.mem_cons.mp hid with h1 | h1
        · rw [h1] at hms
          rw [hms] at hga
          exact absurd hga (by simp)
        · exact i1 id h1 ms hms
      · intro id hid
        exact i2 id (fun hin => hid (List.mem_cons_of_mem _ hin))
    | some ms =>
      have hwfms : wfTrace ms := hwf _ (alGet_some_mem hga)
      have hclamp := clampRanges_degradedTrace ms hwfms hfloor
      have hstep : degradeStep floor (m, n) a =
          ({ m with mem := alSet m.mem a (degradedTrace floor ms) }, n + 1) := by
        simp only [degradeStep, hga, hclamp]
      rw [hstep]
      set m1 : Manager := { m with mem := alSet m.mem a (degradedTrace floor ms) } with hm1
      have hwf1 : ∀ p ∈ m1.mem, wfTrace p.2 := by
        intro p hp
        rcases mem_alSet hp with h1 | h1
        · rw [h1]
          exact wfTrace_degradedTrace ms hwfms hfloor
        · exact hwf _ h1
      obtain ⟨i1, i2, i3, i4, i5, i6⟩ := ih m1 (n + 1) hnod_rest hwf1
      have hframe1 : frameEq m1 m := by
        unfold frameEq
        and_intros <;> rfl
      refine ⟨?_, ?_, ?_, frameEq_trans i4 hframe1, i5, i6⟩
      · intro id hid ms2 hms2
        rcases List.mem_cons.mp hid with h1 | h1
        · subst h1
          rw [hga] at hms2
          injection hms2 with hms2
          subst hms2
          rw [i2 id ha_rest]
          exact alGet_alSet_self m.mem id (degradedTrace floor ms)
        · have hne : id ≠ a := fun he => ha_rest (he ▸ h1)
          have : alGet m1.mem id = some ms2 := by
            rw [hm1]
            simpa [alGet_alSet_ne m.mem (degradedTrace floor ms) hne] using hms2
          exact i1 id h1 ms2 this
      · intro id hid
        have hne : id ≠ a := fun he => hid (he ▸ List.mem_cons_self a rest)
        have h2 : alGet m1.mem id = alGet m.mem id := by
          rw [hm1]
          exact alGet_alSet_ne m.mem (degradedTrace floor ms) hne
        rw [i2 id (fun hin => hid (List.mem_cons_of_mem _ hin)), h2]
      · intro id hid
        have hne : id ≠ a := fun he => by
          rw [he] at hid
          rw [hid] at hga
          exact absurd hga (by simp)
        have h2 : alGet m1.mem id = none := by
          rw [hm1]
          rw [alGet_alSet_ne m.mem (degradedTrace floor ms) hne]
          exact hid
        exact i3 id h2

/-- The event recorder only touches the event log. -/
theorem frameEq_recordEvent (m : Manager) (t : String) (p : List (String × JValue)) :
    frameEq (recordEvent m t p) m ∧ (recordEvent m t p).mem = m.mem ∧
    (recordEvent m t p).tick = m.tick := by
  refine ⟨?_, rfl, rfl⟩
  unfold frameEq recordEvent
  and_intros <;> rfl

/-- C8 (amended): for every `degrade(ids, ttl_floor)` call with
`ttl_floor ≥ 1` and no repeated id, each known id's trace afterwards has
`ttl = min(previous ttl, ttl_floor)` and `boredom = min(1, previous boredom
+ 0.1)`; unknown ids are skipped; ids not named are untouched; and the call
neither advances the tick nor runs the maintenance cadence (decay, prune,
diffusion and the random generator are all untouched, as the frame equality
shows).  A repeated id is processed once per occurrence, so its boredom is
bumped once per occurrence — see the counterexample. -/
theorem c8_degrade_amended (m : Manager) (ids : List String) (ttlFloor : ℤ)
    (hfloor : 1 ≤ ttlFloor) (hnodup : ids.Nodup)
    (hwf : ∀ p ∈ m.mem, wfTrace p.2) :
    (degrade m ids ttlFloor).2 = none ∧
    (∀ id ∈ ids, ∀ ms, alGet m.mem id = some ms →
      alGet (degrade m ids ttlFloor).1.mem id = some (degradedTrace ttlFloor ms)) ∧
    (∀ id, id ∉ ids → alGet (degrade m ids ttlFloor).1.mem id = alGet m.mem id) ∧
    (∀ id, alGet m.mem id = none → alGet (degrade m ids ttlFloor).1.mem id = none) ∧
    frameEq (degrade m ids ttlFloor).1 m := by
  obtain ⟨s1, s2, s3, s4, s5, s6⟩ := degradeFold_spec hfloor ids m 0 hnodup hwf
  have hreq : requireInt ttlFloor 1 "ttl_floor" = Except.ok ttlFloor := by
    unfold requireInt
    rw [if_neg (by omega)]
  have hdeg : degrade m ids ttlFloor =
      (let r := ids.foldl (degradeStep ttlFloor) (m, 0)
       if r.2 ≠ 0 then (recordEvent r.1 "degrade" [("count", JValue.jint r.2)], none)
       else (r.1, none)) := by
    simp only [degrade, hreq]
  rw [hdeg]
  simp only []
  split_ifs with hcount
  · obtain ⟨f1, f2, f3⟩ := frameEq_recordEvent
      (ids.foldl (degradeStep ttlFloor) (m, 0)).1 "degrade"
      [("count", JValue.jint (ids.foldl (degradeStep ttlFloor) (m, 0)).2)]
    refine ⟨rfl, ?_, ?_, ?_, frameEq_trans f1 s4⟩
    · intro id hid ms hms
      rw [f2]
      exact s1 id hid ms hms
    · intro id hid
      rw [f2]
      exact s2 id hid
    · intro id hid
      rw [f2]
      exact s3 id hid
  · exact ⟨rfl, s1, s2, s3, s4⟩

/-- C8 amended witness: degrade two distinct ids (one known, one unknown)
with floor 30 on a one-trace manager. -/
theorem c8_degrade_amended_witness :
    ((1 : ℤ) ≤ 30 ∧ (["a", "zz"] : List String).Nodup ∧ ∀ p ∈ mgrA.mem, wfTrace p.2) ∧
    ((degrade mgrA ["a", "zz"] 30).2 = none ∧
     (∀ id ∈ (["a", "zz"] : List String), ∀ ms, alGet mgrA.mem id = some ms →
       alGet (degrade mgrA ["a", "zz"] 30).1.mem id = some (degradedTrace 30 ms)) ∧
     (∀ id, id ∉ (["a", "zz"] : List String) →
       alGet (degrade mgrA ["a", "zz"] 30).1.mem id = alGet mgrA.mem id) ∧
     (∀ id, alGet mgrA.mem id = none →
       alGet (degrade mgrA ["a", "zz"] 30).1.mem id = none) ∧
     frameEq (degrade mgrA ["a", "zz"] 30).1 mgrA) :=
  ⟨⟨by norm_num, by decide, by with_unfolding_all decide⟩,
   c8_degrade_amended mgrA ["a", "zz"] 30 (by norm_num) (by decide)
     (by with_unfolding_all decide)⟩

/-- C8 counterexample: the claim's per-id formula fails on a call with a
repeated id.  The loop body runs once per occurrence, so
`degrade(["a", "a"], 1)` bumps the boredom of trace `"a"` twice — from 0 to
0.2 — while `min(1, previous + 0.1)` gives 0.1. -/
theorem c8_degrade_duplicate_counterexample :
    (alGet mgrA.mem "a").map MemState.boredom = some 0 ∧
    (degrade mgrA ["a", "a"] 1).2 = none ∧
    (alGet (degrade mgrA ["a", "a"] 1).1.mem "a").map MemState.boredom =
      some (1/5) ∧
    min 1 ((0 : ℚ) + 1/10) = 1/10 ∧ (1/5 : ℚ) ≠ 1/10 :=
  ⟨by with_unfolding_all rfl, by with_unfolding_all rfl,
   by with_unfolding_all rfl, by with_unfolding_all rfl,
   by with_unfolding_all decide⟩

/-- A popped key that is absent leaves the dict unchanged. -/
theorem alPop_of_none [DecidableEq κ] {l : List (κ × α)} {k : κ}
    (h : alGet l k = none) : alPop l k = l := by
  induction l with
  | nil => rfl
  | cons p rest ih =>
    obtain ⟨a, b⟩ := p
    rw [alGet_cons] at h
    by_cases ha : a = k
    · rw [if_pos ha] at h
      exact absurd h (by simp)
    · rw [if_neg ha] at h
      unfold alPop at ih ⊢
      rw [List.filter_cons]
      simp only [ne_eq, ha, not_false_eq_true, decide_True, if_true, ih h]

/-- `_remove_memory` acts on the trace store as a pop and never touches the
tick. -/
theorem removeMemory_mem_tick (m : Manager) (memory_id : String) :
    (removeMemory m memory_id).mem = alPop m.mem memory_id ∧
    (removeMemory m memory_id).tick = m.tick := by
  unfold removeMemory
  cases hga : alGet m.mem memory_id with
  | none =>
    simp only [hga]
    exact ⟨(alPop_of_none hga).symm, trivial⟩
  | some ms =>
    simp only [hga]
    cases htid : ms.territory_id with
    | none =>
      simp only [htid]
      refine ⟨?_, ?_⟩ <;> rfl
    | some tid =>
      simp only [htid]
      split_ifs <;> (refine ⟨?_, ?_⟩ <;> rfl)

/-- Folding `_remove_memory` over ids pops them all from the store. -/
theorem foldl_removeMemory_mem (ids : List String) :
    ∀ m : Manager,
      ((ids.foldl removeMemory m).mem = ids.foldl alPop m.mem ∧
       (ids.foldl removeMemory m).tick = m.tick) := by
  induction ids with
  | nil => exact fun m => ⟨rfl, rfl⟩
  | cons a rest ih =>
    intro m
    rw [List.foldl_cons, List.foldl_cons]
    obtain ⟨h1, h2⟩ := removeMemory_mem_tick m a
    obtain ⟨i1, i2⟩ := ih (removeMemory m a)
    exact ⟨by rw [i1, h1], by rw [i2, h2]⟩

/-- The element just pushed is the last element of the bounded deque. -/
theorem getLast?_pushBounded {cap : ℕ} (hcap : 0 < cap) (l : List α) (x : α) :
    (pushBounded cap l x).getLast? = some x := by
  unfold pushBounded
  simp only []
  split_ifs with h
  · rw [List.length_append] at h
    have hle : l.length + 1 - cap ≤ l.length := by omega
    rw [List.drop_append_of_le_length (by simpa using hle)]
    exact List.getLast?_concat _
  · exact List.getLast?_concat _

/-- In a pairwise-sorted list every element of a prefix is related to every
element of the matching suffix. -/
theorem pairwise_take_drop {r : α → α → Prop} {l : List α} (h : List.Pairwise r l)
    (n : ℕ) : ∀ x ∈ l.take n, ∀ y ∈ l.drop n, r x y := by
  have := (List.pairwise_append).mp (by rwa [List.take_append_drop n l] : 
    List.Pairwise r (l.take n ++ l.drop n))
  exact this.2.2

/-! ## C6 -/

/-- C6 counterexample: with `capacity = 10`, `prune_target_ratio = 1.0` and
40 stored traces, the claim's formula demands 30 removals but the code
(which re-clamps the ratio to 0.95) attempts 28, as its `prune` event
records. -/
theorem c6_prune_target_counterexample :
    (mgrC6.mem.length : ℤ) > mgrC6.capacity ∧
    mgrC6.prune_target_ratio = 1 ∧
    claimPruneTarget mgrC6 = 30 ∧
    codePruneTarget mgrC6 = 28 ∧
    (pruneIfNeeded P0 mgrC6).events.getLast? =
      some [("count", JValue.jint 28), ("type", JValue.jstr "prune"),
            ("tick", JValue.jint 0)] := by
  refine ⟨by with_unfolding_all decide, by with_unfolding_all rfl,
    by with_unfolding_all rfl, by with_unfolding_all rfl, by with_unfolding_all rfl⟩

/-- C6 amended: when `|mem| > capacity`, the prune step removes exactly the
`target` lowest-composite-score members of the seeded random sample (at most
`prune_sample` ids drawn by the seeded shuffle of all ids), where `target =
max(1, min(|mem| - capacity, trunc(max(1, |mem| * clamp(prune_target_ratio,
0.05, 0.95) - capacity))))` — the configured ratio is re-clamped to at most
0.95 before use — and the emitted `prune` event records that target as the
attempted count. -/
theorem c6_prune_amended (P : Prims) (m : Manager)
    (hgt : (m.mem.length : ℤ) > m.capacity) :
    (pruneIfNeeded P m).mem =
      ((pruneSorted P m).take (codePruneTarget m).toNat).foldl alPop m.mem ∧
    (pruneIfNeeded P m).events.getLast? =
      some [("count", JValue.jint (codePruneTarget m)),
            ("type", JValue.jstr "prune"), ("tick", JValue.jint m.tick)] ∧
    (pruneSampleIds P m).length ≤ m.prune_sample.toNat ∧
    (∀ id ∈ pruneSampleIds P m, id ∈ alKeys m.mem) ∧
    (∀ x ∈ (pruneSorted P m).take (codePruneTarget m).toNat,
      ∀ y ∈ (pruneSorted P m).drop (codePruneTarget m).toNat,
        pruneScore P (pruneDrawn P m) x ≤ pruneScore P (pruneDrawn P m) y) := by
  have hred : pruneIfNeeded P m =
      recordEvent (((pruneSorted P m).take (codePruneTarget m).toNat).foldl
        removeMemory (pruneDrawn P m)) "prune"
        [("count", JValue.jint (codePruneTarget m))] := by
    unfold pruneIfNeeded
    rw [if_neg (by omega)]
  obtain ⟨hmem, htick⟩ :=
    foldl_removeMemory_mem ((pruneSorted P m).take (codePruneTarget m).toNat) (pruneDrawn P m)
  refine ⟨?_, ?_, ?_, ?_, ?_⟩
  · rw [hred]
    show (((pruneSorted P m).take (codePruneTarget m).toNat).foldl
      removeMemory (pruneDrawn P m)).mem = _
    rw [hmem]
    rfl
  · rw [hred]
    show (pushBounded 1024 _ _).getLast? = _
    rw [getLast?_pushBounded (by norm_num)]
    rw [htick]
    rfl
  · unfold pruneSampleIds
    simp [List.length_take]
  · intro id hid
    unfold pruneSampleIds at hid
    have hmem2 : id ∈ pruneShuffled P m := List.mem_of_mem_take hid
    exact (P.shuffle_perm m.rng (alKeys m.mem)).mem_iff.mp hmem2
  · have hsorted : List.Pairwise
        (fun a b => (fun a b => decide (pruneScore P (pruneDrawn P m) a ≤
          pruneScore P (pruneDrawn P m) b)) a b = true) (pruneSorted P m) := by
      unfold pruneSorted
      apply List.sorted_mergeSort
      · intro a b c h1 h2
        simp only [decide_eq_true_eq] at h1 h2 ⊢
        exact le_trans h1 h2
      · intro a b
        simp only [Bool.or_eq_true, decide_eq_true_eq]
        exact le_total _ _
    have hsorted2 : List.Pairwise
        (fun a b => pruneScore P (pruneDrawn P m) a ≤ pruneScore P (pruneDrawn P m) b)
        (pruneSorted P m) := by
      refine hsorted.imp ?_
      intro a b hab
      simpa using hab
    exact pairwise_take_drop hsorted2 (codePruneTarget m).toNat

/-- C6 amended witness: the 40-trace counterexample manager also
instantiates the amended characterisation. -/
theorem c6_prune_amended_witness :
    ((mgrC6.mem.length : ℤ) > mgrC6.capacity) ∧
    ((pruneIfNeeded P0 mgrC6).mem =
      ((pruneSorted P0 mgrC6).take (codePruneTarget mgrC6).toNat).foldl alPop mgrC6.mem ∧
    (pruneIfNeeded P0 mgrC6).events.getLast? =
      some [("count", JValue.jint (codePruneTarget mgrC6)),
            ("type", JValue.jstr "prune"), ("tick", JValue.jint mgrC6.tick)] ∧
    (pruneSampleIds P0 mgrC6).length ≤ mgrC6.prune_sample.toNat ∧
    (∀ id ∈ pruneSampleIds P0 mgrC6, id ∈ alKeys mgrC6.mem) ∧
    (∀ x ∈ (pruneSorted P0 mgrC6).take (codePruneTarget mgrC6).toNat,
      ∀ y ∈ (pruneSorted P0 mgrC6).drop (codePruneTarget mgrC6).toNat,
        pruneScore P0 (pruneDrawn P0 mgrC6) x ≤ pruneScore P0 (pruneDrawn P0 mgrC6) y)) :=
  ⟨by with_unfolding_all decide, c6_prune_amended P0 mgrC6 (by with_unfolding_all decide)⟩

/-- Reassigning the territory of a trace twice equals once. -/
theorem territorySet_idem (newTid : ℤ) (s : MemState) :
    ({ ({ s with territory_id := some newTid } : MemState) with
        territory_id := some newTid } : MemState) =
      { s with territory_id := some newTid } := rfl

/-- Lookup through the split reassignment fold. -/
theorem alUpdate_foldl_get (newTid : ℤ) (cs : List MemState) :
    ∀ (l : List (String × MemState)) (key : String),
      alGet (cs.foldl (fun acc c => alUpdate acc c.memory_id
        (fun s => { s with territory_id := some newTid })) l) key =
      if key ∈ cs.map MemState.memory_id then
        (alGet l key).map (fun s => { s with territory_id := some newTid })
      else alGet l key := by
  induction cs with
  | nil => intro l key; simp
  | cons c rest ih =>
    intro l key
    rw [List.foldl_cons]
    rw [ih]
    by_cases hk : key = c.memory_id
    · rw [hk, alGet_alUpdate_self]
      by_cases hin : c.memory_id ∈ rest.map MemState.memory_id
      · rw [if_pos hin, if_pos (by simp [hin])]
        cases alGet l c.memory_id with
        | none => rfl
        | some s => rfl
      · rw [if_neg hin, if_pos (by simp)]
    · rw [alGet_alUpdate_ne _ _ hk]
      by_cases hin : key ∈ rest.map MemState.memory_id
      · rw [if_pos hin, if_pos (by simp [hin])]
      · rw [if_neg hin, if_neg (by simp [hk, hin])]

/-- Projections of `create_territory`: the trace store, the split counter
and the allocated id. -/
theorem createTerritory_proj (P : Prims) (m : Manager) (e : List ℚ) (t : String) :
    (createTerritory P m e t).1.mem = m.mem ∧
    (createTerritory P m e t).1.split_counter = m.split_counter ∧
    (createTerritory P m e t).2 = m.next_territory_id := by
  unfold createTerritory
  simp only []
  split_ifs <;> refine ⟨?_, ?_, ?_⟩ <;> first | rfl | trivial

/-- The centroid installation stage only touches the centroid table. -/
theorem splitInstallCentroid_proj (P : Prims) (mm : Manager) (ntid : ℤ)
    (csum : Option (List ℚ)) (n : ℤ) :
    (splitInstallCentroid P mm ntid csum n).mem = mm.mem ∧
    (splitInstallCentroid P mm ntid csum n).split_counter = mm.split_counter := by
  unfold splitInstallCentroid
  rcases csum with _ | ⟨_ | ⟨q, qs⟩⟩ <;> constructor <;> rfl

/-- The split reassignment fold only changes the trace store. -/
theorem splitFold_proj (newTid : ℤ) (cs : List MemState) :
    ∀ (mm : Manager),
      ((cs.foldl (fun acc c => { acc with mem := alUpdate acc.mem c.memory_id (fun s => { s with territory_id := some newTid }) }) mm).mem =
        cs.foldl (fun acc c => alUpdate acc c.memory_id
          (fun s => { s with territory_id := some newTid })) mm.mem) ∧
      ((cs.foldl (fun acc c => { acc with mem := alUpdate acc.mem c.memory_id (fun s => { s with territory_id := some newTid }) }) mm).split_counter =
        mm.split_counter) := by
  induction cs with
  | nil => exact fun mm => ⟨rfl, rfl⟩
  | cons c rest ih =>
    intro mm
    rw [List.foldl_cons, List.foldl_cons]
    obtain ⟨i1, i2⟩ := ih { mm with mem := alUpdate mm.mem c.memory_id (fun s => { s with territory_id := some newTid }) }
    exact ⟨i1, i2⟩

/-- Restatement of the fold projections through `splitReassign`. -/
theorem splitReassign_proj (mm : Manager) (C : List MemState) (ntid : ℤ) :
    ((splitReassign mm C ntid).mem =
      C.foldl (fun acc c => alUpdate acc c.memory_id
        (fun s => { s with territory_id := some ntid })) mm.mem) ∧
    ((splitReassign mm C ntid).split_counter = mm.split_counter) :=
  splitFold_proj ntid C mm

/-! ## C7 -/

set_option maxRecDepth 8000 in
/-- C7 counterexample: a territory of six members with novelties
`[0.1, 0.1, 0.1, 0.9, 0.9, 0.9]` and zero boredom.  The claim's statistical
median is 0.5, its candidate set has the three high-novelty members and
satisfies `2 ≤ |C| < |M|`, so the claim demands a split; the code's median
is the upper element 0.9, its candidate set is empty, and no split happens
(the state is returned unchanged). -/
theorem c7_split_median_counterexample :
    (splitMembers mgrC7 777).length = 6 ∧
    medianQ ((splitMembers mgrC7 777).map MemState.novelty) = 1/2 ∧
    (claimSplitCandidates mgrC7 777).length = 3 ∧
    codeSplitMedian mgrC7 777 = 9/10 ∧
    (codeSplitCandidates mgrC7 777).length = 0 ∧
    maybeSplitTerritory P0 mgrC7 (c7Trace 0 (1/10)) = mgrC7 := by
  refine ⟨by with_unfolding_all rfl, by with_unfolding_all rfl, by with_unfolding_all rfl,
    by with_unfolding_all rfl, by with_unfolding_all rfl, by with_unfolding_all rfl⟩

/-- C7 amended: for a trace in territory `tid`, the split requires
`|M| ≥ 6` and `2 ≤ |C| < |M|` where `C` is the subset of `M` with novelty
strictly above the **upper median** (the element at index `|M| // 2` of the
sorted novelty list, not the averaging statistical median) and boredom
below 0.7; when it proceeds, exactly the members of `C` are reassigned to
the freshly allocated territory and the split counter increments. -/
theorem c7_split_amended (P : Prims) (m : Manager) (ms : MemState) (tid : ℤ)
    (htid : ms.territory_id = some tid) :
    ((splitMembers m tid).length < 6 → maybeSplitTerritory P m ms = m) ∧
    (6 ≤ (splitMembers m tid).length →
      ((codeSplitCandidates m tid).length < 2 ∨
        (codeSplitCandidates m tid).length = (splitMembers m tid).length) →
      maybeSplitTerritory P m ms = m) ∧
    (6 ≤ (splitMembers m tid).length →
      2 ≤ (codeSplitCandidates m tid).length →
      (codeSplitCandidates m tid).length < (splitMembers m tid).length →
      ((maybeSplitTerritory P m ms).split_counter = m.split_counter + 1 ∧
       ∀ id, alGet (maybeSplitTerritory P m ms).mem id =
         if id ∈ (codeSplitCandidates m tid).map MemState.memory_id then
           (alGet m.mem id).map (fun s => { s with territory_id := some m.next_territory_id })
         else alGet m.mem id)) := by
  refine ⟨?_, ?_, ?_⟩
  · intro h6
    simp only [maybeSplitTerritory, htid]
    rw [if_pos h6]
  · intro h6 hguard
    simp only [maybeSplitTerritory, htid]
    rw [if_neg (not_lt.mpr h6), if_pos hguard]
  · intro h6 h2 hlt
    simp only [maybeSplitTerritory, htid]
    rw [if_neg (not_lt.mpr h6), if_neg (by push_neg; exact ⟨h2, ne_of_lt hlt⟩)]
    obtain ⟨hc_mem, hc_split, hc_tid⟩ :=
      createTerritory_proj P m (splitSeedEmbedding m tid) ms.text
    obtain ⟨hr_mem, hr_split⟩ := splitReassign_proj
      (createTerritory P m (splitSeedEmbedding m tid) ms.text).1
      (codeSplitCandidates m tid)
      (createTerritory P m (splitSeedEmbedding m tid) ms.text).2
    obtain ⟨hi_mem, hi_split⟩ := splitInstallCentroid_proj P
      (splitReassign (createTerritory P m (splitSeedEmbedding m tid) ms.text).1
        (codeSplitCandidates m tid)
        (createTerritory P m (splitSeedEmbedding m tid) ms.text).2)
      (createTerritory P m (splitSeedEmbedding m tid) ms.text).2
      (splitCentroidSum (codeSplitCandidates m tid))
      ((codeSplitCandidates m tid).length : ℤ)
    constructor
    · show (splitInstallCentroid P
        (splitReassign (createTerritory P m (splitSeedEmbedding m tid) ms.text).1
          (codeSplitCandidates m tid)
          (createTerritory P m (splitSeedEmbedding m tid) ms.text).2)
        (createTerritory P m (splitSeedEmbedding m tid) ms.text).2
        (splitCentroidSum (codeSplitCandidates m tid))
        ((codeSplitCandidates m tid).length : ℤ)).split_counter + 1 = m.split_counter + 1
      rw [hi_split, hr_split, hc_split]
    · intro key
      show alGet (splitInstallCentroid P
        (splitReassign (createTerritory P m (splitSeedEmbedding m tid) ms.text).1
          (codeSplitCandidates m tid)
          (createTerritory P m (splitSeedEmbedding m tid) ms.text).2)
        (createTerritory P m (splitSeedEmbedding m tid) ms.text).2
        (splitCentroidSum (codeSplitCandidates m tid))
        ((codeSplitCandidates m tid).length : ℤ)).mem key = _
      rw [hi_mem, hr_mem, hc_mem]
      rw [alUpdate_foldl_get]
      simp only [hc_tid]

/-- C7 amended witness: on the evenly spread six-member territory the
guards and the characterisation are all instantiated. -/
theorem c7_split_amended_witness :
    ((c7Trace 0 (1/10)).territory_id = some 777) ∧
    (((splitMembers mgrC7w 777).length < 6 →
        maybeSplitTerritory P0 mgrC7w (c7Trace 0 (1/10)) = mgrC7w) ∧
     (6 ≤ (splitMembers mgrC7w 777).length →
       ((codeSplitCandidates mgrC7w 777).length < 2 ∨
         (codeSplitCandidates mgrC7w 777).length = (splitMembers mgrC7w 777).length) →
       maybeSplitTerritory P0 mgrC7w (c7Trace 0 (1/10)) = mgrC7w) ∧
     (6 ≤ (splitMembers mgrC7w 777).length →
       2 ≤ (codeSplitCandidates mgrC7w 777).length →
       (codeSplitCandidates mgrC7w 777).length < (splitMembers mgrC7w 777).length →
       ((maybeSplitTerritory P0 mgrC7w (c7Trace 0 (1/10))).split_counter =
          mgrC7w.split_counter + 1 ∧
        ∀ id, alGet (maybeSplitTerritory P0 mgrC7w (c7Trace 0 (1/10))).mem id =
          if id ∈ (codeSplitCandidates mgrC7w 777).map MemState.memory_id then
            (alGet mgrC7w.mem id).map
              (fun s => { s with territory_id := some mgrC7w.next_territory_id })
          else alGet mgrC7w.mem id))) :=
  ⟨by with_unfolding_all rfl,
   c7_split_amended P0 mgrC7w (c7Trace 0 (1/10)) 777 (by with_unfolding_all rfl)⟩

/-! ## C4 -/

/-- Row processing composes over list append, short-circuiting on the
first raised error. -/
theorem reinforceRows_append (P : Prims) (hg : ℚ) (tb : ℤ) :
    ∀ (pre rows2 : List (List String × List ℚ)) (m : Manager),
      reinforceRows P m (pre ++ rows2) hg tb =
        (match reinforceRows P m pre hg tb with
         | (m1, none) => reinforceRows P m1 rows2 hg tb
         | (m1, some e) => (m1, some e)) := by
  intro pre
  induction pre with
  | nil => intro rows2 m; rfl
  | cons row rest ih =>
    intro rows2 m
    obtain ⟨idsRow, distRow⟩ := row
    rw [List.cons_append]
    show reinforceRows P m ((idsRow, distRow) :: (rest ++ rows2)) hg tb = _
    rw [reinforceRows, reinforceRows]
    by_cases hlen : idsRow.length ≠ distRow.length
    · rw [if_pos hlen, if_pos hlen]
    · rw [if_neg hlen, if_neg hlen]
      by_cases hres : (resolveRow m idsRow distRow).isEmpty
      · rw [if_pos hres, if_pos hres]
        exact ih rows2 m
      · rw [if_neg hres, if_neg hres]
        cases hcore : reinforceRowCore P m (resolveRow m idsRow distRow) hg tb with
        | mk m1 err =>
          cases err with
          | none => exact ih rows2 _
          | some e => rfl

set_option maxRecDepth 8000 in
/-- C4 counterexample: with one stored trace "a", a reinforce call whose
second row is misaligned raises the named error but only after the first
row has mutated state — the reward EMA moves from 0 to 1/40 and a
`reinforce` event is logged. -/
theorem c4_reinforce_mutates_before_error :
    (reinforce P0 mgrA [["a"], ["x", "y"]] [[1/2], [1/10]] 1 10).2 =
      some "ids_row and dist_row must align" ∧
    mgrA.reward_ema = 0 ∧
    (reinforce P0 mgrA [["a"], ["x", "y"]] [[1/2], [1/10]] 1 10).1.reward_ema = 1/40 := by
  refine ⟨by with_unfolding_all rfl, by with_unfolding_all rfl, by with_unfolding_all rfl⟩

/-- C4 amended: a row-count mismatch fails the call with its named error
and mutates nothing; a per-row length mismatch fails the call with its
named error, does not advance the tick and runs no maintenance, but the
rows preceding the first offending row remain applied (so when the first
offending row is the first row, nothing is mutated). -/
theorem c4_reinforce_validation_amended (P : Prims) (m : Manager)
    (idsRows : List (List String)) (distRows : List (List ℚ)) (hg : ℚ) (tb : ℤ) :
    (idsRows.length ≠ distRows.length →
      reinforce P m idsRows distRows hg tb =
        (m, some "ids and distances rows must align")) ∧
    (∀ pre ids ds post,
      idsRows.length = distRows.length →
      idsRows.zip distRows = pre ++ (ids, ds) :: post →
      ids.length ≠ ds.length →
      (reinforceRows P m pre hg tb).2 = none →
      reinforce P m idsRows distRows hg tb =
        ((reinforceRows P m pre hg tb).1, some "ids_row and dist_row must align")) := by
  constructor
  · intro hne
    unfold reinforce
    rw [if_pos hne]
  · intro pre ids ds post hlen hzip hrow hpre
    unfold reinforce
    rw [if_neg (by omega), hzip, reinforceRows_append]
    cases hfold : reinforceRows P m pre hg tb with
    | mk m1 err =>
      cases err with
      | some e => rw [hfold] at hpre; exact absurd hpre (by simp)
      | none =>
        have hstep : reinforceRows P m1 ((ids, ds) :: post) hg tb =
            (m1, some "ids_row and dist_row must align") := by
          rw [reinforceRows, if_pos hrow]
        simp only []
        rw [hstep]

/-- C4 amended witness: the same concrete call instantiates the amended
characterisation with `pre` the first (valid) row. -/
theorem c4_reinforce_validation_amended_witness :
    (([["a"], ["x", "y"]] : List (List String)).length =
        ([[(1:ℚ)/2], [1/10]] : List (List ℚ)).length ∧
     ([["a"], ["x", "y"]] : List (List String)).zip [[(1:ℚ)/2], [1/10]] =
        [(["a"], [1/2])] ++ (["x", "y"], [(1:ℚ)/10]) :: [] ∧
     (["x", "y"] : List String).length ≠ ([(1:ℚ)/10]).length ∧
     (reinforceRows P0 mgrA [(["a"], [1/2])] 1 10).2 = none) ∧
    reinforce P0 mgrA [["a"], ["x", "y"]] [[1/2], [1/10]] 1 10 =
      ((reinforceRows P0 mgrA [(["a"], [1/2])] 1 10).1,
        some "ids_row and dist_row must align") :=
  ⟨⟨rfl, rfl, by decide, by with_unfolding_all rfl⟩,
   (c4_reinforce_validation_amended P0 mgrA [["a"], ["x", "y"]] [[1/2], [1/10]] 1 10).2
     [(["a"], [1/2])] ["x", "y"] [1/10] [] rfl rfl (by decide)
     (by with_unfolding_all rfl)⟩

/-! ## C9 -/

/-- C9 counterexample: loading a snapshot whose stored `territory_tau`
disagrees with the clamped median of its stored `nn_distances` yields a
manager with non-empty `nn_distances` whose τ is not the clamped median. -/
theorem c9_tau_counterexample :
    loadJson P0 (some inconsistentTauPayload) = Except.ok (some tauLoadedManager) ∧
    tauLoadedManager.nn_distances ≠ [] ∧
    tauLoadedManager.territory_tau ≠
      clampFloat (medianQ tauLoadedManager.nn_distances) (1/20) (3/5) := by
  refine ⟨by with_unfolding_all rfl, ?_, ?_⟩
  · with_unfolding_all decide
  · with_unfolding_all decide

/-- C9 amended: τ always lies in `[0.05, 0.6]` — at construction (where it
is 0.3 with an empty window), after every push into `nn_distances` (where
it moreover equals the clamped median of the window), and after loading any
snapshot (where it is the stored value clamped into the interval, which
coincides with the clamped median only when the snapshot is internally
consistent, as every `to_dict`-produced snapshot is). -/
theorem c9_tau_invariant_amended (P : Prims) (m m0 mL : Manager) (d : ℚ)
    (cfg : List (String × JValue)) (file : Option JValue)
    (hmk : mkManagerFromJ P cfg = Except.ok m0)
    (hload : loadJson P file = Except.ok (some mL)) :
    ((recordNnDistance m d).territory_tau =
        clampFloat (medianQ ((recordNnDistance m d).nn_distances)) (1/20) (3/5) ∧
      1/20 ≤ (recordNnDistance m d).territory_tau ∧
      (recordNnDistance m d).territory_tau ≤ 3/5) ∧
    (m0.territory_tau = 3/10 ∧ m0.nn_distances = [] ∧
      1/20 ≤ m0.territory_tau ∧ m0.territory_tau ≤ 3/5) ∧
    (1/20 ≤ mL.territory_tau ∧ mL.territory_tau ≤ 3/5) := by
  refine ⟨?_, ?_, ?_⟩
  · have hne : pushBounded 5000 m.nn_distances d ≠ [] :=
      pushBounded_ne_nil (by norm_num) _ _
    have hemp : (pushBounded 5000 m.nn_distances d).isEmpty = false := by
      cases hp : pushBounded 5000 m.nn_distances d with
      | nil => exact absurd hp hne
      | cons a l => rfl
    unfold recordNnDistance
    simp only [hemp, Bool.false_eq_true, if_false]
    exact ⟨trivial, clampFloat_bounds _ (by norm_num)⟩
  · obtain ⟨-, -, -, hnn, htau, -⟩ := mkManagerFromJ_ok_state hmk
    exact ⟨htau, hnn, by rw [htau]; norm_num, by rw [htau]; norm_num⟩
  · obtain ⟨m1, payload, -, hpop⟩ := loadJson_ok_some hload
    obtain ⟨q, hq⟩ := populateFromDict_ok_tau hpop
    rw [hq]
    exact clampFloat_bounds _ (by norm_num)

/-- C9 amended witness: concrete push, construction and load. -/
theorem c9_tau_invariant_amended_witness :
    (mkManagerFromJ P0 cfg0 = Except.ok mgr0 ∧
     loadJson P0 (some (JValue.jobj [])) = Except.ok (some mgr0)) ∧
    (((recordNnDistance mgr0 (7/10)).territory_tau =
        clampFloat (medianQ ((recordNnDistance mgr0 (7/10)).nn_distances)) (1/20) (3/5) ∧
      1/20 ≤ (recordNnDistance mgr0 (7/10)).territory_tau ∧
      (recordNnDistance mgr0 (7/10)).territory_tau ≤ 3/5) ∧
    (mgr0.territory_tau = 3/10 ∧ mgr0.nn_distances = [] ∧
      1/20 ≤ mgr0.territory_tau ∧ mgr0.territory_tau ≤ 3/5) ∧
    (1/20 ≤ mgr0.territory_tau ∧ mgr0.territory_tau ≤ 3/5)) :=
  ⟨⟨by with_unfolding_all rfl, by with_unfolding_all rfl⟩,
   c9_tau_invariant_amended P0 mgr0 mgr0 mgr0 (7/10) cfg0 (some (JValue.jobj []))
     (by with_unfolding_all rfl) (by with_unfolding_all rfl)⟩

/-! ### C2 — seed determinism -/

/-- C2: two managers constructed from the same configuration (hence with the
same seed) and driven with the identical sequence of public calls on the
same inputs produce identical snapshots (`to_dict` outputs).  Every state
transition of the embedding is a function of the prior state and the call
arguments — the only randomness is the seeded generator carried in the
state — so equal constructions stay equal under equal call sequences. -/
theorem c2_seed_determinism (P : Prims) (cfg : List (String × JValue))
    (ops : List Op) (m1 m2 : Manager)
    (h1 : mkManagerFromJ P cfg = Except.ok m1)
    (h2 : mkManagerFromJ P cfg = Except.ok m2) :
    managerToDict (runOps P m1 ops) = managerToDict (runOps P m2 ops) := by
  rw [h1] at h2
  injection h2 with h
  rw [h]

/-- C2 witness: the default construction driven through a register and a
degrade call. -/
theorem c2_seed_determinism_witness :
    mkManagerFromJ P0 cfg0 = Except.ok mgr0 ∧
    managerToDict (runOps P0 mgr0
      [Op.register ["a"] ["hi"] none none, Op.degradeOp ["a"] 1]) =
    managerToDict (runOps P0 mgr0
      [Op.register ["a"] ["hi"] none none, Op.degradeOp ["a"] 1]) :=
  ⟨by with_unfolding_all rfl,
   c2_seed_determinism P0 cfg0
     [Op.register ["a"] ["hi"] none none, Op.degradeOp ["a"] 1]
     mgr0 mgr0 (by with_unfolding_all rfl) (by with_unfolding_all rfl)⟩

/-! ### C5 — list-level bookkeeping lemmas -/

theorem alContains_iff [DecidableEq κ] {l : List (κ × α)} {k : κ} :
    alContains l k = true ↔ k ∈ l.map Prod.fst := by
  induction l with
  | nil => simp [alContains, alGet]
  | cons p rest ih =>
    unfold alContains at ih ⊢
    rw [alGet_cons]
    by_cases hp : p.1 = k
    · simp [hp]
    · rw [if_neg hp]
      simp only [List.map_cons, List.mem_cons]
      constructor
      · intro h
        exact Or.inr (ih.mp h)
      · intro h
        rcases h with h | h
        · exact absurd h.symm hp
        · exact ih.mpr h

theorem alGet_eq_none_iff [DecidableEq κ] {l : List (κ × α)} {k : κ} :
    alGet l k = none ↔ k ∉ l.map Prod.fst := by
  constructor
  · intro h hk
    have := alContains_iff.mpr hk
    rw [alContains, h] at this
    simp at this
  · intro hk
    cases hget : alGet l k with
    | none => rfl
    | some v =>
      have : alContains l k = true := by rw [alContains, hget]; rfl
      exact absurd (alContains_iff.mp this) hk

theorem alSet_keys_of_get [DecidableEq κ] {l : List (κ × α)} {k : κ} {w : α}
    (hget : alGet l k = some w) (v : α) :
    (alSet l k v).map Prod.fst = l.map Prod.fst := by
  induction l with
  | nil => simp [alGet] at hget
  | cons p rest ih =>
    rw [alGet_cons] at hget
    unfold alSet
    by_cases hp : p.1 = k
    · rw [if_pos hp]
      simp [hp]
    · rw [if_neg hp]
      rw [if_neg hp] at hget
      simp [ih hget]

theorem alSet_of_not_mem [DecidableEq κ] {l : List (κ × α)} {k : κ}
    (hk : k ∉ l.map Prod.fst) (v : α) : alSet l k v = l ++ [(k, v)] := by
  induction l with
  | nil => rfl
  | cons p rest ih =>
    simp only [List.map_cons, List.mem_cons, not_or] at hk
    unfold alSet
    rw [if_neg (fun h => hk.1 h.symm)]
    rw [ih hk.2]
    rfl

/-- Membership in an overwritten dict, under unique keys. -/
theorem mem_alSet_iff [DecidableEq κ] {l : List (κ × α)} {k : κ} {v : α}
    (hnd : (l.map Prod.fst).Nodup) (p : κ × α) :
    p ∈ alSet l k v ↔ p = (k, v) ∨ (p ∈ l ∧ p.1 ≠ k) := by
  induction l with
  | nil =>
    simp [alSet]
  | cons q rest ih =>
    simp only [List.map_cons, List.nodup_cons] at hnd
    unfold alSet
    by_cases hq : q.1 = k
    · rw [if_pos hq]
      simp only [List.mem_cons]
      constructor
      · intro h
        rcases h with h | h
        · exact Or.inl h
        · refine Or.inr ⟨Or.inr h, ?_⟩
          intro hp
          exact hnd.1 (hq ▸ hp ▸ List.mem_map_of_mem Prod.fst h)
      · intro h
        rcases h with h | ⟨hmem, hne⟩
        · exact Or.inl h
        · rcases hmem with h | h
          · exact absurd (h ▸ hq) hne
          · exact Or.inr h
    · rw [if_neg hq]
      simp only [List.mem_cons, ih hnd.2]
      constructor
      · intro h
        rcases h with h | h | h
        · refine Or.inr ⟨Or.inl h, ?_⟩
          intro hp
          exact hq (h ▸ hp)
        · exact Or.inl h
        · exact Or.inr ⟨Or.inr h.1, h.2⟩
      · intro h
        rcases h with h | ⟨hmem, hne⟩
        · exact Or.inr (Or.inl h)
        · rcases hmem with h | h
          · exact Or.inl h
          · exact Or.inr (Or.inr ⟨h, hne⟩)

/-- Overwriting a present key with a value of equal view preserves the map
view. -/
theorem alSet_map_msView {l : List (String × MemState)} {k : String}
    {ms ms' : MemState} (hget : alGet l k = some ms)
    (hid : ms'.memory_id = ms.memory_id)
    (hfl : ms'.pending_condense = ms.pending_condense) :
    (alSet l k ms').map msView = l.map msView := by
  induction l with
  | nil => simp [alGet] at hget
  | cons p rest ih =>
    rw [alGet_cons] at hget
    unfold alSet
    by_cases hp : p.1 = k
    · rw [if_pos hp]
      rw [if_pos hp] at hget
      injection hget with hget
      simp [msView, hp, hid, hfl, hget]
    · rw [if_neg hp]
      rw [if_neg hp] at hget
      simp [msView, ih hget]

/-- In-place updates that keep the id and flag preserve the map view. -/
theorem alUpdate_map_msView (l : List (String × MemState)) (k : String)
    (f : MemState → MemState)
    (hf : ∀ s, (f s).memory_id = s.memory_id ∧
      (f s).pending_condense = s.pending_condense) :
    (alUpdate l k f).map msView = l.map msView := by
  induction l with
  | nil => rfl
  | cons p rest ih =>
    unfold alUpdate
    by_cases hp : p.1 = k
    · rw [if_pos hp]
      simp [msView, (hf p.2).1, (hf p.2).2]
    · rw [if_neg hp]
      simp [ih]

/-- A fold whose steps preserve the condensation view preserves it. -/
theorem condenseView_foldl {β : Type} (step : Manager → β → Manager)
    (hstep : ∀ acc x, condenseView (step acc x) = condenseView acc) :
    ∀ (l : List β) (m : Manager), condenseView (l.foldl step m) = condenseView m := by
  intro l
  induction l with
  | nil => intro m; rfl
  | cons x xs ih =>
    intro m
    rw [List.foldl_cons, ih, hstep]

/-- A fold whose steps preserve a predicate preserves it. -/
theorem foldl_preserves {β : Type} (Pr : Manager → Prop)
    (step : Manager → β → Manager)
    (hstep : ∀ acc x, Pr acc → Pr (step acc x)) :
    ∀ (l : List β) (m : Manager), Pr m → Pr (l.foldl step m) := by
  intro l
  induction l with
  | nil => intro m h; exact h
  | cons x xs ih =>
    intro m h
    exact ih _ (hstep _ _ h)

/-- Entries of equal-view states are in view bijection. -/
theorem view_transfer {a b : Manager} (hv : condenseView b = condenseView a) :
    (b.mem.map Prod.fst = a.mem.map Prod.fst) ∧
    b.pending_condense = a.pending_condense ∧
    (∀ p ∈ b.mem, ∃ p' ∈ a.mem, p'.1 = p.1 ∧
      p'.2.memory_id = p.2.memory_id ∧
      p'.2.pending_condense = p.2.pending_condense) := by
  have hmem : b.mem.map msView = a.mem.map msView := congrArg Prod.fst hv
  have hqq : b.pending_condense = a.pending_condense := congrArg Prod.snd hv
  refine ⟨?_, hqq, ?_⟩
  · have h1 : (b.mem.map msView).map Prod.fst = (a.mem.map msView).map Prod.fst :=
      congrArg (List.map Prod.fst) hmem
    simpa [List.map_map, msView, Function.comp] using h1
  · intro p hp
    have : msView p ∈ a.mem.map msView := hmem ▸ List.mem_map_of_mem msView hp
    obtain ⟨p', hp', hvp⟩ := List.mem_map.mp this
    unfold msView at hvp
    injection hvp with h1 h23
    injection h23 with h2 h3
    exact ⟨p', hp', h1, h2, h3⟩

/-- The strengthened condensation invariant only depends on the view. -/
theorem condenseStrong_of_view {a b : Manager}
    (hv : condenseView b = condenseView a) (h : condenseStrong a) :
    condenseStrong b := by
  obtain ⟨hinv, hq, hnd, hid⟩ := h
  obtain ⟨hkeys, hqq, hview⟩ := view_transfer hv
  refine ⟨?_, ?_, ?_, ?_⟩
  · intro p hp
    obtain ⟨p', hp', h1, h2, h3⟩ := hview p hp
    rw [hqq, ← h1, ← h3]
    exact hinv p' hp'
  · intro mid hmid
    rw [hqq] at hmid
    rw [alContains_iff, hkeys]
    exact alContains_iff.mp (hq mid hmid)
  · rw [hkeys]; exact hnd
  · intro p hp
    obtain ⟨p', hp', h1, h2, h3⟩ := hview p hp
    rw [← h1, ← h2]
    exact hid p' hp'

/-- The flushed state only depends on the view. -/
theorem condenseClear_of_view {a b : Manager}
    (hv : condenseView b = condenseView a) (h : condenseClear a) :
    condenseClear b := by
  obtain ⟨hq, hfl, hnd, hid⟩ := h
  obtain ⟨hkeys, hqq, hview⟩ := view_transfer hv
  refine ⟨hqq.trans hq, ?_, ?_, ?_⟩
  · intro p hp
    obtain ⟨p', hp', h1, h2, h3⟩ := hview p hp
    rw [← h3]
    exact hfl p' hp'
  · rw [hkeys]; exact hnd
  · intro p hp
    obtain ⟨p', hp', h1, h2, h3⟩ := hview p hp
    rw [← h1, ← h2]
    exact hid p' hp'

/-- A flushed state satisfies the strengthened invariant. -/
theorem condenseClear.toStrong {m : Manager} (h : condenseClear m) :
    condenseStrong m := by
  obtain ⟨hq, hfl, hnd, hid⟩ := h
  refine ⟨?_, ?_, hnd, hid⟩
  · intro p hp
    rw [hfl p hp, hq]
    simp
  · intro mid hmid
    rw [hq] at hmid
    simp at hmid

/-! ### C5 — view preservation of the territory engine -/

theorem condenseView_recordEvent (m : Manager) (t : String)
    (pl : List (String × JValue)) :
    condenseView (recordEvent m t pl) = condenseView m := rfl

theorem condenseView_recordNnDistance (m : Manager) (d : ℚ) :
    condenseView (recordNnDistance m d) = condenseView m := rfl

theorem map_msView_congr {g : String × MemState → String × MemState}
    (hg : ∀ p, msView (g p) = msView p) :
    ∀ (l : List (String × MemState)), (l.map g).map msView = l.map msView := by
  intro l
  induction l with
  | nil => rfl
  | cons p rest ih => simp only [List.map_cons, ih, hg p]

theorem condenseView_createTerritory (P : Prims) (m : Manager) (e : List ℚ)
    (t : String) :
    condenseView (createTerritory P m e t).1 = condenseView m := by
  simp only [createTerritory, recordEvent]
  split <;> rfl

theorem condenseView_deterministicTerritory (P : Prims) (m : Manager) (t : String) :
    condenseView (deterministicTerritory P m t).1 = condenseView m := by
  simp only [deterministicTerritory, recordEvent]
  split <;> rfl

theorem condenseView_updateCentroid (P : Prims) (m : Manager) (tid : ℤ)
    (e : List ℚ) :
    condenseView (updateCentroid P m tid e) = condenseView m := by
  unfold updateCentroid
  split <;> rfl

theorem condenseView_assignTerritory (P : Prims) (m : Manager) (text : String)
    (embedding : Option (List ℚ)) :
    condenseView (assignTerritory P m text embedding).1 = condenseView m := by
  unfold assignTerritory
  cases embedding with
  | none =>
    cases hd : deterministicTerritory P m text with
    | mk m' tid =>
      have h := condenseView_deterministicTerritory P m text
      rw [hd] at h
      exact h
  | some emb =>
    simp only []
    split
    · cases hc : createTerritory P m (normalizeEmbedding P emb) text with
      | mk m' tid =>
        have h := condenseView_createTerritory P m (normalizeEmbedding P emb) text
        rw [hc] at h
        exact h
    · split
      · rfl
      · cases hc : createTerritory P m (normalizeEmbedding P emb) text with
        | mk m' tid =>
          have h := condenseView_createTerritory P m (normalizeEmbedding P emb) text
          rw [hc] at h
          exact h
      · next bestTid bestDistance heq =>
        split
        · exact (condenseView_updateCentroid P _ bestTid _).trans
            (condenseView_recordNnDistance m bestDistance)
        · cases hc : createTerritory P (recordNnDistance m bestDistance)
            (normalizeEmbedding P emb) text with
          | mk m' tid =>
            have h := condenseView_createTerritory P (recordNnDistance m bestDistance)
              (normalizeEmbedding P emb) text
            rw [hc] at h
            exact h.trans (condenseView_recordNnDistance m bestDistance)

theorem condenseView_mergeTerritories (P : Prims) (m : Manager) (a b : ℤ) :
    condenseView (mergeTerritories P m a b) = condenseView m := by
  unfold mergeTerritories recordEvent
  simp only []
  split
  · rfl
  · split
    · split
      · rfl
      · show ((m.mem.map _).map msView, m.pending_condense) = (m.mem.map msView, m.pending_condense)
        rw [map_msView_congr]
        intro p
        unfold msView
        split <;> rfl
    · rfl

theorem condenseView_diffusePairs (P : Prims) :
    ∀ (pairs : List (ℤ × ℤ)) (m : Manager),
      condenseView (diffusePairs P m pairs).1 = condenseView m := by
  intro pairs
  induction pairs with
  | nil => intro m; rfl
  | cons pr rest ih =>
    intro m
    obtain ⟨a, b⟩ := pr
    unfold diffusePairs
    split
    · exact ih m
    · split
      · simp only []
        split
        · rfl
        · split
          · split
            · exact ih m
            · cases hr : P.rngRandom m.rng with
              | mk draw rng' =>
                split
                · exact ih _
                · split
                  · exact condenseView_mergeTerritories P _ a b
                  · exact condenseView_mergeTerritories P _ b a
          · exact ih m
      · exact ih m

theorem condenseView_maybeDiffuse (P : Prims) (m : Manager) :
    condenseView (maybeDiffuse P m).1 = condenseView m := by
  unfold maybeDiffuse
  split
  · rfl
  · split
    · rfl
    · exact condenseView_diffusePairs P _ m

theorem condenseView_recordMemberDistance (m : Manager) (ms : MemState) (sim : ℚ) :
    condenseView (recordMemberDistance m ms sim).1 = condenseView m := by
  unfold recordMemberDistance
  split
  · split
    · rfl
    · simp only []
      split
      · rfl
      · rfl
  · rfl

theorem condenseView_updatePairMetrics (m : Manager) (states : List MemState) :
    condenseView (updatePairMetrics m states) = condenseView m := by
  unfold updatePairMetrics
  simp only []
  refine condenseView_foldl _ ?_ _ m
  intro acc p
  rfl

theorem condenseView_splitReassign (mm : Manager) (C : List MemState) (ntid : ℤ) :
    condenseView (splitReassign mm C ntid) = condenseView mm := by
  unfold splitReassign
  refine condenseView_foldl _ ?_ C mm
  intro acc c
  have h := alUpdate_map_msView acc.mem c.memory_id
    (fun s => { s with territory_id := some ntid }) (fun s => ⟨rfl, rfl⟩)
  show ((alUpdate acc.mem c.memory_id
    (fun s => { s with territory_id := some ntid })).map msView,
    acc.pending_condense) = (acc.mem.map msView, acc.pending_condense)
  rw [h]

theorem condenseView_splitInstallCentroid (P : Prims) (mm : Manager) (ntid : ℤ)
    (csum : Option (List ℚ)) (newCount : ℤ) :
    condenseView (splitInstallCentroid P mm ntid csum newCount) = condenseView mm := by
  unfold splitInstallCentroid
  split <;> rfl

theorem condenseView_maybeSplitTerritory (P : Prims) (m : Manager) (ms : MemState) :
    condenseView (maybeSplitTerritory P m ms) = condenseView m := by
  unfold maybeSplitTerritory
  cases hti : ms.territory_id with
  | none => rfl
  | some tid =>
    simp only []
    split
    · rfl
    · split
      · rfl
      · cases hc : createTerritory P m (splitSeedEmbedding m tid) ms.text with
        | mk mc ntid =>
          have h0 := condenseView_createTerritory P m (splitSeedEmbedding m tid) ms.text
          rw [hc] at h0
          simp only []
          rw [condenseView_recordEvent]
          refine Eq.trans ?_ h0
          refine Eq.trans (b := condenseView (splitInstallCentroid P
            (splitReassign mc (codeSplitCandidates m tid) ntid) ntid
            (splitCentroidSum (codeSplitCandidates m tid))
            ((codeSplitCandidates m tid).length : ℤ))) rfl ?_
          rw [condenseView_splitInstallCentroid, condenseView_splitReassign]

/-! ### C5 — view preservation of the manager operations -/

theorem condenseView_applyReinforcement (m : Manager) (memory_id : String)
    (sim heatGain : ℚ) (ttlBoost : ℤ) :
    condenseView (applyReinforcement m memory_id sim heatGain ttlBoost).1 =
      condenseView m := by
  unfold applyReinforcement
  cases hget : alGet m.mem memory_id with
  | none => rfl
  | some ms =>
    dsimp only
    rw [condenseView_recordMemberDistance]
    exact congrArg (fun l => (l, m.pending_condense)) (alSet_map_msView hget rfl rfl)

theorem condenseView_registerEngram (m : Manager) (sid : String)
    (mids : List String) (t : String) :
    condenseView (registerEngram m sid mids t).1 = condenseView m := by
  simp only [registerEngram, recordEvent]
  split
  · rfl
  · refine Eq.trans (condenseView_foldl _ ?_ _ _) rfl
    intro acc key
    have h := alUpdate_map_msView acc.mem key
      (fun ms => MemState.clampRanges { ms with
        boredom := min 1 (ms.boredom + 1/20)
        inhibition := min 1 (ms.inhibition + 1/20) }) (fun s => ⟨rfl, rfl⟩)
    show ((alUpdate acc.mem key _).map msView, acc.pending_condense) =
      (acc.mem.map msView, acc.pending_condense)
    rw [h]

theorem condenseView_degradeFold (floor : ℤ) :
    ∀ (ids : List String) (acc : Manager × ℤ),
      condenseView (ids.foldl (degradeStep floor) acc).1 = condenseView acc.1 := by
  intro ids
  induction ids with
  | nil => intro acc; rfl
  | cons key rest ih =>
    intro acc
    rw [List.foldl_cons, ih]
    unfold degradeStep
    cases hget : alGet acc.1.mem key with
    | none => rfl
    | some ms =>
      dsimp only
      exact congrArg (fun l => (l, acc.1.pending_condense))
        (alSet_map_msView hget rfl rfl)

theorem condenseView_degrade (m : Manager) (ids : List String) (floor : ℤ) :
    condenseView (degrade m ids floor).1 = condenseView m := by
  unfold degrade
  split
  · rfl
  · next fl hreq =>
    dsimp only
    split
    · exact condenseView_degradeFold fl ids (m, 0)
    · exact condenseView_degradeFold fl ids (m, 0)

theorem condenseView_frontierBlock (P : Prims) {m : Manager} {memory_id : String}
    {ms : MemState} (hget : alGet m.mem memory_id = some ms) :
    condenseView (frontierBlock P m memory_id ms) = condenseView m := by
  unfold frontierBlock
  split
  · dsimp only
    split
    · refine Eq.trans ?_ (Eq.trans (condenseView_maybeSplitTerritory P
        { m with
          mem := alSet m.mem memory_id { ms with frontier_hits := ms.frontier_hits + 1 }
          frontier := alSet m.frontier ms.memory_id (JValue.jobj
            [ ("territory", jOptInt ms.territory_id)
            , ("hits", JValue.jint (ms.frontier_hits + 1))
            , ("novelty", JValue.jnum ms.novelty) ]) }
        { ms with frontier_hits := ms.frontier_hits + 1 }) ?_)
      · have h := alUpdate_map_msView
          (maybeSplitTerritory P
            { m with
              mem := alSet m.mem memory_id { ms with frontier_hits := ms.frontier_hits + 1 }
              frontier := alSet m.frontier ms.memory_id (JValue.jobj
                [ ("territory", jOptInt ms.territory_id)
                , ("hits", JValue.jint (ms.frontier_hits + 1))
                , ("novelty", JValue.jnum ms.novelty) ]) }
            { ms with frontier_hits := ms.frontier_hits + 1 }).mem
          memory_id (fun s => { s with frontier_hits := 0 }) (fun s => ⟨rfl, rfl⟩)
        exact Prod.ext h rfl
      · exact Prod.ext (alSet_map_msView hget rfl rfl) rfl
    · exact Prod.ext (alSet_map_msView hget rfl rfl) rfl
  · have h := alUpdate_map_msView m.mem memory_id
      (fun s => { s with frontier_hits := 0 }) (fun s => ⟨rfl, rfl⟩)
    exact Prod.ext h rfl

/-! ### C5 — the queue/flag invariant across the operations -/

/-- Queueing a saturated stored trace preserves the strengthened
invariant. -/
theorem condenseStrong_enqueue {m : Manager} {key : String} {current : MemState}
    (hget : alGet m.mem key = some current) (h : condenseStrong m)
    (_hnq : current.memory_id ∉ m.pending_condense) :
    condenseStrong { m with
      pending_condense := m.pending_condense ++ [current.memory_id]
      mem := alSet m.mem key { current with pending_condense := true } } := by
  obtain ⟨hinv, hq, hnd, hid⟩ := h
  have hcur : current.memory_id = key := hid (key, current) (alGet_some_mem hget)
  have hkeys : (alSet m.mem key { current with pending_condense := true }).map Prod.fst
      = m.mem.map Prod.fst := alSet_keys_of_get hget _
  refine ⟨?_, ?_, ?_, ?_⟩
  · show ∀ p ∈ alSet m.mem key { current with pending_condense := true },
      (p.2.pending_condense = true ↔ p.1 ∈ m.pending_condense ++ [current.memory_id])
    intro p hp
    rw [mem_alSet_iff hnd] at hp
    rcases hp with hp | ⟨hp, hne⟩
    · subst hp
      constructor
      · intro _
        exact List.mem_append_right _ (List.mem_singleton.mpr hcur.symm)
      · intro _
        rfl
    · rw [List.mem_append, List.mem_singleton]
      constructor
      · intro hf
        exact Or.inl ((hinv p hp).mp hf)
      · intro hf
        rcases hf with hf | hf
        · exact (hinv p hp).mpr hf
        · exact absurd (hf.trans hcur) hne
  · show ∀ mid ∈ m.pending_condense ++ [current.memory_id],
      alContains (alSet m.mem key { current with pending_condense := true }) mid = true
    intro mid hmid
    rw [alContains_iff, hkeys]
    rw [List.mem_append, List.mem_singleton] at hmid
    rcases hmid with hmid | hmid
    · exact alContains_iff.mp (hq mid hmid)
    · subst hmid
      rw [hcur]
      refine alContains_iff.mp ?_
      rw [alContains, hget]
      rfl
  · show ((alSet m.mem key { current with pending_condense := true }).map Prod.fst).Nodup
    rw [hkeys]
    exact hnd
  · show ∀ p ∈ alSet m.mem key { current with pending_condense := true },
      p.2.memory_id = p.1
    intro p hp
    rw [mem_alSet_iff hnd] at hp
    rcases hp with hp | ⟨hp, _⟩
    · subst hp
      exact hcur
    · exact hid p hp

/-- The condensation check preserves the strengthened invariant. -/
theorem condenseStrong_condenseBlock {m : Manager} (memory_id : String)
    (h : condenseStrong m) : condenseStrong (condenseBlock m memory_id) := by
  unfold condenseBlock
  cases hget : alGet m.mem memory_id with
  | none => exact h
  | some current =>
    dsimp only
    split
    · split
      · exact h
      · next hnq => exact condenseStrong_enqueue hget h hnq
    · exact h

/-- Folding the flush step over a list covering every flagged trace leaves
no flag set and keeps keys, id-fields and the queue. -/
theorem flushFold_clear :
    ∀ (q : List String) (acc : List (String × String) × Manager),
      ((acc.2.mem.map Prod.fst).Nodup) →
      (∀ p ∈ acc.2.mem, p.2.memory_id = p.1) →
      (∀ p ∈ acc.2.mem, p.2.pending_condense = true → p.1 ∈ q) →
      (∀ p ∈ (q.foldl flushStep acc).2.mem, p.2.pending_condense = false) ∧
      (((q.foldl flushStep acc).2.mem.map Prod.fst).Nodup) ∧
      (∀ p ∈ (q.foldl flushStep acc).2.mem, p.2.memory_id = p.1) ∧
      (q.foldl flushStep acc).2.pending_condense = acc.2.pending_condense := by
  intro q
  induction q with
  | nil =>
    intro acc hnd hid hfl
    refine ⟨?_, hnd, hid, rfl⟩
    intro p hp
    cases hb : p.2.pending_condense with
    | false => rfl
    | true => exact absurd (hfl p hp hb) (List.not_mem_nil _)
  | cons key rest ih =>
    intro acc hnd hid hfl
    rw [List.foldl_cons]
    cases hget : alGet acc.2.mem key with
    | none =>
      have hstep : flushStep acc key = acc := by
        unfold flushStep
        rw [hget]
      rw [hstep]
      refine ih acc hnd hid ?_
      intro p hp hb
      rcases List.mem_cons.mp (hfl p hp hb) with h | h
      · exfalso
        rw [alGet_eq_none_iff] at hget
        exact hget (h ▸ List.mem_map_of_mem Prod.fst hp)
      · exact h
    | some ms =>
      have hstep : flushStep acc key =
          (acc.1 ++ [(key, ms.text)],
           { acc.2 with
             mem := alSet acc.2.mem key { ms with pending_condense := false } }) := by
        unfold flushStep
        rw [hget]
      rw [hstep]
      refine ih _ ?_ ?_ ?_
      · show ((alSet acc.2.mem key { ms with pending_condense := false }).map
          Prod.fst).Nodup
        rw [alSet_keys_of_get hget]
        exact hnd
      · show ∀ p ∈ alSet acc.2.mem key { ms with pending_condense := false },
          p.2.memory_id = p.1
        intro p hp
        rw [mem_alSet_iff hnd] at hp
        rcases hp with hp | ⟨hp, _⟩
        · subst hp
          exact hid (key, ms) (alGet_some_mem hget)
        · exact hid p hp
      · show ∀ p ∈ alSet acc.2.mem key { ms with pending_condense := false },
          p.2.pending_condense = true → p.1 ∈ rest
        intro p hp hb
        rw [mem_alSet_iff hnd] at hp
        rcases hp with hp | ⟨hp, hne⟩
        · subst hp
          simp at hb
        · rcases List.mem_cons.mp (hfl p hp hb) with h | h
          · exact absurd h hne
          · exact h

/-- Flushing a state satisfying the strengthened invariant yields the
flushed state: empty queue, no flagged trace. -/
theorem condenseClear_flushCondensation {m : Manager} (h : condenseStrong m) :
    condenseClear (flushCondensation m).2 := by
  obtain ⟨hinv, hq, hnd, hid⟩ := h
  unfold flushCondensation
  split
  · next hemp =>
    have hqe : m.pending_condense = [] := List.isEmpty_iff.mp hemp
    refine ⟨hqe, ?_, hnd, hid⟩
    intro p hp
    have hiff := hinv p hp
    rw [hqe] at hiff
    cases hb : p.2.pending_condense with
    | false => rfl
    | true => simpa using hiff.mp hb
  · dsimp only
    have hpre : ∀ p ∈ m.mem, p.2.pending_condense = true → p.1 ∈ m.pending_condense :=
      fun p hp hb => (hinv p hp).mp hb
    obtain ⟨hfl, hnd2, hid2, hqq⟩ :=
      flushFold_clear m.pending_condense ([], m) hnd hid hpre
    exact ⟨rfl, hfl, hnd2, hid2⟩

/-- Evicting a trace preserves the flushed state. -/
theorem condenseClear_removeMemory {m : Manager} (h : condenseClear m)
    (key : String) : condenseClear (removeMemory m key) := by
  obtain ⟨hqe, hfl, hnd, hid⟩ := h
  unfold removeMemory
  cases hget : alGet m.mem key with
  | none => exact ⟨hqe, hfl, hnd, hid⟩
  | some ms =>
    dsimp only
    have hsub : ∀ p ∈ alPop m.mem key, p ∈ m.mem := by
      intro p hp
      exact List.mem_of_mem_filter hp
    have hndp : ((alPop m.mem key).map Prod.fst).Nodup := by
      have hs : (alPop m.mem key).Sublist m.mem := List.filter_sublist m.mem
      exact List.Nodup.sublist (hs.map Prod.fst) hnd
    cases ms.territory_id with
    | none =>
      exact ⟨hqe, fun p hp => hfl p (hsub p hp), hndp, fun p hp => hid p (hsub p hp)⟩
    | some tid =>
      dsimp only
      split <;>
        exact ⟨hqe, fun p hp => hfl p (hsub p hp), hndp, fun p hp => hid p (hsub p hp)⟩

/-- The decay pass preserves the flushed state. -/
theorem condenseClear_decayPass (P : Prims) {m : Manager} (h : condenseClear m) :
    condenseClear (decayPass P m) := by
  obtain ⟨hqe, hfl, hnd, hid⟩ := h
  unfold decayPass
  dsimp only
  refine foldl_preserves condenseClear removeMemory
    (fun acc x hacc => condenseClear_removeMemory hacc x) _ _ ?_
  refine ⟨hqe, ?_, ?_, ?_⟩
  · intro p hp
    obtain ⟨p', hp', hpe⟩ := List.mem_map.mp hp
    subst hpe
    exact hfl p' hp'
  · show ((m.mem.map _).map Prod.fst).Nodup
    rw [List.map_map]
    exact hnd
  · intro p hp
    obtain ⟨p', hp', hpe⟩ := List.mem_map.mp hp
    subst hpe
    exact hid p' hp'

/-- The prune pass preserves the flushed state. -/
theorem condenseClear_pruneIfNeeded (P : Prims) {m : Manager} (h : condenseClear m) :
    condenseClear (pruneIfNeeded P m) := by
  unfold pruneIfNeeded
  split
  · exact h
  · dsimp only
    have hdrawn : condenseClear (pruneDrawn P m) := h
    exact foldl_preserves condenseClear removeMemory
      (fun acc x hacc => condenseClear_removeMemory hacc x) _ _ hdrawn

/-- The maintenance cadence preserves the flushed state (evictions remove
unflagged traces; diffusion only merges territories). -/
theorem condenseClear_afterOperation (P : Prims) {m : Manager} (h : condenseClear m) :
    condenseClear (afterOperation P m).1 := by
  unfold afterOperation
  dsimp only
  have h1 : condenseClear { m with tick := m.tick + 1 } := h
  have h2 := condenseClear_decayPass P h1
  have h3 := condenseClear_pruneIfNeeded P h2
  have h4 := condenseClear_of_view (condenseView_maybeDiffuse P _) h3
  cases hd : maybeDiffuse P (pruneIfNeeded P (decayPass P { m with tick := m.tick + 1 })) with
  | mk md me =>
    rw [hd] at h4
    cases me with
    | some e => exact h4
    | none => exact h4

/-- Registering a fresh id preserves the strengthened invariant: the new
trace is stored unflagged and, by the queue-membership component, its id
cannot already sit in the queue. -/
theorem condenseStrong_registerMemory (P : Prims) {m : Manager} (key text : String)
    (embedding : Option (List ℚ)) (meta : JValue) (h : condenseStrong m)
    (hnew : alContains m.mem key = false) :
    condenseStrong (registerMemory P m key text embedding meta).1 := by
  unfold registerMemory
  cases ha : assignTerritory P m text embedding with
  | mk m1 res =>
    have hview := condenseView_assignTerritory P m text embedding
    rw [ha] at hview
    have h1 : condenseStrong m1 := condenseStrong_of_view hview h
    cases res with
    | error e => exact h1
    | ok tid =>
      dsimp only
      obtain ⟨hkeys1, hq1, -⟩ := view_transfer hview
      obtain ⟨hinv, hq, hnd, hid⟩ := h1
      have hnotmem : key ∉ m1.mem.map Prod.fst := by
        rw [hkeys1]
        intro hk
        have hc := alContains_iff.mpr hk
        rw [hnew] at hc
        cases hc
      have h2 : condenseStrong { m1 with
          mem := alSet m1.mem key (MemState.clampRanges
            { memory_id := key
              text := text
              embedding := embedding
              metadata := meta
              territory_id := some tid
              ttl := m1.base_ttl
              last_touch_tick := m1.tick
              confidence := 7/20
              novelty := estimateNovelty text
              boredom := 0
              mass := 1
              heat := 0 })
          territory_counts := alSet m1.territory_counts tid
            (((alGet m1.territory_counts tid).getD 0) + 1) } := by
        have hset := alSet_of_not_mem hnotmem (MemState.clampRanges
            { memory_id := key
              text := text
              embedding := embedding
              metadata := meta
              territory_id := some tid
              ttl := m1.base_ttl
              last_touch_tick := m1.tick
              confidence := 7/20
              novelty := estimateNovelty text
              boredom := 0
              mass := 1
              heat := 0 })
        refine ⟨?_, ?_, ?_, ?_⟩
        · show ∀ p ∈ alSet m1.mem key _,
            (p.2.pending_condense = true ↔ p.1 ∈ m1.pending_condense)
          rw [hset]
          intro p hp
          rcases List.mem_append.mp hp with hp | hp
          · exact hinv p hp
          · rw [List.mem_singleton] at hp
            subst hp
            constructor
            · intro hb
              cases hb
            · intro hin
              exfalso
              have hc := hq key hin
              rw [alContains_iff] at hc
              exact hnotmem hc
        · show ∀ mid ∈ m1.pending_condense, alContains (alSet m1.mem key _) mid = true
          intro mid hmid
          rw [alContains_iff, hset, List.map_append]
          exact List.mem_append_left _ (alContains_iff.mp (hq mid hmid))
        · show ((alSet m1.mem key _).map Prod.fst).Nodup
          rw [hset, List.map_append]
          refine List.nodup_append.mpr ⟨hnd, List.nodup_singleton _, ?_⟩
          intro a ha hb
          rw [List.map_cons, List.map_nil, List.mem_singleton] at hb
          subst hb
          exact hnotmem ha
        · show ∀ p ∈ alSet m1.mem key _, p.2.memory_id = p.1
          rw [hset]
          intro p hp
          rcases List.mem_append.mp hp with hp | hp
          · exact hid p hp
          · rw [List.mem_singleton] at hp
            subst hp
            rfl
      refine condenseStrong_of_view ?_ h2
      split <;> rfl

/-- The registration loop preserves the strengthened invariant. -/
theorem condenseStrong_registerLoop (P : Prims) :
    ∀ (rows : List (String × String × Option (List ℚ) × JValue)) (m : Manager)
      (added : Bool), condenseStrong m →
      condenseStrong (registerLoop P m rows added).1 := by
  intro rows
  induction rows with
  | nil => intro m added h; exact h
  | cons row rest ih =>
    intro m added h
    obtain ⟨key, text, rawEmb, meta⟩ := row
    unfold registerLoop
    split
    · exact ih m added h
    · next hcont =>
      dsimp only
      cases hr : registerMemory P m key text (rawEmb.map (normalizeEmbedding P)) meta with
      | mk m' e =>
        have h' := condenseStrong_registerMemory P key text
          (rawEmb.map (normalizeEmbedding P)) meta h (by
            cases hc : alContains m.mem key with
            | false => rfl
            | true => exact absurd hc hcont)
        rw [hr] at h'
        cases e with
        | some err => exact h'
        | none => exact ih m' true h'

/-- The locked register path preserves the strengthened invariant. -/
theorem condenseStrong_registerChunksNoCb (P : Prims) {m : Manager}
    (ids raw_texts : List String) (embeddings : Option (List (Option (List ℚ))))
    (metadata : Option (List JValue)) (h : condenseStrong m) :
    condenseStrong (registerChunksNoCb P m ids raw_texts embeddings metadata).1 := by
  unfold registerChunksNoCb
  split
  · exact h
  · split
    · exact h
    · split
      · exact h
      · dsimp only
        have h1 := condenseStrong_registerLoop P
          (List.zipWith (fun p extra => (p.1, p.2, extra.1, extra.2))
            (ids.zip raw_texts)
            ((embeddings.getD (List.replicate ids.length none)).zip
              (metadata.getD (List.replicate ids.length JValue.jnull)))) m false h
        split
        · next m1 e heq =>
          rw [heq] at h1
          exact h1
        · next m1 heq =>
          rw [heq] at h1
          exact h1
        · next m1 heq =>
          rw [heq] at h1
          have h2 := condenseClear_flushCondensation h1
          cases hfl : flushCondensation m1 with
          | mk pairs m2 =>
            rw [hfl] at h2
            dsimp only
            have h3 := condenseClear_afterOperation P h2
            cases hao : afterOperation P m2 with
            | mk m3 e3 =>
              rw [hao] at h3
              cases e3 with
              | some err => exact h3.toStrong
              | none => exact h3.toStrong

/-- The condensation callback dispatch preserves the strengthened
invariant. -/
theorem condenseStrong_runCondenseCallback (P : Prims) {m : Manager}
    (pending : List (String × String)) (h : condenseStrong m) :
    condenseStrong (runCondenseCallback P m pending).1 := by
  unfold runCondenseCallback
  split
  · exact h
  · split
    · exact h
    · split
      · exact h
      · next summaryId text heq =>
        dsimp only
        cases hrc : registerChunksNoCb P m [summaryId] [text] none none with
        | mk m1 rest =>
          have h1 := condenseStrong_registerChunksNoCb P [summaryId] [text] none none h
          rw [hrc] at h1
          exact h1

/-- `register_chunks` preserves the strengthened invariant. -/
theorem condenseStrong_registerChunks (P : Prims) {m : Manager}
    (ids raw_texts : List String) (embeddings : Option (List (Option (List ℚ))))
    (metadata : Option (List JValue)) (h : condenseStrong m) :
    condenseStrong (registerChunks P m ids raw_texts embeddings metadata).1 := by
  unfold registerChunks
  have h1 := condenseStrong_registerChunksNoCb P ids raw_texts embeddings metadata h
  split
  · next m1 e heq =>
    rw [heq] at h1
    exact h1
  · next m1 pairs heq =>
    rw [heq] at h1
    exact condenseStrong_runCondenseCallback P pairs h1

/-- The per-trace reinforcement pass preserves the strengthened
invariant. -/
theorem condenseStrong_reinforceTraces (P : Prims) (hg : ℚ) (tb : ℤ) :
    ∀ (resolved : List (String × ℚ)) (m : Manager), condenseStrong m →
      condenseStrong (reinforceTraces P m resolved hg tb).1 := by
  intro resolved
  induction resolved with
  | nil => intro m h; exact h
  | cons pr rest ih =>
    intro m h
    obtain ⟨key, sim⟩ := pr
    unfold reinforceTraces
    cases har : applyReinforcement m key sim hg tb with
    | mk m1 e1 =>
      have hv1 := condenseView_applyReinforcement m key sim hg tb
      rw [har] at hv1
      have h1 : condenseStrong m1 := condenseStrong_of_view hv1 h
      cases e1 with
      | some err => exact h1
      | none =>
        dsimp only
        cases hget : alGet m1.mem key with
        | none => exact ih m1 h1
        | some ms =>
          exact ih _ (condenseStrong_condenseBlock _
            (condenseStrong_of_view (condenseView_frontierBlock P hget) h1))

/-- The row body of `reinforce` preserves the strengthened invariant. -/
theorem condenseStrong_reinforceRowCore (P : Prims) {m : Manager}
    (resolved : List (String × ℚ)) (hg : ℚ) (tb : ℤ) (h : condenseStrong m) :
    condenseStrong (reinforceRowCore P m resolved hg tb).1 := by
  unfold reinforceRowCore
  dsimp only
  refine condenseStrong_reinforceTraces P hg tb resolved _ ?_
  refine condenseStrong_of_view ?_ h
  refine Eq.trans (condenseView_updatePairMetrics _ _) ?_
  refine condenseView_foldl _ ?_ _ m
  intro acc p
  have hupd := alUpdate_map_msView acc.mem p.1
    (fun s => { s with inhibition := min (s.inhibition + 1/20) 1 }) (fun s => ⟨rfl, rfl⟩)
  exact Prod.ext hupd rfl

/-- The row loop of `reinforce` preserves the strengthened invariant. -/
theorem condenseStrong_reinforceRows (P : Prims) (hg : ℚ) (tb : ℤ) :
    ∀ (rows : List (List String × List ℚ)) (m : Manager), condenseStrong m →
      condenseStrong (reinforceRows P m rows hg tb).1 := by
  intro rows
  induction rows with
  | nil => intro m h; exact h
  | cons row rest ih =>
    intro m h
    obtain ⟨idsRow, distRow⟩ := row
    unfold reinforceRows
    split
    · exact h
    · split
      · exact ih m h
      · cases hc : reinforceRowCore P m (resolveRow m idsRow distRow) hg tb with
        | mk m1 e =>
          have h1 := condenseStrong_reinforceRowCore P (resolveRow m idsRow distRow) hg tb h
          rw [hc] at h1
          cases e with
          | some err => exact h1
          | none =>
            exact ih _ (condenseStrong_of_view (condenseView_recordEvent _ _ _) h1)

/-- `reinforce` preserves the strengthened invariant — including the calls
that raise mid-way, because flag and queue entry are installed together. -/
theorem condenseStrong_reinforce (P : Prims) {m : Manager}
    (idsRows : List (List String)) (distRows : List (List ℚ)) (hg : ℚ) (tb : ℤ)
    (h : condenseStrong m) :
    condenseStrong (reinforce P m idsRows distRows hg tb).1 := by
  unfold reinforce
  split
  · exact h
  · cases hr : reinforceRows P m (idsRows.zip distRows) hg tb with
    | mk m1 e =>
      have h1 := condenseStrong_reinforceRows P hg tb (idsRows.zip distRows) m h
      rw [hr] at h1
      cases e with
      | some err => exact h1
      | none =>
        dsimp only
        have h2 := condenseClear_flushCondensation h1
        cases hfl : flushCondensation m1 with
        | mk pairs m2 =>
          rw [hfl] at h2
          dsimp only
          have h3 := condenseClear_afterOperation P h2
          cases hao : afterOperation P m2 with
          | mk m3 e3 =>
            rw [hao] at h3
            cases e3 with
            | some err => exact h3.toStrong
            | none => exact condenseStrong_runCondenseCallback P pairs h3.toStrong

/-- Every public call preserves the strengthened invariant. -/
theorem condenseStrong_stepOp (P : Prims) (op : Op) {m : Manager}
    (h : condenseStrong m) : condenseStrong (stepOp P m op) := by
  cases op with
  | register ids raw_texts embeddings metadata =>
    exact condenseStrong_registerChunks P ids raw_texts embeddings metadata h
  | reinforceOp idsRows distRows hg tb =>
    exact condenseStrong_reinforce P idsRows distRows hg tb h
  | degradeOp ids floor =>
    exact condenseStrong_of_view (condenseView_degrade m ids floor) h
  | engramOp sid mids t =>
    exact condenseStrong_of_view (condenseView_registerEngram m sid mids t) h
  | setCallbackOp cb => exact h
  | consumeOp => exact h
  | topOp k => exact h
  | statsOp => exact h
  | peekOp k => exact h
  | scoreForOp mid => exact h
  | weightOp mid => exact h
  | toDictOp => exact h

/-- The strengthened invariant holds along every public call sequence. -/
theorem condenseStrong_runOps (P : Prims) (ops : List Op) {m : Manager}
    (h : condenseStrong m) : condenseStrong (runOps P m ops) := by
  unfold runOps
  exact foldl_preserves condenseStrong (stepOp P)
    (fun acc op hacc => condenseStrong_stepOp P op hacc) ops m h

/-- A freshly constructed manager satisfies the strengthened invariant. -/
theorem condenseStrong_mkManagerFromJ {P : Prims} {cfg : List (String × JValue)}
    {m : Manager} (h : mkManagerFromJ P cfg = Except.ok m) : condenseStrong m := by
  obtain ⟨hmem, -, -, -, -, hpend, -⟩ := mkManagerFromJ_ok_state h
  refine ⟨?_, ?_, ?_, ?_⟩
  · intro p hp
    rw [hmem] at hp
    cases hp
  · intro mid hmid
    rw [hpend] at hmid
    cases hmid
  · rw [hmem]
    exact List.nodup_nil
  · intro p hp
    rw [hmem] at hp
    cases hp

/-- C5 counterexample: `load_json` restores the per-trace `pending_condense`
flags but the condensation queue is not serialised and is left empty, so a
snapshot holding a flagged trace loads into a state violating the
queue ⇔ flag equivalence. -/
theorem c5_queue_flag_counterexample :
    loadJson P0 (some pendingPayload) = Except.ok (some pendingLoadedManager) ∧
    pendingLoadedManager.mem = [("a", pcTrace)] ∧
    pcTrace.pending_condense = true ∧
    pendingLoadedManager.pending_condense = [] ∧
    ¬ condenseInv pendingLoadedManager := by
  refine ⟨by with_unfolding_all rfl, by with_unfolding_all rfl,
    by with_unfolding_all rfl, by with_unfolding_all rfl, ?_⟩
  intro h
  have h2 := h ("a", pcTrace) (by
    rw [show pendingLoadedManager.mem = [("a", pcTrace)] from by with_unfolding_all rfl]
    exact List.mem_singleton.mpr rfl)
  rw [show pendingLoadedManager.pending_condense = ([] : List String) from by
    with_unfolding_all rfl] at h2
  have h3 : ("a" : String) ∈ ([] : List String) :=
    h2.mp (by with_unfolding_all rfl)
  exact absurd h3 (List.not_mem_nil _)

/-- C5 (amended): along every sequence of public calls on a constructed
manager — including calls that raise after partial mutation — a stored
trace is flagged `pending_condense` exactly when its id sits in the
condensation queue; flag and queue entry are installed together and cleared
together by the flush.  The equivalence does not survive `from_dict` /
`load_json`, which restore the flags but leave the queue empty (see the
counterexample). -/
theorem c5_queue_flag_amended (P : Prims) (cfg : List (String × JValue))
    (ops : List Op) (m0 : Manager) (h : mkManagerFromJ P cfg = Except.ok m0) :
    condenseInv (runOps P m0 ops) :=
  (condenseStrong_runOps P ops (condenseStrong_mkManagerFromJ h)).1

/-! ### C1 — constructor echo -/

theorem clamp01_eq_self {v : ℚ} (h1 : 0 ≤ v) (h2 : v ≤ 1) : clamp01 v = v := by
  unfold clamp01
  rw [if_neg (not_lt.mpr h1), if_neg (not_lt.mpr h2)]

theorem requireIntJ_ok {n minimum : ℤ} (hn : minimum ≤ n) (name : String) :
    requireIntJ (JValue.jint n) minimum name = Except.ok n := by
  unfold requireIntJ JValue.toIntP
  dsimp only
  rw [if_neg (not_lt.mpr hn)]

theorem clampFloatJ_ok {q lo hi : ℚ} (h1 : lo ≤ q) (h2 : q ≤ hi) :
    clampFloatJ (JValue.jnum q) lo hi = Except.ok q := by
  unfold clampFloatJ JValue.toFloatP
  dsimp only
  rw [clampFloat_eq_self h1 h2]

theorem clamp01J_ok {q : ℚ} (h1 : 0 ≤ q) (h2 : q ≤ 1) :
    clamp01J (JValue.jnum q) = Except.ok q := by
  unfold clamp01J JValue.toFloatP
  dsimp only
  rw [clamp01_eq_self h1 h2]

/-- Overwriting under a fixed key prefix distributes over the fold. -/
theorem foldl_alSet_cons [DecidableEq κ] {k : κ} {w : α} :
    ∀ (us bs : List (κ × α)), (∀ p ∈ us, p.1 ≠ k) →
      us.foldl (fun acc p => alSet acc p.1 p.2) ((k, w) :: bs) =
        (k, w) :: us.foldl (fun acc p => alSet acc p.1 p.2) bs := by
  intro us
  induction us with
  | nil => intro bs hne; rfl
  | cons p rest ih =>
    intro bs hne
    rw [List.foldl_cons, List.foldl_cons]
    have hpk : p.1 ≠ k := hne p (List.mem_cons_self _ _)
    have hstep : alSet ((k, w) :: bs) p.1 p.2 = (k, w) :: alSet bs p.1 p.2 := by
      show (if (k, w).1 = p.1 then (p.1, p.2) :: bs else (k, w) :: alSet bs p.1 p.2) =
        (k, w) :: alSet bs p.1 p.2
      rw [if_neg (fun hh => hpk hh.symm)]
    rw [hstep]
    exact ih _ (fun q hq => hne q (List.mem_cons_of_mem _ hq))

/-- Folding assignments whose keys replay a unique-key dict in order
rebuilds exactly the assignments. -/
theorem foldl_alSet_overwrite [DecidableEq κ] :
    ∀ (upd base : List (κ × α)), upd.map Prod.fst = base.map Prod.fst →
      (base.map Prod.fst).Nodup →
      upd.foldl (fun acc p => alSet acc p.1 p.2) base = upd := by
  intro upd
  induction upd with
  | nil =>
    intro base hkeys hnd
    have hb : base = [] := by
      have h2 := hkeys.symm
      rw [List.map_nil] at h2
      rw [List.map_eq_nil_iff] at h2
      exact h2
    rw [hb]
    rfl
  | cons u us ih =>
    intro base hkeys hnd
    cases base with
    | nil => simp at hkeys
    | cons b bs =>
      rw [List.map_cons, List.map_cons] at hkeys
      injection hkeys with hk hks
      rw [List.map_cons, List.nodup_cons] at hnd
      rw [List.foldl_cons]
      have hstep : alSet (b :: bs) u.1 u.2 = (u.1, u.2) :: bs := by
        unfold alSet
        rw [if_pos hk.symm]
      rw [hstep]
      have hne : ∀ p ∈ us, p.1 ≠ u.1 := by
        intro p hp hpe
        refine hnd.1 ?_
        rw [← hk, ← hpe, ← hks]
        exact List.mem_map_of_mem Prod.fst hp
      rw [foldl_alSet_cons us bs hne, ih bs hks hnd.2]

set_option maxHeartbeats 2000000 in
/-- Feeding the constructor its own sanitized configuration echo succeeds
and re-installs the zero state with the same parameters. -/
theorem mkManagerFromJ_configDict (P : Prims) (m : Manager) (h : wfManager m) :
    mkManagerFromJ P (sanitizeConfig (configDict m)) = Except.ok (freshOf P m) := by
  obtain ⟨h1, h2, h3, h4, h5a, h5b, h7, h8, h9, h10a, h10b, h11a, h11b, h12,
    h13, h14a, h14b, h15, h16a, h16b, h17a, h17b, -⟩ := h
  have hsan : sanitizeConfig (configDict m) = configDict m :=
    foldl_alSet_overwrite (configDict m) configDefaults rfl (by decide)
  rw [hsan]
  have g0 : ((configDict m).map Prod.fst).any
      (fun k => !(managerParamNames.contains k)) = false := rfl
  have g1 : alGet (configDict m) "capacity" = some (JValue.jint m.capacity) := rfl
  have g2 : alGet (configDict m) "base_ttl" = some (JValue.jint m.base_ttl) := rfl
  have g3 : alGet (configDict m) "decay_half_life" =
    some (JValue.jint m.decay_half_life) := rfl
  have g4 : alGet (configDict m) "prune_sample" =
    some (JValue.jint m.prune_sample) := rfl
  have g5 : alGet (configDict m) "prune_target_ratio" =
    some (JValue.jnum m.prune_target_ratio) := rfl
  have g6 : alGet (configDict m) "thread_safe" =
    some (JValue.jbool m.thread_safe) := rfl
  have g7 : alGet (configDict m) "seed" = some (jOptInt m.seed) := rfl
  have g8 : alGet (configDict m) "recency_half_life_ticks" =
    some (JValue.jint m.recency_half_life) := rfl
  have g9 : alGet (configDict m) "habituation_start" =
    some (JValue.jint m.habituation_start) := rfl
  have g10 : alGet (configDict m) "habituation_scale" =
    some (JValue.jnum m.habituation_scale) := rfl
  have g11 : alGet (configDict m) "boredom_weight" =
    some (JValue.jnum m.boredom_weight) := rfl
  have g12 : alGet (configDict m) "frontier_novelty_threshold" =
    some (JValue.jnum m.frontier_novelty_threshold) := rfl
  have g13 : alGet (configDict m) "frontier_patience" =
    some (JValue.jint m.frontier_patience) := rfl
  have g14 : alGet (configDict m) "diffusion_interval" =
    some (JValue.jint m.diffusion_interval) := rfl
  have g15 : alGet (configDict m) "diffusion_kappa" =
    some (JValue.jnum m.diffusion_kappa) := rfl
  have g16 : alGet (configDict m) "exploration_churn_window" =
    some (JValue.jint m.exploration_churn_window) := rfl
  have g17 : alGet (configDict m) "condensation_boredom" =
    some (JValue.jnum m.condensation_boredom) := rfl
  have g18 : alGet (configDict m) "condensation_conf" =
    some (JValue.jnum m.condensation_conf) := rfl
  have g19 : alGet (configDict m) "condensation_mass" =
    some (JValue.jnum m.condensation_mass) := rfl
  have hhs : m.habituation_scale ⊔ 1 = m.habituation_scale := max_eq_left h9
  cases hseed : m.seed with
  | none =>
    simp only [mkManagerFromJ, g0, Bool.false_eq_true, if_false, bind, Except.bind,
      g1, g2, g3, g4, g5, g6, g7, g8, g9, g10, g11, g12, g13, g14, g15, g16, g17,
      g18, g19, hseed, jOptInt, Option.getD,
      requireIntJ_ok h1, requireIntJ_ok h2, requireIntJ_ok h3, requireIntJ_ok h4,
      clampFloatJ_ok h5a h5b,
      requireIntJ_ok h7, requireIntJ_ok h8,
      clampFloatJ_ok h10a h10b,
      clampFloatJ_ok h11a h11b,
      requireIntJ_ok h12, requireIntJ_ok h13,
      clampFloatJ_ok h14a h14b,
      requireIntJ_ok h15,
      clamp01J_ok h16a h16b, clamp01J_ok h17a h17b,
      JValue.toFloatP, JValue.truthy, Option.elim, hhs]
    show Except.ok _ = Except.ok (freshOf P m)
    rw [show freshOf P m = { freshOf P m with seed := none, rng := P.rngInit none }
      from by rw [← hseed]; rfl]
    rfl
  | some s =>
    simp only [mkManagerFromJ, g0, Bool.false_eq_true, if_false, bind, Except.bind,
      g1, g2, g3, g4, g5, g6, g7, g8, g9, g10, g11, g12, g13, g14, g15, g16, g17,
      g18, g19, hseed, jOptInt, Option.getD,
      requireIntJ_ok h1, requireIntJ_ok h2, requireIntJ_ok h3, requireIntJ_ok h4,
      clampFloatJ_ok h5a h5b,
      requireIntJ_ok h7, requireIntJ_ok h8,
      clampFloatJ_ok h10a h10b,
      clampFloatJ_ok h11a h11b,
      requireIntJ_ok h12, requireIntJ_ok h13,
      clampFloatJ_ok h14a h14b,
      requireIntJ_ok h15,
      clamp01J_ok h16a h16b, clamp01J_ok h17a h17b,
      JValue.toIntP, JValue.toFloatP, JValue.truthy, Option.elim, hhs]
    show Except.ok _ = Except.ok (freshOf P m)
    rw [show freshOf P m = { freshOf P m with seed := some s, rng := P.rngInit (some s) }
      from by rw [← hseed]; rfl]
    rfl

/-! ### C1 — decimal codec round trip -/

theorem digitVal_digitChar {d : ℕ} (hd : d < 10) : digitVal (digitChar d) = d := by
  interval_cases d <;> rfl

theorem isDigit_digitChar (d : ℕ) : isDigitCh (digitChar d) = true := by
  unfold digitChar
  split <;> rfl

theorem charsToNat_append (l : List Char) (c : Char) :
    charsToNat (l ++ [c]) = charsToNat l * 10 + digitVal c := by
  unfold charsToNat
  rw [List.foldl_append]
  rfl

theorem natCharsAux_spec :
    ∀ (fuel n : ℕ), n < fuel →
      natCharsAux fuel n ≠ [] ∧ (natCharsAux fuel n).all isDigitCh = true ∧
      charsToNat (natCharsAux fuel n) = n := by
  intro fuel
  induction fuel with
  | zero => intro n hn; omega
  | succ f ih =>
    intro n hn
    unfold natCharsAux
    split
    · next h10 =>
      refine ⟨by simp, ?_, ?_⟩
      · rw [List.all_cons]
        rw [isDigit_digitChar]
        rfl
      · show charsToNat ([] ++ [digitChar n]) = n
        rw [charsToNat_append]
        rw [digitVal_digitChar h10]
        rw [show charsToNat ([] : List Char) = 0 from rfl]
        omega
    · next h10 =>
      rw [not_lt] at h10
      have hdiv : n / 10 < f := by
        have hlt : n / 10 < n := Nat.div_lt_self (by omega) (by omega)
        omega
      obtain ⟨hne, hall, hval⟩ := ih (n / 10) hdiv
      refine ⟨?_, ?_, ?_⟩
      · intro hcontra
        rw [List.append_eq_nil] at hcontra
        exact hne hcontra.1
      · rw [List.all_append, hall]
        rw [List.all_cons, isDigit_digitChar]
        rfl
      · rw [charsToNat_append, hval]
        have hd : digitVal (digitChar (n % 10)) = n % 10 :=
          digitVal_digitChar (Nat.mod_lt _ (by omega))
        rw [hd]
        omega

theorem natChars_spec (n : ℕ) :
    natChars n ≠ [] ∧ (natChars n).all isDigitCh = true ∧
      charsToNat (natChars n) = n :=
  natCharsAux_spec (n + 1) n (Nat.lt_succ_self n)

theorem not_dash_of_digit {c : Char} (h : isDigitCh c = true) : c ≠ '-' := by
  intro hc
  rw [hc] at h
  exact absurd h (by decide)

theorem not_colon_of_digit {c : Char} (h : isDigitCh c = true) : c ≠ ':' := by
  intro hc
  rw [hc] at h
  exact absurd h (by decide)

theorem charsToInt_digits {l : List Char} (hne : l ≠ [])
    (hd : l.all isDigitCh = true) :
    charsToInt l = some ((charsToNat l : ℤ)) := by
  cases l with
  | nil => exact absurd rfl hne
  | cons c cs =>
    have hc : isDigitCh c = true := by
      simp only [List.all_cons, Bool.and_eq_true] at hd
      exact hd.1
    show (if c = '-' then _ else if (c :: cs).all isDigitCh then _ else none) = _
    rw [if_neg (not_dash_of_digit hc), if_pos hd]

theorem charsToInt_intChars (z : ℤ) : charsToInt (intChars z) = some z := by
  unfold intChars
  split
  · next hz =>
    obtain ⟨hne, hall, hval⟩ := natChars_spec (-z).toNat
    show (if ('-' : Char) = '-' then
        if natChars (-z).toNat ≠ [] ∧ (natChars (-z).toNat).all isDigitCh then
          some (-(charsToNat (natChars (-z).toNat) : ℤ)) else none
      else if (('-' :: natChars (-z).toNat).all isDigitCh) then
        some ((charsToNat ('-' :: natChars (-z).toNat) : ℤ))
      else none) = some z
    rw [if_pos rfl, if_pos ⟨hne, hall⟩, hval]
    congr 1
    rw [Int.toNat_of_nonneg (by omega)]
    omega
  · next hz =>
    obtain ⟨hne, hall, hval⟩ := natChars_spec z.toNat
    rw [charsToInt_digits hne hall, hval]
    congr 1
    exact Int.toNat_of_nonneg (by omega)

theorem parseIntKey_intKey (z : ℤ) : parseIntKey (intKey z) = some z := by
  unfold parseIntKey intKey
  exact charsToInt_intChars z

theorem splitFirstColon_append {l : List Char} (hl : ∀ c ∈ l, c ≠ ':')
    (r : List Char) : splitFirstColon (l ++ ':' :: r) = some (l, r) := by
  induction l with
  | nil =>
    show splitFirstColon (':' :: r) = some ([], r)
    unfold splitFirstColon
    rw [if_pos rfl]
  | cons c cs ih =>
    show splitFirstColon (c :: (cs ++ ':' :: r)) = some (c :: cs, r)
    unfold splitFirstColon
    rw [if_neg (hl c (List.mem_cons_self _ _))]
    rw [ih (fun x hx => hl x (List.mem_cons_of_mem _ hx))]
    rfl

theorem no_colon_intChars (z : ℤ) : ∀ c ∈ intChars z, c ≠ ':' := by
  intro c hc
  unfold intChars at hc
  split at hc
  · rcases List.mem_cons.mp hc with h | h
    · subst h
      decide
    · obtain ⟨-, hall, -⟩ := natChars_spec (-z).toNat
      exact not_colon_of_digit (List.all_eq_true.mp hall c h)
  · obtain ⟨-, hall, -⟩ := natChars_spec z.toNat
    exact not_colon_of_digit (List.all_eq_true.mp hall c hc)

theorem parsePairKey_pairKey {a b : ℤ} (hab : a ≤ b) :
    parsePairKey (pairKey a b) = some (a, b) := by
  unfold parsePairKey pairKey
  rw [show (String.mk (intChars a ++ ':' :: intChars b)).data =
    intChars a ++ ':' :: intChars b from rfl]
  rw [splitFirstColon_append (no_colon_intChars a) (intChars b)]
  dsimp only
  rw [charsToInt_intChars a, charsToInt_intChars b]
  dsimp only
  rw [min_eq_left hab, max_eq_right hab]

/-! ### C1 — dict and window rebuild -/

theorem foldl_congr_fn {β σ : Type} :
    ∀ (l : List β) (f g : σ → β → σ),
      (∀ acc x, x ∈ l → f acc x = g acc x) → ∀ s, l.foldl f s = l.foldl g s := by
  intro l
  induction l with
  | nil => intro f g h s; rfl
  | cons x xs ih =>
    intro f g h s
    rw [List.foldl_cons, List.foldl_cons, h s x (List.mem_cons_self _ _)]
    exact ih f g (fun acc y hy => h acc y (List.mem_cons_of_mem _ hy)) _

theorem foldl_alSet_rebuild [DecidableEq κ] :
    ∀ (l acc : List (κ × α)),
      ((acc.map Prod.fst) ++ (l.map Prod.fst)).Nodup →
      l.foldl (fun a p => alSet a p.1 p.2) acc = acc ++ l := by
  intro l
  induction l with
  | nil =>
    intro acc h
    simp
  | cons p ps ih =>
    intro acc h
    rw [List.foldl_cons]
    have hk : p.1 ∉ acc.map Prod.fst := by
      intro hmem
      rw [List.map_cons] at h
      rcases List.nodup_append.mp h with ⟨-, -, hdisj⟩
      exact hdisj hmem (List.mem_cons_self _ _)
    rw [alSet_of_not_mem hk]
    have h2 : ((acc ++ [p]).map Prod.fst ++ ps.map Prod.fst).Nodup := by
      rw [List.map_append, List.append_assoc]
      rw [List.map_cons] at h
      exact h
    rw [ih (acc ++ [p]) h2]
    simp

theorem foldl_pushBounded_of_le {cap : ℕ} :
    ∀ (l acc : List α), acc.length + l.length ≤ cap →
      l.foldl (pushBounded cap) acc = acc ++ l := by
  intro l
  induction l with
  | nil =>
    intro acc h
    simp
  | cons x xs ih =>
    intro acc h
    rw [List.foldl_cons]
    have hstep : pushBounded cap acc x = acc ++ [x] := by
      unfold pushBounded
      dsimp only
      rw [if_neg]
      simp only [List.length_append, List.length_cons, List.length_nil, not_lt] at h ⊢
      omega
    rw [hstep]
    rw [ih (acc ++ [x]) (by
      simp only [List.length_append, List.length_cons, List.length_nil] at h ⊢
      omega)]
    simp

theorem mapM_toFloatP_jnum :
    ∀ (l : List ℚ), (l.map JValue.jnum).mapM JValue.toFloatP = some l := by
  intro l
  induction l with
  | nil => rfl
  | cons q qs ih =>
    rw [List.map_cons, List.mapM_cons, ih]
    rfl

theorem mapM_toIntP_jint :
    ∀ (l : List ℤ), (l.map JValue.jint).mapM JValue.toIntP = some l := by
  intro l
  induction l with
  | nil => rfl
  | cons n ns ih =>
    rw [List.map_cons, List.mapM_cons, ih]
    rfl

theorem mapM_floatE_jnum :
    ∀ (l : List ℚ), (l.map JValue.jnum).mapM
      (fun v => (JValue.toFloatP v).elim (Except.error "float cast") Except.ok) =
      Except.ok l := by
  intro l
  induction l with
  | nil => rfl
  | cons q qs ih =>
    rw [List.map_cons, List.mapM_cons, ih]
    rfl

/-- A clamped trace is a fixed point of the clamp. -/
theorem clampRanges_eq_self {ms : MemState} (h : wfTrace ms) :
    MemState.clampRanges ms = ms := by
  obtain ⟨c0, c1, n0, n1, b0, b1, hm, hh, ht, hi⟩ := h
  unfold MemState.clampRanges
  rw [clamp01_eq_self c0 c1, clamp01_eq_self n0 n1, clamp01_eq_self b0 b1,
    if_neg (not_lt.mpr hm), if_neg (not_lt.mpr hh), if_neg (not_lt.mpr ht),
    if_neg (not_lt.mpr hi)]

set_option maxHeartbeats 1000000 in
/-- A stored clamped trace survives the `to_dict` / `from_dict` round trip
unchanged. -/
theorem memFromDict_toDict {ms : MemState} (h : wfTrace ms) :
    memFromDict ms.memory_id (MemState.toDict ms) = Except.ok ms := by
  rw [show memFromDict ms.memory_id (MemState.toDict ms) =
    memFromDictBody ms.memory_id (MemState.toDict ms) from rfl]
  have eMeta : jGetD (MemState.toDict ms) "metadata" JValue.jnull = ms.metadata := rfl
  have eTtl : jGetD (MemState.toDict ms) "ttl" (JValue.jint 0) =
    JValue.jint ms.ttl := rfl
  have eLt : jGetD (MemState.toDict ms) "last_touch_tick" (JValue.jint 0) =
    JValue.jint ms.last_touch_tick := rfl
  have eUc : jGetD (MemState.toDict ms) "use_count" (JValue.jint 0) =
    JValue.jint ms.use_count := rfl
  have eMass : jGetD (MemState.toDict ms) "mass" (JValue.jnum 1) =
    JValue.jnum ms.mass := rfl
  have eHeat : jGetD (MemState.toDict ms) "heat" (JValue.jnum 0) =
    JValue.jnum ms.heat := rfl
  have eConf : jGetD (MemState.toDict ms) "confidence" (JValue.jnum (1/2)) =
    JValue.jnum ms.confidence := rfl
  have eNov : jGetD (MemState.toDict ms) "novelty" (JValue.jnum (1/2)) =
    JValue.jnum ms.novelty := rfl
  have eBor : jGetD (MemState.toDict ms) "boredom" (JValue.jnum 0) =
    JValue.jnum ms.boredom := rfl
  have eInh : jGetD (MemState.toDict ms) "inhibition" (JValue.jnum 0) =
    JValue.jnum ms.inhibition := rfl
  have eFh : jGetD (MemState.toDict ms) "frontier_hits" (JValue.jint 0) =
    JValue.jint ms.frontier_hits := rfl
  have ePend : jGetD (MemState.toDict ms) "pending_condense" (JValue.jbool false) =
    JValue.jbool ms.pending_condense := rfl
  have eText : jGetD (MemState.toDict ms) "text" (JValue.jstr "") =
    JValue.jstr ms.text := rfl
  cases hemb : ms.embedding with
  | none =>
    have eEmb : jGetD (MemState.toDict ms) "embedding" JValue.jnull = JValue.jnull := by
      rw [show jGetD (MemState.toDict ms) "embedding" JValue.jnull =
        (match ms.embedding with
         | none => JValue.jnull
         | some e => JValue.jarr (e.map JValue.jnum)) from rfl, hemb]
    cases htid : ms.territory_id with
    | none =>
      have eTid : jGetD (MemState.toDict ms) "territory_id" JValue.jnull =
          JValue.jnull := by
        rw [show jGetD (MemState.toDict ms) "territory_id" JValue.jnull =
          jOptInt ms.territory_id from rfl, htid]
        rfl
      simp only [memFromDictBody, bind, Except.bind, eEmb, eTid, eMeta, eTtl, eLt, eUc,
        eMass, eHeat, eConf, eNov, eBor, eInh, eFh, ePend, eText,
        JValue.toIntP, JValue.toFloatP, JValue.truthy, Option.elim]
      rw [← hemb, ← htid]
      show Except.ok (MemState.clampRanges ms) = Except.ok ms
      rw [clampRanges_eq_self h]
    | some tid =>
      have eTid : jGetD (MemState.toDict ms) "territory_id" JValue.jnull =
          JValue.jint tid := by
        rw [show jGetD (MemState.toDict ms) "territory_id" JValue.jnull =
          jOptInt ms.territory_id from rfl, htid]
        rfl
      simp only [memFromDictBody, bind, Except.bind, eEmb, eTid, eMeta, eTtl, eLt, eUc,
        eMass, eHeat, eConf, eNov, eBor, eInh, eFh, ePend, eText,
        JValue.toIntP, JValue.toFloatP, JValue.truthy, Option.elim]
      rw [← hemb, ← htid]
      show Except.ok (MemState.clampRanges ms) = Except.ok ms
      rw [clampRanges_eq_self h]
  | some e =>
    have eEmb : jGetD (MemState.toDict ms) "embedding" JValue.jnull =
        JValue.jarr (e.map JValue.jnum) := by
      rw [show jGetD (MemState.toDict ms) "embedding" JValue.jnull =
        (match ms.embedding with
         | none => JValue.jnull
         | some e => JValue.jarr (e.map JValue.jnum)) from rfl, hemb]
    cases htid : ms.territory_id with
    | none =>
      have eTid : jGetD (MemState.toDict ms) "territory_id" JValue.jnull =
          JValue.jnull := by
        rw [show jGetD (MemState.toDict ms) "territory_id" JValue.jnull =
          jOptInt ms.territory_id from rfl, htid]
        rfl
      simp only [memFromDictBody, bind, Except.bind, eEmb, mapM_floatE_jnum]
      simp only [bind, Except.bind, eTid, eMeta, eTtl, eLt, eUc,
        eMass, eHeat, eConf, eNov, eBor, eInh, eFh, ePend, eText,
        JValue.toIntP, JValue.toFloatP, JValue.truthy, Option.elim]
      rw [← hemb, ← htid]
      show Except.ok (MemState.clampRanges ms) = Except.ok ms
      rw [clampRanges_eq_self h]
    | some tid =>
      have eTid : jGetD (MemState.toDict ms) "territory_id" JValue.jnull =
          JValue.jint tid := by
        rw [show jGetD (MemState.toDict ms) "territory_id" JValue.jnull =
          jOptInt ms.territory_id from rfl, htid]
        rfl
      simp only [memFromDictBody, bind, Except.bind, eEmb, mapM_floatE_jnum]
      simp only [bind, Except.bind, eTid, eMeta, eTtl, eLt, eUc,
        eMass, eHeat, eConf, eNov, eBor, eInh, eFh, ePend, eText,
        JValue.toIntP, JValue.toFloatP, JValue.truthy, Option.elim]
      rw [← hemb, ← htid]
      show Except.ok (MemState.clampRanges ms) = Except.ok ms
      rw [clampRanges_eq_self h]

/-! ### C1 — per-collection rebuild -/

theorem rebuild_engrams {eng : List (String × List String)}
    (hnd : (eng.map Prod.fst).Nodup) :
    (eng.map (fun p => (p.1, JValue.jarr (p.2.map JValue.jstr)))).foldl
      (fun acc p => match p.2 with
        | JValue.jarr members => alSet acc p.1 (members.map JValue.toStrP)
        | _ => acc) [] = eng := by
  rw [List.foldl_map]
  refine Eq.trans (foldl_congr_fn eng _ (fun acc p => alSet acc p.1 p.2) ?_ []) ?_
  · intro acc p hp
    dsimp only
    congr 1
    rw [List.map_map]
    show p.2.map (fun s => s) = p.2
    exact List.map_id' p.2
  · exact foldl_alSet_rebuild eng [] (by simpa using hnd)

theorem rebuild_frontier {fr : List (String × JValue)}
    (hnd : (fr.map Prod.fst).Nodup) (hobj : ∀ p ∈ fr, isJObj p.2 = true) :
    fr.foldl
      (fun acc p => match p.2 with
        | JValue.jobj info => alSet acc p.1 (JValue.jobj info)
        | _ => acc) [] = fr := by
  refine Eq.trans (foldl_congr_fn fr _ (fun acc p => alSet acc p.1 p.2) ?_ []) ?_
  · intro acc p hp
    have ho := hobj p hp
    cases hp2 : p.2 with
    | jnull => rw [hp2] at ho; simp [isJObj] at ho
    | jbool b => rw [hp2] at ho; simp [isJObj] at ho
    | jint n => rw [hp2] at ho; simp [isJObj] at ho
    | jnum q => rw [hp2] at ho; simp [isJObj] at ho
    | jstr s => rw [hp2] at ho; simp [isJObj] at ho
    | jarr l => rw [hp2] at ho; simp [isJObj] at ho
    | jobj info =>
      dsimp only
      rw [hp2]
  · exact foldl_alSet_rebuild fr [] (by simpa using hnd)

theorem rebuild_mem {mem : List (String × MemState)}
    (hwf : ∀ p ∈ mem, p.2.memory_id = p.1 ∧ wfTrace p.2)
    (hnd : (mem.map Prod.fst).Nodup) :
    (mem.map (fun p => (p.1, p.2.toDict))).foldl
      (fun acc p => match memFromDict p.1 p.2 with
        | Except.ok state => alSet acc state.memory_id state
        | Except.error _ => acc) [] = mem := by
  rw [List.foldl_map]
  refine Eq.trans (foldl_congr_fn mem _ (fun acc p => alSet acc p.1 p.2) ?_ []) ?_
  · intro acc p hp
    obtain ⟨hid, hwfp⟩ := hwf p hp
    dsimp only
    rw [show memFromDict p.1 p.2.toDict = memFromDict p.2.memory_id p.2.toDict from
      by rw [hid]]
    rw [memFromDict_toDict hwfp]
    dsimp only
    rw [hid]
  · exact foldl_alSet_rebuild mem [] (by simpa using hnd)

theorem rebuild_centroids {tc : List (ℤ × List ℚ)}
    (hnd : (tc.map Prod.fst).Nodup) :
    (tc.map (fun p => (intKey p.1, JValue.jarr (p.2.map JValue.jnum)))).foldl
      (fun acc p =>
        match parseIntKey p.1,
          (match p.2 with
           | JValue.jarr vs => vs.mapM JValue.toFloatP
           | _ => none) with
        | some tid, some vals => alSet acc tid vals
        | _, _ => acc) [] = tc := by
  rw [List.foldl_map]
  refine Eq.trans (foldl_congr_fn tc _ (fun acc p => alSet acc p.1 p.2) ?_ []) ?_
  · intro acc p hp
    dsimp only
    rw [parseIntKey_intKey, mapM_toFloatP_jnum]
  · exact foldl_alSet_rebuild tc [] (by simpa using hnd)

theorem rebuild_counts {tc : List (ℤ × ℤ)} (hnd : (tc.map Prod.fst).Nodup) :
    (tc.map (fun p => (intKey p.1, JValue.jint p.2))).foldl
      (fun acc p =>
        match parseIntKey p.1, p.2.toIntP with
        | some tid, some count => alSet acc tid count
        | _, _ => acc) [] = tc := by
  rw [List.foldl_map]
  refine Eq.trans (foldl_congr_fn tc _ (fun acc p => alSet acc p.1 p.2) ?_ []) ?_
  · intro acc p hp
    dsimp only
    rw [parseIntKey_intKey]
    rfl
  · exact foldl_alSet_rebuild tc [] (by simpa using hnd)

theorem rebuild_member_dists {md : List (ℤ × List ℚ)}
    (hnd : (md.map Prod.fst).Nodup) (hlen : ∀ p ∈ md, p.2.length ≤ 1024) :
    (md.map (fun p => (intKey p.1, JValue.jarr (p.2.map JValue.jnum)))).foldl
      (fun acc p =>
        match parseIntKey p.1,
          (match p.2 with
           | JValue.jarr vs => vs.mapM JValue.toFloatP
           | _ => none) with
        | some tid, some vals => alSet acc tid (vals.foldl (pushBounded 1024) [])
        | _, _ => acc) [] = md := by
  rw [List.foldl_map]
  refine Eq.trans (foldl_congr_fn md _ (fun acc p => alSet acc p.1 p.2) ?_ []) ?_
  · intro acc p hp
    dsimp only
    rw [parseIntKey_intKey, mapM_toFloatP_jnum]
    dsimp only
    rw [foldl_pushBounded_of_le p.2 [] (by simpa using hlen p hp)]
    rfl
  · exact foldl_alSet_rebuild md [] (by simpa using hnd)

theorem rebuild_nn {nn : List ℚ} (hlen : nn.length ≤ 5000) :
    (nn.map JValue.jnum).foldl
      (fun acc v => match JValue.toFloatP v with
        | some q => pushBounded 5000 acc q
        | none => acc) [] = nn := by
  rw [List.foldl_map]
  refine Eq.trans (foldl_congr_fn nn _ (pushBounded 5000) ?_ []) ?_
  · intro acc x hx
    rfl
  · exact foldl_pushBounded_of_le nn [] (by simpa using hlen)

theorem rebuild_pair_churn (W : ℕ) {churn : List ((ℤ × ℤ) × List ℤ)}
    (hnd : (churn.map Prod.fst).Nodup)
    (hp : ∀ p ∈ churn, p.1.1 ≤ p.1.2 ∧ p.2.length ≤ W) :
    (churn.map (fun p => (pairKey p.1.1 p.1.2, JValue.jarr (p.2.map JValue.jint)))).foldl
      (fun acc p =>
        match parsePairKey p.1,
          (match p.2 with
           | JValue.jarr vs => vs.mapM JValue.toIntP
           | _ => none) with
        | some pair, some ticks => alSet acc pair (ticks.foldl (pushBounded W) [])
        | _, _ => acc) [] = churn := by
  rw [List.foldl_map]
  refine Eq.trans (foldl_congr_fn churn _ (fun acc p => alSet acc p.1 p.2) ?_ []) ?_
  · intro acc p hpm
    obtain ⟨hsort, hlen⟩ := hp p hpm
    dsimp only
    rw [parsePairKey_pairKey hsort, mapM_toIntP_jint]
    dsimp only
    rw [foldl_pushBounded_of_le p.2 [] (by simpa using hlen)]
    rfl
  · exact foldl_alSet_rebuild churn [] (by simpa using hnd)

theorem rebuild_pair_last {pl : List ((ℤ × ℤ) × ℤ)}
    (hnd : (pl.map Prod.fst).Nodup) (hp : ∀ p ∈ pl, p.1.1 ≤ p.1.2) :
    (pl.map (fun p => (pairKey p.1.1 p.1.2, JValue.jint p.2))).foldl
      (fun acc p =>
        match parsePairKey p.1, p.2.toIntP with
        | some pair, some v => alSet acc pair v
        | _, _ => acc) [] = pl := by
  rw [List.foldl_map]
  refine Eq.trans (foldl_congr_fn pl _ (fun acc p => alSet acc p.1 p.2) ?_ []) ?_
  · intro acc p hpm
    dsimp only
    rw [parsePairKey_pairKey (hp p hpm)]
    rfl
  · exact foldl_alSet_rebuild pl [] (by simpa using hnd)

set_option maxHeartbeats 1000000 in
/-- Populating a fresh manager from a well-formed snapshot restores every
serialised field exactly. -/
theorem populateFromDict_managerToDict (P : Prims) (m : Manager) (h : wfManager m) :
    populateFromDict (freshOf P m) (managerToDict m) = Except.ok (reloaded P m) := by
  obtain ⟨-, -, -, -, -, -, -, -, -, -, -, -, -, -, -, -, -, -, -, -, -, -,
    htau1, htau2, hmemwf, hmemnd, hengnd, hfrnd, hfrobj, hcennd, hctnd, hmdnd,
    hmdlen, hnnlen, hpcnd, hpcwf, hplnd, hplwf⟩ := h
  have eTick : jGetD (managerToDict m) "tick" (JValue.jint 0) =
    JValue.jint m.tick := rfl
  have eNext : jGetD (managerToDict m) "next_territory" (JValue.jint 10000) =
    JValue.jint m.next_territory_id := rfl
  have eRew : jGetD (managerToDict m) "reward_ema" (JValue.jnum 0) =
    JValue.jnum m.reward_ema := rfl
  have eTau : jGetD (managerToDict m) "territory_tau" (JValue.jnum (3/10)) =
    JValue.jnum m.territory_tau := rfl
  have eSplit : jGetD (managerToDict m) "split_counter" (JValue.jint 0) =
    JValue.jint m.split_counter := rfl
  have eMerge : jGetD (managerToDict m) "merge_counter" (JValue.jint 0) =
    JValue.jint m.merge_counter := rfl
  have eEng : jGetD (managerToDict m) "engrams" (JValue.jobj []) =
    JValue.jobj (m.engrams.map
      (fun p => (p.1, JValue.jarr (p.2.map JValue.jstr)))) := rfl
  have eFr : jGetD (managerToDict m) "frontier" (JValue.jobj []) =
    JValue.jobj m.frontier := rfl
  have eMem : jGetD (managerToDict m) "mem" (JValue.jobj []) =
    JValue.jobj (m.mem.map (fun p => (p.1, p.2.toDict))) := rfl
  have eCen : jGetD (managerToDict m) "territory_centroids" (JValue.jobj []) =
    JValue.jobj (m.territory_centroids.map
      (fun p => (intKey p.1, JValue.jarr (p.2.map JValue.jnum)))) := rfl
  have eCnt : jGetD (managerToDict m) "territory_counts" (JValue.jobj []) =
    JValue.jobj (m.territory_counts.map
      (fun p => (intKey p.1, JValue.jint p.2))) := rfl
  have eMd : jGetD (managerToDict m) "territory_member_dists" (JValue.jobj []) =
    JValue.jobj (m.territory_member_dists.map
      (fun p => (intKey p.1, JValue.jarr (p.2.map JValue.jnum)))) := rfl
  have eNn : jGetD (managerToDict m) "nn_distances" (JValue.jarr []) =
    JValue.jarr (m.nn_distances.map JValue.jnum) := rfl
  have ePc : jGetD (managerToDict m) "pair_churn" (JValue.jobj []) =
    JValue.jobj (m.pair_churn.map
      (fun p => (pairKey p.1.1 p.1.2, JValue.jarr (p.2.map JValue.jint)))) := rfl
  have ePl : jGetD (managerToDict m) "pair_last" (JValue.jobj []) =
    JValue.jobj (m.pair_last.map
      (fun p => (pairKey p.1.1 p.1.2, JValue.jint p.2))) := rfl
  have fMem : (freshOf P m).mem = ([] : List (String × MemState)) := rfl
  have fCen : (freshOf P m).territory_centroids = ([] : List (ℤ × List ℚ)) := rfl
  have fCnt : (freshOf P m).territory_counts = ([] : List (ℤ × ℤ)) := rfl
  have fMd : (freshOf P m).territory_member_dists = ([] : List (ℤ × List ℚ)) := rfl
  have fPc : (freshOf P m).pair_churn = ([] : List ((ℤ × ℤ) × List ℤ)) := rfl
  have fPl : (freshOf P m).pair_last = ([] : List ((ℤ × ℤ) × ℤ)) := rfl
  have fW : (freshOf P m).exploration_churn_window = m.exploration_churn_window := rfl
  simp only [populateFromDict, bind, Except.bind,
    eTick, eNext, eRew, eTau, eSplit, eMerge, eEng, eFr, eMem, eCen, eCnt, eMd,
    eNn, ePc, ePl, fMem, fCen, fCnt, fMd, fPc, fPl, fW,
    rebuild_engrams hengnd, rebuild_frontier hfrnd hfrobj,
    rebuild_mem hmemwf hmemnd, rebuild_centroids hcennd, rebuild_counts hctnd,
    rebuild_member_dists hmdnd hmdlen, rebuild_nn hnnlen,
    rebuild_pair_churn m.exploration_churn_window.toNat hpcnd hpcwf,
    rebuild_pair_last hplnd hplwf,
    clampFloat_eq_self htau1 htau2]
  simp only [bind, Except.bind, JValue.toIntP, JValue.toFloatP, Option.elim,
    clampFloat_eq_self htau1 htau2]
  rfl

/-- One object-payload step of `load_json`, stated without computation. -/
theorem loadJson_eq (P : Prims) (pl cfgl : List (String × JValue))
    (hcfg : jGetD (JValue.jobj pl) "config" (JValue.jobj []) = JValue.jobj cfgl) :
    loadJson P (some (JValue.jobj pl)) =
      (match mkManagerFromJ P (sanitizeConfig cfgl) with
       | Except.error e => Except.error e
       | Except.ok m0 =>
         match populateFromDict m0 (JValue.jobj pl) with
         | Except.error _ => Except.ok none
         | Except.ok m2 => Except.ok (some m2)) := by
  simp only [loadJson, bind, Except.bind, hcfg]
  cases mkManagerFromJ P (sanitizeConfig cfgl) with
  | error e => rfl
  | ok m0 => rfl

/-- C1: for every well-formed manager state — the well-formedness the code
itself maintains: constructor-accepted configuration, clamped traces stored
under their own unique ids, τ in range, windows within their deque bounds,
sorted pair keys, object frontier values — saving a snapshot with
`save_json` and reloading it with `load_json` succeeds and yields a manager
whose `to_dict` output equals the original manager's `to_dict` output. -/
theorem c1_save_load_roundtrip (P : Prims) (m : Manager) (h : wfManager m) :
    saveLoad P m = Except.ok (some (reloaded P m)) ∧
    managerToDict (reloaded P m) = managerToDict m := by
  refine ⟨?_, rfl⟩
  have hmk := mkManagerFromJ_configDict P m h
  have hpop : populateFromDict (freshOf P m) (JValue.jobj (managerToDictList m)) =
      Except.ok (reloaded P m) := populateFromDict_managerToDict P m h
  show loadJson P (some (JValue.jobj (managerToDictList m))) =
    Except.ok (some (reloaded P m))
  rw [loadJson_eq P (managerToDictList m) (configDict m) rfl]
  rw [hmk]
  dsimp only
  rw [hpop]

set_option maxRecDepth 8000 in
/-- C1 witness: the round trip at the concrete one-trace manager. -/
theorem c1_save_load_roundtrip_witness :
    wfManager mgrA ∧
    (saveLoad P0 mgrA = Except.ok (some (reloaded P0 mgrA)) ∧
     managerToDict (reloaded P0 mgrA) = managerToDict mgrA) :=
  ⟨by with_unfolding_all decide,
   c1_save_load_roundtrip P0 mgrA (by with_unfolding_all decide)⟩

/-- C5 amended witness: the default construction driven through a register,
a reinforce and a degrade call. -/
theorem c5_queue_flag_amended_witness :
    mkManagerFromJ P0 cfg0 = Except.ok mgr0 ∧
    condenseInv (runOps P0 mgr0
      [ Op.register ["a"] ["hi"] none none
      , Op.reinforceOp [["a"]] [[1/10]] (1/2) 3
      , Op.degradeOp ["a"] 1 ]) :=
  ⟨by with_unfolding_all rfl,
   c5_queue_flag_amended P0 cfg0
     [ Op.register ["a"] ["hi"] none none
     , Op.reinforceOp [["a"]] [[1/10]] (1/2) 3
     , Op.degradeOp ["a"] 1 ] mgr0 (by with_unfolding_all rfl)⟩

end VoidDyn

